import Mathlib

/-!
# sf2hpp: a verification development

A shallow embedding of the SoundFont 2 synthesizer in `src/sf2.hpp` and of the
voice pool in `src/DynamicPool.hpp`, followed by theorems about it.

Conventions of the embedding

* Unsigned machine integers are `Nat`, signed ones are `Int`; where the source
  narrows to 16 bits the narrowing is written out (`wrap16`, `shAmount`).
* `float` fields that the parser fills with decimal fractions of a 16-bit
  integer (`pan`, `filter_q`, `attenuation`, `scale_tuning`) are rationals.
  Quantities that go through `pow`, `log`, `sin`, `cos` or `tan` are reals.
  Arithmetic on them is exact: rounding of `float` and `double` is not modelled.
  Decimal `float` literals are taken at their decimal value, except the constant
  `sqrt2_2` of `constant_power_pan`, which is taken at its binary32 value.
* Pointers into the bank (`Sample*`, `Instrument*`) are indices into the
  owning vector; `nullptr` is `none`.
* A function returns `none` where the source reads or writes outside an
  array, dereferences a null pointer, or (for the fuelled loop) has not
  finished within the given number of iterations.
-/

set_option maxRecDepth 100000

namespace SF2

/-! ## HYDRA records -/

/-- The member `shAmount` of `genAmountType`: the 16 bits read as a signed `SHORT`. -/
def shAmount (w : Nat) : Int :=
  if w % 65536 < 32768 then ((w % 65536 : Nat) : Int) else ((w % 65536 : Nat) : Int) - 65536

/-- The member `wAmount` of `genAmountType`: the 16 bits read as an unsigned `WORD`. -/
def wAmount (w : Nat) : Nat := w % 65536

/-- The member `ranges.byLo` of `genAmountType`: the low byte. -/
def byLo (w : Nat) : Nat := w % 256

/-- The member `ranges.byHi` of `genAmountType`: the high byte. -/
def byHi (w : Nat) : Nat := (w / 256) % 256

/-- Enumeration values of `SFGenerator::GenType` (a `WORD`; a file may carry any value). -/
abbrev GenType := Nat

namespace GenType
abbrev startAddrsOffset : GenType := 0
abbrev endAddrsOffset : GenType := 1
abbrev startloopAddrsOffset : GenType := 2
abbrev endloopAddrsOffset : GenType := 3
abbrev startAddrsCoarseOffset : GenType := 4
abbrev modLfoToPitch : GenType := 5
abbrev vibLfoToPitch : GenType := 6
abbrev modEnvToPitch : GenType := 7
abbrev initialFilterFc : GenType := 8
abbrev initialFilterQ : GenType := 9
abbrev modLfoToFilterFc : GenType := 10
abbrev modEnvToFilterFc : GenType := 11
abbrev endAddrsCoarseOffset : GenType := 12
abbrev modLfoToVolume : GenType := 13
abbrev chorusEffectsSend : GenType := 15
abbrev reverbEffectsSend : GenType := 16
abbrev pan : GenType := 17
abbrev delayModLFO : GenType := 21
abbrev freqModLFO : GenType := 22
abbrev delayVibLFO : GenType := 23
abbrev freqVibLFO : GenType := 24
abbrev delayModEnv : GenType := 25
abbrev attackModEnv : GenType := 26
abbrev holdModEnv : GenType := 27
abbrev decayModEnv : GenType := 28
abbrev sustainModEnv : GenType := 29
abbrev releaseModEnv : GenType := 30
abbrev keynumToModEnvHold : GenType := 31
abbrev keynumToModEnvDecay : GenType := 32
abbrev delayVolEnv : GenType := 33
abbrev attackVolEnv : GenType := 34
abbrev holdVolEnv : GenType := 35
abbrev decayVolEnv : GenType := 36
abbrev sustainVolEnv : GenType := 37
abbrev releaseVolEnv : GenType := 38
abbrev keynumToVolEnvHold : GenType := 39
abbrev keynumToVolEnvDecay : GenType := 40
abbrev instrument : GenType := 41
abbrev keyRange : GenType := 43
abbrev velRange : GenType := 44
abbrev startloopAddrsCoarseOffset : GenType := 45
abbrev keynum : GenType := 46
abbrev velocity : GenType := 47
abbrev initialAttenuation : GenType := 48
abbrev endloopAddrsCoarseOffset : GenType := 50
abbrev coarseTune : GenType := 51
abbrev fineTune : GenType := 52
abbrev sampleID : GenType := 53
abbrev sampleModes : GenType := 54
abbrev scaleTuning : GenType := 56
abbrev exclusiveClass : GenType := 57
abbrev overridingRootKey : GenType := 58
end GenType

/-- One record of `HYDRA::sfGenList` / `HYDRA::sfInstGenList`: the operator and the raw
16 bits of the amount. -/
structure sfGenList where
  sfGenOper : GenType
  genAmount : Nat
  deriving DecidableEq, Repr

/-- One record of `HYDRA::sfPresetBag` (the modulator index is not used by the translator). -/
structure sfPresetBag where
  wGenNdx : Nat
  deriving DecidableEq, Repr

/-- One record of `HYDRA::sfInstBag` (the modulator index is not used by the translator). -/
structure sfInstBag where
  wInstGenNdx : Nat
  deriving DecidableEq, Repr

/-- One record of `HYDRA::sfPresetHeader`, without the name and the reserved fields. -/
structure sfPresetHeader where
  wPreset : Nat
  wBank : Nat
  wPresetBagNdx : Nat
  deriving DecidableEq, Repr

/-- One record of `HYDRA::sfInst`, without the name. -/
structure sfInst where
  wInstBagNdx : Nat
  deriving DecidableEq, Repr

/-- One record of `HYDRA::sfSample`, without the name. `chCorrection` is the signed `CHAR`,
`sfSampleType` the 16 bits read from the file. -/
structure sfSample where
  dwStart : Nat := 0
  dwEnd : Nat := 0
  dwStartloop : Nat := 0
  dwEndloop : Nat := 0
  dwSampleRate : Nat := 0
  byOriginalKey : Nat := 0
  chCorrection : Int := 0
  wSampleLink : Nat := 0
  sfSampleType : Nat := 0
  deriving DecidableEq, Repr

/-- The struct `sfVersionTag`. -/
structure sfVersionTag where
  wMajor : Nat := 0
  wMinor : Nat := 0
  deriving DecidableEq, Repr

/-- The arrays of `HYDRA` that the bank scan and the sample, instrument and preset passes
read. -/
structure HYDRA where
  phdr : List sfPresetHeader := []
  pbag : List sfPresetBag := []
  pgen : List sfGenList := []
  inst : List sfInst := []
  ibag : List sfInstBag := []
  igen : List sfGenList := []
  shdr : List sfSample := []
  deriving Repr

/-! ## Bank model -/

/-- Conversion of an `int` result to `int16_t`. -/
def wrap16 (x : Int) : Int := (x + 32768) % 65536 - 32768

/-- The struct `LFO`; both fields are `int16_t`. -/
structure LFO where
  delay : Int := -12000
  frequency : Int := 0
  deriving DecidableEq, Repr

/-- The operator `LFO::operator+` (through `operator+=`, which stores into `int16_t` fields). -/
def LFO.add (lhs rhs : LFO) : LFO :=
  { delay := wrap16 (lhs.delay + rhs.delay),
    frequency := wrap16 (lhs.frequency + rhs.frequency) }

/-- The struct `Envelope`; all fields are `int16_t`. -/
structure Envelope where
  attack : Int := 0
  decay : Int := 0
  sustain : Int := 0
  release : Int := 0
  hold : Int := 0
  delay : Int := 0
  keynumToHold : Int := 0
  keynumToDecay : Int := 0
  deriving DecidableEq, Repr

/-- The function `Envelope::SetToDefault`. -/
def Envelope.SetToDefault (e : Envelope) : Envelope :=
  { e with attack := -12000, decay := -12000, release := -12000, hold := -12000,
           delay := -12000 }

/-- The operator `Envelope::operator+` (through `operator+=`, which stores into `int16_t` fields). -/
def Envelope.add (lhs rhs : Envelope) : Envelope :=
  { attack := wrap16 (lhs.attack + rhs.attack),
    decay := wrap16 (lhs.decay + rhs.decay),
    sustain := wrap16 (lhs.sustain + rhs.sustain),
    release := wrap16 (lhs.release + rhs.release),
    hold := wrap16 (lhs.hold + rhs.hold),
    delay := wrap16 (lhs.delay + rhs.delay),
    keynumToHold := wrap16 (lhs.keynumToHold + rhs.keynumToHold),
    keynumToDecay := wrap16 (lhs.keynumToDecay + rhs.keynumToDecay) }

/-- The enum `LoopMode`. -/
inductive LoopMode where
  | None
  | Continuous
  | Sustain
  deriving DecidableEq, Repr

/-- The struct `Instrument::Zone` (a split). `sample` is the index into `samples` that the
`sampleID` generator stored, `none` for `nullptr`. The `int32_t` fields hold the
mathematical value (signed overflow is undefined in the source). -/
structure Instrument.Zone where
  sample : Option Nat := none
  start_offset : Int := 0
  end_offset : Int := 0
  loop_start_offset : Int := 0
  loop_end_offset : Int := 0
  filter_freq : Int := 13500
  filter_q : ℚ := 0
  chorus_send : Int := 0
  reverb_send : Int := 0
  scale_tuning : ℚ := 1
  root_key : Int := -1
  key_low : Nat := 0
  key_high : Nat := 127
  vel_low : Nat := 0
  vel_high : Nat := 127
  keynum : Int := -1
  velocity : Int := -1
  tune : Int := 0
  exclusive_class : Nat := 0
  pan : ℚ := 0
  attenuation : ℚ := 0
  loop_mode : LoopMode := LoopMode.None
  modLFO : LFO := {}
  modLFO_to_pitch : Int := 0
  modLFO_to_filter_fc : Int := 0
  modLFO_to_volume : Int := 0
  vibLFO : LFO := {}
  vibLFO_to_pitch : Int := 0
  modEnv : Envelope := {}
  modEnv_to_pitch : Int := 0
  modEnv_to_filter_fc : Int := 0
  volEnv : Envelope := {}

/-- The struct `Instrument`, without the name. -/
structure Instrument where
  splits : List Instrument.Zone := []

/-! ## Instrument pass of the `SoundFont2` constructor -/

/-- The body of `switch(ig->sfGenOper.enumeration)` in the instrument pass: the effect of
one instrument generator on the split under construction. -/
def applyInstGen (split : Instrument.Zone) (ig : sfGenList) : Instrument.Zone :=
  let sh := shAmount ig.genAmount
  let op := ig.sfGenOper
  if op = GenType.sampleID then { split with sample := some (wAmount ig.genAmount) }
  else if op = GenType.startAddrsOffset then { split with start_offset := split.start_offset + sh }
  else if op = GenType.startAddrsCoarseOffset then
    { split with start_offset := split.start_offset + sh * 32768 }
  else if op = GenType.endAddrsOffset then { split with end_offset := split.end_offset + sh }
  else if op = GenType.endAddrsCoarseOffset then
    { split with end_offset := split.end_offset + sh * 32768 }
  else if op = GenType.startloopAddrsOffset then
    { split with loop_start_offset := split.loop_start_offset + sh }
  else if op = GenType.startloopAddrsCoarseOffset then
    { split with loop_start_offset := split.loop_start_offset + sh * 32768 }
  else if op = GenType.endloopAddrsOffset then
    { split with loop_end_offset := split.loop_end_offset + sh }
  else if op = GenType.endloopAddrsCoarseOffset then
    { split with loop_end_offset := split.loop_end_offset + sh * 32768 }
  else if op = GenType.modLfoToPitch then { split with modLFO_to_pitch := sh }
  else if op = GenType.vibLfoToPitch then { split with vibLFO_to_pitch := sh }
  else if op = GenType.modEnvToPitch then { split with modEnv_to_pitch := sh }
  else if op = GenType.initialFilterFc then { split with filter_freq := sh }
  else if op = GenType.initialFilterQ then { split with filter_q := (sh : ℚ) / 10 }
  else if op = GenType.modLfoToFilterFc then { split with modLFO_to_filter_fc := sh }
  else if op = GenType.modEnvToFilterFc then { split with modEnv_to_filter_fc := sh }
  else if op = GenType.modLfoToVolume then { split with modLFO_to_volume := sh }
  else if op = GenType.chorusEffectsSend then { split with chorus_send := sh }
  else if op = GenType.reverbEffectsSend then { split with reverb_send := sh }
  else if op = GenType.pan then { split with pan := (sh : ℚ) / 1000 }
  else if op = GenType.delayModLFO then { split with modLFO := { split.modLFO with delay := sh } }
  else if op = GenType.freqModLFO then
    { split with modLFO := { split.modLFO with frequency := sh } }
  else if op = GenType.delayVibLFO then { split with vibLFO := { split.vibLFO with delay := sh } }
  else if op = GenType.freqVibLFO then
    { split with vibLFO := { split.vibLFO with frequency := sh } }
  else if op = GenType.delayModEnv then { split with modEnv := { split.modEnv with delay := sh } }
  else if op = GenType.attackModEnv then
    { split with modEnv := { split.modEnv with attack := sh } }
  else if op = GenType.holdModEnv then { split with modEnv := { split.modEnv with hold := sh } }
  else if op = GenType.decayModEnv then { split with modEnv := { split.modEnv with decay := sh } }
  else if op = GenType.sustainModEnv then
    { split with modEnv := { split.modEnv with sustain := sh } }
  else if op = GenType.releaseModEnv then
    { split with modEnv := { split.modEnv with release := sh } }
  else if op = GenType.keynumToModEnvHold then
    { split with modEnv := { split.modEnv with keynumToHold := sh } }
  else if op = GenType.keynumToModEnvDecay then
    { split with modEnv := { split.modEnv with keynumToDecay := sh } }
  else if op = GenType.delayVolEnv then { split with volEnv := { split.volEnv with delay := sh } }
  else if op = GenType.attackVolEnv then
    { split with volEnv := { split.volEnv with attack := sh } }
  else if op = GenType.holdVolEnv then { split with volEnv := { split.volEnv with hold := sh } }
  else if op = GenType.decayVolEnv then { split with volEnv := { split.volEnv with decay := sh } }
  else if op = GenType.sustainVolEnv then
    { split with volEnv := { split.volEnv with sustain := sh } }
  else if op = GenType.releaseVolEnv then
    { split with volEnv := { split.volEnv with release := sh } }
  else if op = GenType.keynumToVolEnvHold then
    { split with volEnv := { split.volEnv with keynumToHold := sh } }
  else if op = GenType.keynumToVolEnvDecay then
    { split with volEnv := { split.volEnv with keynumToDecay := sh } }
  else if op = GenType.keyRange then
    { split with key_low := byLo ig.genAmount, key_high := byHi ig.genAmount }
  else if op = GenType.velRange then
    { split with vel_low := byLo ig.genAmount, vel_high := byHi ig.genAmount }
  else if op = GenType.keynum then { split with keynum := sh }
  else if op = GenType.velocity then { split with velocity := sh }
  else if op = GenType.initialAttenuation then { split with attenuation := (sh : ℚ) / 10 }
  else if op = GenType.coarseTune then { split with tune := split.tune + sh * 100 }
  else if op = GenType.fineTune then { split with tune := split.tune + sh }
  else if op = GenType.sampleModes then
    { split with loop_mode :=
        if wAmount ig.genAmount % 4 = 1 then LoopMode.Continuous
        else if wAmount ig.genAmount % 4 = 3 then LoopMode.Sustain
        else LoopMode.None }
  else if op = GenType.scaleTuning then { split with scale_tuning := (sh : ℚ) / 100 }
  else if op = GenType.exclusiveClass then { split with exclusive_class := wAmount ig.genAmount }
  else if op = GenType.overridingRootKey then { split with root_key := sh }
  else split

/-- The state the zone loop of one instrument carries: the local `global_zone` and
`instruments[i]->splits`. -/
structure InstLoopState where
  global_zone : Option Instrument.Zone := none
  splits : List Instrument.Zone := []

/-- A freshly allocated split: `new Instrument::Zone` followed by `SetToDefault` on both
envelopes. -/
def newSplit : Instrument.Zone :=
  { modEnv := Envelope.SetToDefault {}, volEnv := Envelope.SetToDefault {} }

/-- The split of one zone after the generator loop: the defaults, overwritten by a copy of
the global zone when there is one, then every generator of the zone in order. -/
def foldZone (global_zone : Option Instrument.Zone) (gens : List sfGenList) :
    Instrument.Zone :=
  gens.foldl applyInstGen (match global_zone with
    | some g => g
    | none => newSplit)

/-- One iteration of the zone loop of the instrument pass, for the zone at bag index `j` of
an instrument whose zones are the bag indices `first .. next - 1`; `gens` are the zone's
generators. `discard_zone` deletes and erases `splits.back()`; on an empty `splits` that is
undefined and the result is `none`. -/
def instZoneStep (first next j : Nat) (st : InstLoopState) (gens : List sfGenList) :
    Option InstLoopState :=
  let split := foldZone st.global_zone gens
  if split.sample = none then
    if j = first ∧ (next : Int) - (first : Int) > 1 then
      some { st with global_zone := some split }
    else if st.splits.isEmpty then none
    else some { st with splits := st.splits.dropLast }
  else some { st with splits := st.splits ++ [split] }

/-- The zone loop of one instrument over the zones' generator lists, the first of which has
bag index `first`. -/
def instZoneLoop (first next : Nat) :
    Nat → InstLoopState → List (List sfGenList) → Option InstLoopState
  | _, st, [] => some st
  | j, st, gens :: rest =>
    match instZoneStep first next j st gens with
    | none => none
    | some st1 => instZoneLoop first next (j + 1) st1 rest

/-- The elements `l[b], …, l[e-1]` that a loop `for (k = b; &l[k] != &l[e]; ++k)` visits.
The loop reads `l[e]` for its end marker and never stops when `e < b`, so the range
exists only for `b ≤ e < l.length`. -/
def genRange (l : List sfGenList) (b e : Nat) : Option (List sfGenList) :=
  if b ≤ e ∧ e < l.length then some ((l.drop b).take (e - b)) else none

/-- Generator lists of the instrument zones with bag indices `j, …, j + n - 1`. -/
def instZoneGens (hydra : HYDRA) : Nat → Nat → Option (List (List sfGenList))
  | _, 0 => some []
  | j, n + 1 =>
    match hydra.ibag[j]?, hydra.ibag[j + 1]? with
    | some iz, some iz1 =>
      match genRange hydra.igen iz.wInstGenNdx iz1.wInstGenNdx,
            instZoneGens hydra (j + 1) n with
      | some gens, some rest => some (gens :: rest)
      | _, _ => none
    | _, _ => none

/-- The instrument pass for `hydra.inst[i]`: the splits of `instruments[i]`. -/
def loadInstrument (hydra : HYDRA) (i : Nat) : Option Instrument :=
  match hydra.inst[i]?, hydra.inst[i + 1]? with
  | some inst, some inst1 =>
    if inst.wInstBagNdx ≤ inst1.wInstBagNdx ∧ inst1.wInstBagNdx < hydra.ibag.length then
      match instZoneGens hydra inst.wInstBagNdx (inst1.wInstBagNdx - inst.wInstBagNdx) with
      | some zones =>
        match instZoneLoop inst.wInstBagNdx inst1.wInstBagNdx inst.wInstBagNdx {} zones with
        | some st => some { splits := st.splits }
        | none => none
      | none => none
    else none
  | _, _ => none

/-! ## Preset pass of the `SoundFont2` constructor -/

/-- The struct `Preset::Zone` (a layer). `instrument` is the index into `instruments` that
the `instrument` generator stored, `none` for `nullptr`. -/
structure Preset.Zone where
  instrument : Option Nat := none
  filter_freq : Int := 0
  filter_q : ℚ := 0
  chorus_send : Int := 0
  reverb_send : Int := 0
  scale_tuning : ℚ := 0
  key_low : Nat := 0
  key_high : Nat := 127
  vel_low : Nat := 0
  vel_high : Nat := 127
  tune : Int := 0
  pan : ℚ := 0
  attenuation : ℚ := 0
  modLFO : LFO := { delay := 0, frequency := 0 }
  modLFO_to_pitch : Int := 0
  modLFO_to_filter_fc : Int := 0
  modLFO_to_volume : Int := 0
  vibLFO : LFO := { delay := 0, frequency := 0 }
  vibLFO_to_pitch : Int := 0
  modEnv : Envelope := {}
  modEnv_to_pitch : Int := 0
  modEnv_to_filter_fc : Int := 0
  volEnv : Envelope := {}

/-- The struct `Preset`, without the name. -/
structure Preset where
  num : Nat := 0
  layers : List Preset.Zone := []

/-- The body of `switch((*pg)->sfGenOper.enumeration)` in the preset pass: the effect of one
generator of the merged list on the layer under construction. -/
def applyPresetGen (layer : Preset.Zone) (pg : sfGenList) : Preset.Zone :=
  let sh := shAmount pg.genAmount
  let op := pg.sfGenOper
  if op = GenType.instrument then { layer with instrument := some (wAmount pg.genAmount) }
  else if op = GenType.modLfoToPitch then { layer with modLFO_to_pitch := sh }
  else if op = GenType.vibLfoToPitch then { layer with vibLFO_to_pitch := sh }
  else if op = GenType.modEnvToPitch then { layer with modEnv_to_pitch := sh }
  else if op = GenType.initialFilterFc then { layer with filter_freq := sh }
  else if op = GenType.initialFilterQ then { layer with filter_q := (sh : ℚ) / 10 }
  else if op = GenType.modLfoToFilterFc then { layer with modLFO_to_filter_fc := sh }
  else if op = GenType.modEnvToFilterFc then { layer with modEnv_to_filter_fc := sh }
  else if op = GenType.modLfoToVolume then { layer with modLFO_to_volume := sh }
  else if op = GenType.chorusEffectsSend then { layer with chorus_send := sh }
  else if op = GenType.reverbEffectsSend then { layer with reverb_send := sh }
  else if op = GenType.pan then { layer with pan := (sh : ℚ) / 1000 }
  else if op = GenType.delayModLFO then { layer with modLFO := { layer.modLFO with delay := sh } }
  else if op = GenType.freqModLFO then
    { layer with modLFO := { layer.modLFO with frequency := sh } }
  else if op = GenType.delayVibLFO then { layer with vibLFO := { layer.vibLFO with delay := sh } }
  else if op = GenType.freqVibLFO then
    { layer with vibLFO := { layer.vibLFO with frequency := sh } }
  else if op = GenType.delayModEnv then { layer with modEnv := { layer.modEnv with delay := sh } }
  else if op = GenType.attackModEnv then
    { layer with modEnv := { layer.modEnv with attack := sh } }
  else if op = GenType.holdModEnv then { layer with modEnv := { layer.modEnv with hold := sh } }
  else if op = GenType.decayModEnv then { layer with modEnv := { layer.modEnv with decay := sh } }
  else if op = GenType.sustainModEnv then
    { layer with modEnv := { layer.modEnv with sustain := sh } }
  else if op = GenType.releaseModEnv then
    { layer with modEnv := { layer.modEnv with release := sh } }
  else if op = GenType.keynumToModEnvHold then
    { layer with modEnv := { layer.modEnv with keynumToHold := sh } }
  else if op = GenType.keynumToModEnvDecay then
    { layer with modEnv := { layer.modEnv with keynumToDecay := sh } }
  else if op = GenType.delayVolEnv then { layer with volEnv := { layer.volEnv with delay := sh } }
  else if op = GenType.attackVolEnv then
    { layer with volEnv := { layer.volEnv with attack := sh } }
  else if op = GenType.holdVolEnv then { layer with volEnv := { layer.volEnv with hold := sh } }
  else if op = GenType.decayVolEnv then { layer with volEnv := { layer.volEnv with decay := sh } }
  else if op = GenType.sustainVolEnv then
    { layer with volEnv := { layer.volEnv with sustain := sh } }
  else if op = GenType.releaseVolEnv then
    { layer with volEnv := { layer.volEnv with release := sh } }
  else if op = GenType.keynumToVolEnvHold then
    { layer with volEnv := { layer.volEnv with keynumToHold := sh } }
  else if op = GenType.keynumToVolEnvDecay then
    { layer with volEnv := { layer.volEnv with keynumToDecay := sh } }
  else if op = GenType.keyRange then
    { layer with key_low := byLo pg.genAmount, key_high := byHi pg.genAmount }
  else if op = GenType.velRange then
    { layer with vel_low := byLo pg.genAmount, vel_high := byHi pg.genAmount }
  else if op = GenType.initialAttenuation then { layer with attenuation := (sh : ℚ) / 10 }
  else if op = GenType.coarseTune then { layer with tune := layer.tune + sh * 100 }
  else if op = GenType.fineTune then { layer with tune := layer.tune + sh }
  else if op = GenType.scaleTuning then { layer with scale_tuning := (sh : ℚ) / 100 }
  else layer

/-- The elements between the iterators `l.begin() + b` and `l.begin() + e`, as a loop
`for (pg = begin + b; pg != begin + e; ++pg)` visits them; the loop leaves the vector
unless `b ≤ e ≤ l.size()`. -/
def iterRange (l : List sfGenList) (b e : Nat) : Option (List sfGenList) :=
  if b ≤ e ∧ e ≤ l.length then some ((l.drop b).take (e - b)) else none

/-- The search `for (gen = generators.begin(); …)` for one local generator `pg`: the first
entry of `generators` with the same operator is replaced by `pg` and the search stops;
without such an entry `pg` is appended. -/
def supersede : List sfGenList → sfGenList → List sfGenList
  | [], pg => [pg]
  | gen :: rest, pg =>
    if gen.sfGenOper = pg.sfGenOper then pg :: rest else gen :: supersede rest pg

/-- The vector `generators` of one preset zone: the generators of the global range, then
every local generator merged in by `supersede`. -/
def mergeGenerators (global loc : List sfGenList) : List sfGenList :=
  loc.foldl supersede global

/-- The layer built from the merged generator list. -/
def foldLayer (generators : List sfGenList) : Preset.Zone :=
  generators.foldl applyPresetGen {}

/-- The iterators `global_zone_begin` and `global_zone_end` of preset `i`, as indices into
`pgen`. Both stay at `pgen.begin()` unless the preset has more than one zone, the end of
its first zone is not `pgen.begin()`, and the generator before that end is not
`instrument`. -/
def presetGlobalRange (hydra : HYDRA) (i : Nat) : Option (Nat × Nat) :=
  match hydra.phdr[i]?, hydra.phdr[i + 1]? with
  | some ph, some ph1 =>
    if (ph1.wPresetBagNdx : Int) - (ph.wPresetBagNdx : Int) > 1 then
      match hydra.pbag[ph.wPresetBagNdx]?, hydra.pbag[ph.wPresetBagNdx + 1]? with
      | some zone, some zone1 =>
        if zone1.wGenNdx ≠ 0 then
          match hydra.pgen[zone1.wGenNdx - 1]? with
          | some last =>
            if last.sfGenOper ≠ GenType.instrument then some (zone.wGenNdx, zone1.wGenNdx)
            else some (0, 0)
          | none => none
        else some (0, 0)
      | _, _ => none
    else some (0, 0)
  | _, _ => none

/-- The generators the loop `for (pg = global_zone_begin; pg != global_zone_end; ++pg)`
collects for preset `i`. -/
def presetGlobalGens (hydra : HYDRA) (i : Nat) : Option (List sfGenList) :=
  match presetGlobalRange hydra i with
  | some (b, e) => iterRange hydra.pgen b e
  | none => none

/-- One iteration of the preset zone loop for the zone at bag index `j`, with the global
range `[gb, ge)`: `some none` when the zone is discarded, `some (some layer)` when a layer
is pushed. -/
def presetZoneStep (hydra : HYDRA) (gb ge j : Nat) : Option (Option Preset.Zone) :=
  match hydra.pbag[j]?, hydra.pbag[j + 1]? with
  | some pz, some pz1 =>
    if pz.wGenNdx = pz1.wGenNdx then some none
    else if pz1.wGenNdx = 0 then none
    else
      match hydra.pgen[pz1.wGenNdx - 1]? with
      | none => none
      | some last =>
        if last.sfGenOper ≠ GenType.instrument then some none
        else
          match iterRange hydra.pgen gb ge, iterRange hydra.pgen pz.wGenNdx pz1.wGenNdx with
          | some global, some loc =>
            let generators := mergeGenerators global loc
            if generators.isEmpty then some none else some (some (foldLayer generators))
          | _, _ => none
  | _, _ => none

/-- The preset zone loop over the bag indices `j, …, j + n - 1`: the layers pushed, in
order. -/
def presetZoneLoop (hydra : HYDRA) (gb ge : Nat) : Nat → Nat → Option (List Preset.Zone)
  | _, 0 => some []
  | j, n + 1 =>
    match presetZoneStep hydra gb ge j, presetZoneLoop hydra gb ge (j + 1) n with
    | some none, some rest => some rest
    | some (some layer), some rest => some (layer :: rest)
    | _, _ => none

/-- The preset pass for `hydra.phdr[i]`: the preset with its layers. -/
def loadPreset (hydra : HYDRA) (i : Nat) : Option Preset :=
  match hydra.phdr[i]?, hydra.phdr[i + 1]?, presetGlobalRange hydra i with
  | some ph, some ph1, some (gb, ge) =>
    if ph.wPresetBagNdx ≤ ph1.wPresetBagNdx ∧ ph1.wPresetBagNdx < hydra.pbag.length then
      match presetZoneLoop hydra gb ge ph.wPresetBagNdx
          (ph1.wPresetBagNdx - ph.wPresetBagNdx) with
      | some layers => some { num := ph.wPreset, layers := layers }
      | none => none
    else none
  | _, _, _ => none

/-! ## The voice pool (`DynamicPool.hpp`) -/

/-- The class `DynamicPool<T>` for a trivially copyable `T`: `elems` are the live slots
`_mem[0], …, _mem[_size-1]`, so `_size` is `elems.length`. Arithmetic on `size_t` is taken
without wrap-around. -/
structure DynamicPool (T : Type) where
  elems : List T := []
  capacity : Nat := 256
  resize_len : Nat := 256

/-- The value `-1` converted to `size_t`, which switches automatic growth off. -/
def SIZE_MAX : Nat := 2 ^ 64 - 1

namespace DynamicPool

variable {T : Type}

/-- The function `DynamicPool::size`. -/
def size (p : DynamicPool T) : Nat := p.elems.length

/-- The function `DynamicPool::emplace_back` with the constructed element `x`. A full pool whose
`_resize_len` is `-1` is returned unchanged; a full pool grows by `_resize_len` slots, and
when the grown block still has no free slot the placement-new writes past it (`none`). -/
def emplace_back (p : DynamicPool T) (x : T) : Option (DynamicPool T) :=
  if p.size + 1 > p.capacity then
    if p.resize_len = SIZE_MAX then some p
    else if p.size + 1 > p.capacity + p.resize_len then none
    else some { p with elems := p.elems ++ [x], capacity := p.capacity + p.resize_len }
  else some { p with elems := p.elems ++ [x] }

/-- An update through the reference `back()`, which is `_mem[_size-1]`; there is no such
slot in an empty pool (`none`). -/
def modifyBack (p : DynamicPool T) (f : T → T) : Option (DynamicPool T) :=
  match p.elems.getLast? with
  | none => none
  | some v => some { p with elems := p.elems.dropLast ++ [f v] }

end DynamicPool

/-! ## Numeric primitives -/

/-- The function `cents_to_hertz`. -/
noncomputable def cents_to_hertz (cents : ℝ) : ℝ := (2 : ℝ) ^ (cents / 1200)

/-- The function `timecents_to_seconds`. -/
noncomputable def timecents_to_seconds (timecents : ℝ) : ℝ :=
  if timecents ≤ -12000 then 1 / 1000 else (2 : ℝ) ^ (timecents / 1200)

/-- The function `gain_to_decibels`. -/
noncomputable def gain_to_decibels (gain : ℝ) : ℝ :=
  if gain ≤ 1 / 100000 then -100 else 20 * Real.logb 10 gain

/-- The `double` whose upper 32 bits are the `int` `h` and whose lower 32 bits are zero
(IEEE-754 binary64: sign, 11 exponent bits, the top 20 mantissa bits). The exponent field
2047 (infinities and NaNs) has no real value and is read like a finite exponent. -/
noncomputable def doubleOfUpperWord (h : Int) : ℝ :=
  let bits := h % 2147483648
  let e := bits / 1048576
  let m := bits % 1048576
  let mag : ℝ :=
    if e = 0 then (m : ℝ) / 1048576 * (2 : ℝ) ^ (-1022 : ℤ)
    else (1 + (m : ℝ) / 1048576) * (2 : ℝ) ^ (e - 1023)
  if h < 0 then -mag else mag

/-- The conversion `(int)x` of a `double`: truncation toward zero. -/
noncomputable def truncToInt (x : ℝ) : Int := if 0 ≤ x then ⌊x⌋ else ⌈x⌉

/-- The function `fastPow(a, b)`, where `x1` is the upper 32-bit word `u.x[1]` of the argument `a`. -/
noncomputable def fastPow (x1 : Int) (b : ℝ) : ℝ :=
  doubleOfUpperWord (truncToInt (b * ((x1 : ℝ) - 1072632447) + 1072632447))

/-- The function `decibels_to_gain`; `1076101120 = 0x40240000` is the upper word of `10.0`. -/
noncomputable def decibels_to_gain (db : ℝ) : ℝ :=
  if db > -100 then fastPow 1076101120 (db * (5 / 100)) else 0

/-- The function `constant_power_pan`: the pair `(factor_L, factor_R)`; `M_TAU*0.125` is `π/4`.
The constant `sqrt2_2` is the `float` literal `0.70710678f`, whose value is the binary32
number `11863283 / 2^24 = 0.707106769084930419921875`. -/
noncomputable def constant_power_pan (pan : ℝ) : ℝ × ℝ :=
  let sqrt2_2 : ℝ := 11863283 / 16777216
  let p := pan * (2 * Real.pi) * (125 / 1000)
  (sqrt2_2 * (Real.cos p - Real.sin p), sqrt2_2 * (Real.cos p + Real.sin p))

/-- The function `clamp_panning`. -/
noncomputable def clamp_panning (pan : ℝ) : ℝ :=
  let pan1 := max (min pan 2) (-2)
  if pan1 > 1 then 2 - pan1 else if pan1 < -1 then -(-2 + pan1) else pan1

/-! ## Samples and the bank -/

/-- The values of the enum `SFSampleLink`. -/
abbrev SFSampleLink := Nat

namespace SFSampleLink
abbrev monoSample : SFSampleLink := 1
abbrev rightSample : SFSampleLink := 2
abbrev leftSample : SFSampleLink := 4
abbrev linkedSample : SFSampleLink := 8
end SFSampleLink

/-- The function `IsSampleROM`: `type & 0xFFF0` is non-zero. -/
def IsSampleROM (type : SFSampleLink) : Bool := Nat.land type 0xFFF0 != 0

/-- The struct `Sample`, without the name; `linked_sample` is an index into `samples`.
The member `data` is the decoded buffer, `none` for `nullptr`; its values are the
quotients `load_data` stores. -/
structure Sample where
  loop_start : Nat := 0
  loop_end : Nat := 0
  sample_rate : Nat := 0
  original_key : Nat := 0
  correction : Int := 0
  data_stream_offset : Nat := 0
  data : Option (List ℚ) := none
  size : Nat := 0
  sample_type : SFSampleLink := SFSampleLink.monoSample
  linked_sample : Option Nat := none
  deriving DecidableEq, Repr

/-- The struct `Bank`: the MIDI bank number and the presets of the bank. -/
structure Bank where
  num : Nat := 0
  presets : List Preset := []

/-- The struct `SoundFont2` after construction: the version tag `ifil`, `samples`,
`instruments`, `banks`, and what `load_data` reads later, that is the bytes of the data
stream `stream` and the offsets `sample_data_offset` and `sample_data_24_offset` of the
`smpl` and `sm24` data in it. -/
structure SoundFont2 where
  ifil : sfVersionTag := {}
  samples : List Sample := []
  instruments : List Instrument := []
  banks : List Bank := []
  stream : List Nat := []
  sample_data_offset : Nat := 0
  sample_data_24_offset : Nat := 0

/-! ## Voices -/

/-- The enum `Voice::EnvPhase`. -/
inductive EnvPhase where
  | Delay
  | Attack
  | Hold
  | Decay
  | Sustain
  | Release
  | End
  deriving DecidableEq, Repr

/-- The integer value of an `EnvPhase` (`static_cast<int>`). -/
def EnvPhase.toInt : EnvPhase → Int
  | Delay => 0
  | Attack => 1
  | Hold => 2
  | Decay => 3
  | Sustain => 4
  | Release => 5
  | End => 6

/-- The struct `Voice::Env<is_decibels>`; the template flag is an argument of its
functions. The default values are those of `Env()`, with `0` for the members it leaves
uninitialised. -/
structure Env where
  delay : ℝ := 0
  attack : ℝ := 0
  hold : ℝ := 0
  decay : ℝ := 0
  sustain : ℝ := 0
  release : ℝ := 0
  keynumToHold : ℝ := 1
  keynumToDecay : ℝ := 1
  slope_factor : ℝ := 0
  phase : EnvPhase := EnvPhase.Delay
  time : ℝ := 0
  value : ℝ := 0

/-- The constructor `Env(const Envelope& env, const Envelope& env2, uint8_t key)`. -/
noncomputable def Env.ofEnvelopes (is_decibels : Bool) (env env2 : Envelope) (key : Nat) :
    Env :=
  let tmp_envelope := Envelope.add env env2
  let delay := timecents_to_seconds tmp_envelope.delay
  { value := if is_decibels then -96 else 0,
    delay := delay,
    attack := timecents_to_seconds tmp_envelope.attack,
    hold := timecents_to_seconds tmp_envelope.hold *
      timecents_to_seconds ((tmp_envelope.keynumToHold * (60 - (key : Int)) : Int) : ℝ),
    decay := timecents_to_seconds tmp_envelope.decay *
      timecents_to_seconds ((tmp_envelope.keynumToDecay * (60 - (key : Int)) : Int) : ℝ),
    release := timecents_to_seconds tmp_envelope.release,
    sustain := if is_decibels then (tmp_envelope.sustain : ℝ) * (1 / 10)
               else 1 - (tmp_envelope.sustain : ℝ) * (1 / 1000),
    slope_factor := 1 / delay }

/-- The function `fast_lerp`. -/
def fast_lerp (a b f : ℝ) : ℝ := a + f * (b - a)

/-- The function `Env::Get`: the returned value and the envelope after the call. -/
noncomputable def Env.Get (is_decibels : Bool) (e : Env) (delta_time : ℝ) : ℝ × Env :=
  match e.phase with
  | EnvPhase.Delay =>
    let time := e.time + delta_time
    let e1 : Env :=
      if time ≥ e.delay then
        { e with time := time - e.delay, phase := EnvPhase.Attack, slope_factor := 1 / e.attack }
      else { e with time := time }
    (if is_decibels then -96 else 0, e1)
  | EnvPhase.Attack =>
    let val : ℝ :=
      if is_decibels then gain_to_decibels (e.time * e.slope_factor) else e.time * e.slope_factor
    let time := e.time + delta_time
    let e1 : Env :=
      if time ≥ e.attack then
        { e with value := val, time := time - e.attack, phase := EnvPhase.Hold,
                 slope_factor := 1 / e.hold }
      else { e with value := val, time := time }
    (val, e1)
  | EnvPhase.Hold =>
    let value : ℝ := if is_decibels then 0 else 1
    let time := e.time + delta_time
    let e1 : Env :=
      if time ≥ e.hold then
        { e with value := value, time := time - e.hold, phase := EnvPhase.Decay,
                 slope_factor := 1 / e.decay }
      else { e with value := value, time := time }
    (value, e1)
  | EnvPhase.Decay =>
    let val : ℝ :=
      if is_decibels then -e.sustain * e.time * e.slope_factor
      else fast_lerp 1 e.sustain (e.time * e.slope_factor)
    let time := e.time + delta_time
    let e1 : Env :=
      if time ≥ e.decay then
        { e with value := val, time := time - e.decay, phase := EnvPhase.Sustain }
      else { e with value := val, time := time }
    (val, e1)
  | EnvPhase.Sustain => (if is_decibels then -e.sustain else e.sustain, e)
  | EnvPhase.Release =>
    let val : ℝ :=
      if is_decibels then e.value + (e.time * e.slope_factor) * (-96 - e.value)
      else fast_lerp e.value 0 (e.time * e.slope_factor)
    let time := e.time + delta_time
    let e1 : Env :=
      if time ≥ e.release then { e with time := time - e.release, phase := EnvPhase.End }
      else { e with time := time }
    (val, e1)
  | EnvPhase.End => (if is_decibels then -96 else 0, e)

/-- The function `Env::Release`. -/
noncomputable def Env.Release (e : Env) : Env :=
  { e with slope_factor := 1 / e.release, phase := EnvPhase.Release, time := 0 }

/-- The struct `BiQuadLowpass`, with `0` for the members left uninitialised. -/
structure BiQuadLowpass where
  inv_Q : ℝ := 0
  a0 : ℝ := 0
  a1 : ℝ := 0
  b1 : ℝ := 0
  b2 : ℝ := 0
  z1 : ℝ := 0
  z2 : ℝ := 0
  active : Bool := false

/-- The function `BiQuadLowpass::set_Q`, for `Q ≠ 0`. For `Q = 0` the source stores
`1.0f / 0`, an infinity, where the real quotient of the model is `0`. -/
noncomputable def BiQuadLowpass.set_Q (f : BiQuadLowpass) (Q : ℝ) : BiQuadLowpass :=
  { f with inv_Q := 1 / Q }

/-- The function `BiQuadLowpass::set_frequency`. -/
noncomputable def BiQuadLowpass.set_frequency (f : BiQuadLowpass) (Fc : ℝ) : BiQuadLowpass :=
  let K := Real.tan (Real.pi * Fc)
  let KK := K * K
  let norm := 1 / (1 + K * f.inv_Q + KK)
  let a0 := KK * norm
  { f with a0 := a0, a1 := 2 * a0, b1 := 2 * (KK - 1) * norm,
           b2 := (1 - K * f.inv_Q + KK) * norm }

/-- The struct `Voice::VoiceLFO`, with `0` for the members left uninitialised. -/
structure VoiceLFO where
  time : ℝ := 0
  freq : ℝ := 0
  delay : ℝ := 0

/-- The constructor `VoiceLFO(LFO& lfo, LFO& lfo2)`. -/
noncomputable def VoiceLFO.ofLFOs (lfo lfo2 : LFO) : VoiceLFO :=
  let tmp_lfo := LFO.add lfo lfo2
  { time := 0,
    freq := 8176 / 1000 * cents_to_hertz (tmp_lfo.frequency : ℝ),
    delay := timecents_to_seconds (tmp_lfo.delay : ℝ) }

/-- The struct `Voice`. `zone` is the split the pointer `zone` refers to (the bank is not
modified after construction), `sample` an index into `samples`. -/
structure Voice where
  zone : Option Instrument.Zone := none
  sample : Option Nat := none
  sample_pos : ℝ := 0
  sample_end_pos : Nat := 0
  hold : Bool := false
  loop_start : Nat := 0
  loop_end : Nat := 0
  pan_factor_l : ℝ := 0
  pan_factor_r : ℝ := 0
  freq : ℝ := 0
  gain : ℝ := 0
  filter_freq : ℝ := 0
  filter_q : ℝ := 0
  modenv_to_filter_freq : ℝ := 0
  modenv_to_pitch : ℝ := 0
  key : Nat := 0
  volenv : Env := {}
  modenv : Env := {}
  lowpass : BiQuadLowpass := {}
  modLFO : VoiceLFO := {}
  modLFO_to_pitch : ℝ := 0
  modLFO_to_filter_fc : ℝ := 0
  modLFO_to_volume : ℝ := 0
  vibLFO : VoiceLFO := {}
  vibLFO_to_pitch : ℝ := 0

/-- The function `Voice::Release` (note off). -/
def Voice.Release (v : Voice) : Voice := { v with hold := false }

/-! ## Voice construction (`SoundFont2::GenerateVoices`) -/

/-- The conversion of an integer to `uint8_t`. -/
def toUInt8 (x : Int) : Nat := (x % 256).toNat

/-- The conversion of an integer to `uint32_t`. -/
def toUInt32 (x : Int) : Nat := (x % 4294967296).toNat

/-- The `switch(sample->sample_type)` that sets the local `pan`; a type without a case
leaves the previous value. -/
noncomputable def samplePan (type : SFSampleLink) (pan : ℝ) : ℝ :=
  if type = SFSampleLink.monoSample then 0
  else if type = SFSampleLink.leftSample then -(1 / 2)
  else if type = SFSampleLink.rightSample then 1 / 2
  else if type = SFSampleLink.linkedSample then 0
  else pan

/-- The playback frequency computed under `//calculate pitch factors`. -/
noncomputable def voiceFreq (layer : Preset.Zone) (split : Instrument.Zone) (sample : Sample)
    (tmp_key : Nat) : ℝ :=
  let root_key_cents : ℝ :=
    ((if split.root_key = -1 then (sample.original_key : Int) else split.root_key : Int) : ℝ)
      * 100
  let note_cents : ℝ := (tmp_key : ℝ) * 100 + (split.tune : ℝ) + (layer.tune : ℝ)
  let src_freq_factor : ℝ := (sample.sample_rate : ℝ) / cents_to_hertz root_key_cents
  let freq : ℝ := src_freq_factor * cents_to_hertz
    (root_key_cents + (note_cents - root_key_cents) *
      ((split.scale_tuning : ℝ) + (layer.scale_tuning : ℝ)))
  if sample.correction ≠ 0 then freq * cents_to_hertz (sample.correction : ℝ) else freq

/-- The low-pass set-up under `//setup lowpass filter`, given the voice's `filter_freq`,
`filter_q` and `modenv_to_filter_freq`. -/
noncomputable def setupLowpass (lowpass : BiQuadLowpass)
    (filter_freq filter_q modenv_to_filter_freq sample_rate : ℝ) : BiQuadLowpass :=
  let active : Bool :=
    !(decide (filter_freq > 20000) && decide (filter_q < 0) &&
      decide (modenv_to_filter_freq ≠ 0))
  let lp : BiQuadLowpass := { lowpass with active := active }
  if active then
    (lp.set_Q (decibels_to_gain filter_q)).set_frequency (filter_freq / sample_rate)
  else lp

/-- The assignments of the block `create_voice:` to the voice `container.back()`, for the
sample `sample` with index `sampleIdx`; `pan` is the local `pan` after the switch. -/
noncomputable def setupVoice (sample_rate : ℝ) (layer : Preset.Zone) (split : Instrument.Zone)
    (key tmp_key tmp_vel sampleIdx : Nat) (sample : Sample) (pan : ℝ) (voice : Voice) :
    Voice :=
  let filter_q : ℝ := (layer.filter_q : ℝ) + (split.filter_q : ℝ)
  let filter_freq : ℝ :=
    8176 / 1000 * cents_to_hertz ((layer.filter_freq + split.filter_freq : Int) : ℝ)
  let modenv_to_filter_freq : ℝ :=
    ((layer.modEnv_to_filter_fc + split.modEnv_to_filter_fc : Int) : ℝ)
  let factors := constant_power_pan
    (clamp_panning (pan + (layer.pan : ℝ) + (split.pan : ℝ)))
  { voice with
    key := tmp_key,
    sample := some sampleIdx,
    zone := some split,
    hold := true,
    sample_pos := (split.start_offset : ℝ),
    sample_end_pos := toUInt32 ((sample.size : Int) + split.end_offset),
    loop_start := toUInt32 ((sample.loop_start : Int) + split.loop_start_offset),
    loop_end := toUInt32 ((sample.loop_end : Int) + split.loop_end_offset),
    volenv := Env.ofEnvelopes true layer.volEnv split.volEnv key,
    modenv := Env.ofEnvelopes false layer.modEnv split.modEnv key,
    filter_q := filter_q,
    filter_freq := filter_freq,
    modenv_to_filter_freq := modenv_to_filter_freq,
    lowpass := setupLowpass voice.lowpass filter_freq filter_q modenv_to_filter_freq sample_rate,
    modenv_to_pitch := ((layer.modEnv_to_pitch + split.modEnv_to_pitch : Int) : ℝ),
    modLFO := VoiceLFO.ofLFOs layer.modLFO split.modLFO,
    modLFO_to_filter_fc := ((layer.modLFO_to_filter_fc + split.modLFO_to_filter_fc : Int) : ℝ),
    modLFO_to_pitch := ((layer.modLFO_to_pitch + split.modLFO_to_pitch : Int) : ℝ),
    modLFO_to_volume := ((layer.modLFO_to_volume + split.modLFO_to_volume : Int) : ℝ) / 10,
    vibLFO := VoiceLFO.ofLFOs layer.modLFO split.modLFO,
    vibLFO_to_pitch := ((layer.vibLFO_to_pitch + split.vibLFO_to_pitch : Int) : ℝ),
    gain := decibels_to_gain (-((layer.attenuation : ℝ) + (split.attenuation : ℝ)) * (4 / 10))
      * ((tmp_vel : ℝ) / 127),
    pan_factor_l := factors.1,
    pan_factor_r := factors.2,
    freq := voiceFreq layer split sample tmp_key }

/-- The loop formed by the label `create_voice:` and `goto create_voice`, entered with the
sample index `sampleIdx` and the local `pan`; `sample_first` is the split's own sample.
Each round takes one unit of fuel. -/
noncomputable def createVoices (sf : SoundFont2) (sample_rate : ℝ) (layer : Preset.Zone)
    (split : Instrument.Zone) (key tmp_key tmp_vel sample_first : Nat) :
    Nat → Nat → ℝ → DynamicPool Voice → Option (DynamicPool Voice)
  | 0, _, _, _ => none
  | fuel + 1, sampleIdx, pan, container =>
    match sf.samples[sampleIdx]?, sf.samples[sample_first]? with
    | some sample, some first =>
      match container.emplace_back {} with
      | none => none
      | some c1 =>
        let pan1 := samplePan sample.sample_type pan
        match c1.modifyBack
            (setupVoice sample_rate layer split key tmp_key tmp_vel sampleIdx sample pan1) with
        | none => none
        | some c2 =>
          if first.sample_type ≠ SFSampleLink.monoSample then
            match sample.linked_sample with
            | none => some c2
            | some next =>
              if next = sample_first then some c2
              else createVoices sf sample_rate layer split key tmp_key tmp_vel sample_first
                fuel next pan1 c2
          else some c2
    | _, _ => none

/-- The test `key < low || high < key || velocity < vel_low || vel_high < velocity`. -/
def outOfRange (key velocity key_low key_high vel_low vel_high : Nat) : Bool :=
  decide (key < key_low) || decide (key_high < key) ||
    decide (velocity < vel_low) || decide (vel_high < velocity)

/-- The local `tmp_vel` (a `uint8_t`): the split's `velocity` override unless it is `-1`. -/
def tmpVel (split : Instrument.Zone) (velocity : Nat) : Nat :=
  if split.velocity ≠ -1 then toUInt8 split.velocity else velocity

/-- The local `tmp_key` (a `uint8_t`): the split's `keynum` override unless it is `-1`. -/
def tmpKey (split : Instrument.Zone) (key : Nat) : Nat :=
  if split.keynum ≠ -1 then toUInt8 split.keynum else key

/-- The body of `for(auto split : layer->instrument->splits)` for one split. -/
noncomputable def splitVoices (sf : SoundFont2) (sample_rate : ℝ) (fuel : Nat)
    (layer : Preset.Zone) (key velocity : Nat) (split : Instrument.Zone)
    (container : DynamicPool Voice) : Option (DynamicPool Voice) :=
  if outOfRange key velocity split.key_low split.key_high split.vel_low split.vel_high then
    some container
  else
    match split.sample with
    | none => none
    | some sample_first =>
      match sf.samples[sample_first]? with
      | none => none
      | some first =>
        if IsSampleROM first.sample_type then some container
        else
          createVoices sf sample_rate layer split key (tmpKey split key)
            (tmpVel split velocity) sample_first fuel sample_first 0 container

/-- The loop `for(auto split : layer->instrument->splits)`. -/
noncomputable def splitsLoop (sf : SoundFont2) (sample_rate : ℝ) (fuel : Nat)
    (layer : Preset.Zone) (key velocity : Nat) :
    List Instrument.Zone → DynamicPool Voice → Option (DynamicPool Voice)
  | [], container => some container
  | split :: rest, container =>
    match splitVoices sf sample_rate fuel layer key velocity split container with
    | none => none
    | some c1 => splitsLoop sf sample_rate fuel layer key velocity rest c1

/-- The body of `for(auto layer : preset->layers)` for one layer. -/
noncomputable def layerVoices (sf : SoundFont2) (sample_rate : ℝ) (fuel : Nat)
    (key velocity : Nat) (layer : Preset.Zone) (container : DynamicPool Voice) :
    Option (DynamicPool Voice) :=
  if outOfRange key velocity layer.key_low layer.key_high layer.vel_low layer.vel_high then
    some container
  else
    match layer.instrument with
    | none => none
    | some i =>
      match sf.instruments[i]? with
      | none => none
      | some instrument =>
        splitsLoop sf sample_rate fuel layer key velocity instrument.splits container

/-- The loop `for(auto layer : preset->layers)`. -/
noncomputable def layersLoop (sf : SoundFont2) (sample_rate : ℝ) (fuel : Nat)
    (key velocity : Nat) :
    List Preset.Zone → DynamicPool Voice → Option (DynamicPool Voice)
  | [], container => some container
  | layer :: rest, container =>
    match layerVoices sf sample_rate fuel key velocity layer container with
    | none => none
    | some c1 => layersLoop sf sample_rate fuel key velocity rest c1

/-- The function `SoundFont2::GenerateVoices`; `fuel` bounds the rounds of each `create_voice` loop. -/
noncomputable def GenerateVoices (sf : SoundFont2) (fuel : Nat) (preset : Preset)
    (key velocity : Nat) (sample_rate : ℝ) (container : DynamicPool Voice) :
    Option (DynamicPool Voice) :=
  layersLoop sf sample_rate fuel key velocity preset.layers container

/-! ## Channels -/

/-- The struct `Channel`: the voice pool `DynamicPool<Voice>(64, 64)`, the 255 key states,
the selected bank and preset (copies of the objects the pointers refer to), the bank model
and the sustain flag. -/
structure Channel where
  voices : DynamicPool Voice := { elems := [], capacity := 64, resize_len := 64 }
  key_states : List Bool := List.replicate 255 false
  bank : Option Bank := none
  preset : Option Preset := none
  sf : Option SoundFont2 := none
  sustain : Bool := false

/-- The statements of `NoteOn` under `//extinguish fast` for one earlier voice `v`. -/
noncomputable def extinguish (v : Voice) : Voice :=
  let v1 := v.Release
  let r := Env.Get true v1.volenv 0
  { v1 with volenv := { r.2 with value := r.1, time := 0, release := 1 / 1000 } }

/-- The inner loop of `//release exclusive voices` for one new voice with exclusive class
`cls`, over the earlier voices; a voice without a zone is a null dereference (`none`). -/
noncomputable def releaseExclusive (cls : Nat) : List Voice → Option (List Voice)
  | [] => some []
  | v :: rest =>
    match v.zone, releaseExclusive cls rest with
    | some zone, some rest1 =>
      some ((if zone.exclusive_class = cls then extinguish v else v) :: rest1)
    | _, _ => none

/-- The outer loop of `//release exclusive voices` over the new voices `nvs`, acting on
the earlier voices `old`. -/
noncomputable def releaseExclusiveAll : List Voice → List Voice → Option (List Voice)
  | [], old => some old
  | nv :: nvs, old =>
    match nv.zone with
    | none => none
    | some zone =>
      if zone.exclusive_class ≠ 0 then
        match releaseExclusive zone.exclusive_class old with
        | none => none
        | some old1 => releaseExclusiveAll nvs old1
      else releaseExclusiveAll nvs old

/-- The function `Channel::NoteOn`. Writing `key_states[key]` outside the vector is `none`. -/
noncomputable def Channel.NoteOn (ch : Channel) (fuel : Nat) (key velocity : Nat)
    (sample_rate : ℝ) : Option Channel :=
  match ch.preset, ch.sf with
  | some preset, some sf =>
    if key < ch.key_states.length then
      let key_states := ch.key_states.set key true
      let size := ch.voices.size
      match GenerateVoices sf fuel preset key velocity sample_rate ch.voices with
      | none => none
      | some voices =>
        match releaseExclusiveAll (voices.elems.drop size) (voices.elems.take size) with
        | none => none
        | some old =>
          some { ch with key_states := key_states,
                         voices := { voices with elems := old ++ voices.elems.drop size } }
    else none
  | _, _ => some ch

/-- The function `Channel::NoteOff`. Writing `key_states[key]` outside the vector is `none`. -/
def Channel.NoteOff (ch : Channel) (key : Nat) : Option Channel :=
  if key < ch.key_states.length then
    let ch1 := { ch with key_states := ch.key_states.set key false }
    if !ch1.sustain then
      some { ch1 with voices := { ch1.voices with
        elems := ch1.voices.elems.map (fun v => if v.key = key then v.Release else v) } }
    else some ch1
  else none

/-- The loops of `SetSustain` over the keys `keys` of `key_states`: for each key that is
not held, every voice with that key is released. -/
def releaseUpKeys (key_states : List Bool) : List Nat → List Voice → List Voice
  | [], voices => voices
  | key :: keys, voices =>
    if key_states[key]? = some false then
      releaseUpKeys key_states keys (voices.map (fun v => if v.key = key then v.Release else v))
    else releaseUpKeys key_states keys voices

/-- The function `Channel::SetSustain`. -/
def Channel.SetSustain (ch : Channel) (enable : Bool) : Channel :=
  let ch1 := { ch with sustain := enable }
  if !enable then
    { ch1 with voices := { ch1.voices with
        elems := releaseUpKeys ch1.key_states (List.range ch1.key_states.length)
          ch1.voices.elems } }
  else ch1

/-! ## Rendering (`Voice::Render`, `Voice::IsDone`, `Channel::Render`) -/

/-- The function `fmod` of `<cmath>`: the remainder of `x / y` with the quotient truncated
toward zero. -/
noncomputable def fmod (x y : ℝ) : ℝ := x - y * (truncToInt (x / y) : ℝ)

/-- The function `VoiceLFO::Get`: the returned value and the LFO after the call. The
unqualified `abs` of the source is taken as the absolute value of its `float` argument; in
a build where it resolves to `int abs(int)` the argument is truncated first. -/
noncomputable def VoiceLFO.Get (l : VoiceLFO) (delta_time : ℝ) : ℝ × VoiceLFO :=
  let time := l.time + delta_time
  (if time < l.delay then 0 else |fmod (4 * l.freq * (time - l.delay) + 3) 4 - 2| - 1,
   { l with time := time })

/-- The function `BiQuadLowpass::process`: the output and the filter after the call. -/
def BiQuadLowpass.process (f : BiQuadLowpass) (inp : ℝ) : ℝ × BiQuadLowpass :=
  let out := inp * f.a0 + f.z1
  (out, { f with z1 := inp * f.a1 + f.z2 - f.b1 * out, z2 := inp * f.a0 - f.b2 * out })

/-- The local `is_looping` of `Voice::Render`. -/
def Voice.isLooping (v : Voice) (zone : Instrument.Zone) : Bool :=
  (v.hold && decide (zone.loop_mode ≠ LoopMode.None)) ||
    decide (zone.loop_mode = LoopMode.Continuous)

/-- The local `pos_next` of `Voice::Render`:
`(pos >= loop_end && is_looping || pos + 1 >= size) ? (is_looping ? loop_start : pos) : pos + 1`. -/
def nextPos (pos loop_start loop_end size : Nat) (is_looping : Bool) : Nat :=
  if (decide (pos ≥ loop_end) && is_looping) || decide (pos + 1 ≥ size) then
    (if is_looping then loop_start else pos)
  else pos + 1

/-- The sample position after `sample_pos += step` and the wrap
`if(sample_pos >= loop_end && is_looping) sample_pos -= (loop_end - loop_start)`; the
difference is formed in `uint32_t`. -/
noncomputable def advancePos (sample_pos step : ℝ) (loop_start loop_end : Nat)
    (is_looping : Bool) : ℝ :=
  if sample_pos + step ≥ (loop_end : ℝ) ∧ is_looping = true then
    sample_pos + step - (toUInt32 ((loop_end : Int) - (loop_start : Int)) : ℝ)
  else sample_pos + step

/-- The volume envelope after one frame: `Get`, then the early end of an inaudible release
(`volenv_gain < 0.002f` in the Release phase), then the release after a note off. The
first component is `volenv_gain`. -/
noncomputable def frameVolEnv (volenv : Env) (hold : Bool) (delta_time : ℝ) : ℝ × Env :=
  let r := Env.Get true volenv delta_time
  let volenv_gain := decibels_to_gain r.1
  let e1 : Env :=
    if volenv_gain < 2 / 1000 ∧ r.2.phase = EnvPhase.Release then
      { r.2 with phase := EnvPhase.End }
    else r.2
  let e2 : Env :=
    if e1.phase.toInt < EnvPhase.Release.toInt ∧ hold = false then e1.Release else e1
  (volenv_gain, e2)

/-- The modulation envelope after one frame: `Get`, then the release after a note off.
The first component is `modenv_gain`. -/
noncomputable def frameModEnv (modenv : Env) (hold : Bool) (delta_time : ℝ) : ℝ × Env :=
  let r := Env.Get false modenv delta_time
  let e1 : Env :=
    if r.2.phase.toInt < EnvPhase.Release.toInt ∧ hold = false then r.2.Release else r.2
  (r.1, e1)

/-- The low-pass stage of one frame for the value `val`: the cutoff modulated by the
modulation envelope and the modulation LFO, clamped to `0.4977 * sample_rate`, the
coefficients recomputed when the cutoff differs from `filter_freq`, and `process`; an
inactive filter passes `val` through. -/
noncomputable def frameLowpass (v : Voice) (sample_rate modenv_gain modlfo_val val : ℝ) :
    ℝ × BiQuadLowpass :=
  let f0 := v.filter_freq
  let f1 := if v.modenv_to_filter_freq ≠ 0 then
      f0 * cents_to_hertz (modenv_gain * v.modenv_to_filter_freq) else f0
  let f2 := if v.modLFO_to_filter_fc ≠ 0 then
      f1 * cents_to_hertz (modlfo_val * v.modLFO_to_filter_fc) else f1
  if v.lowpass.active then
    let f3 := if f2 > sample_rate * (4977 / 10000) then sample_rate * (4977 / 10000) else f2
    let lp := if f3 ≠ v.filter_freq then v.lowpass.set_frequency (f3 * (1 / sample_rate))
      else v.lowpass
    lp.process val
  else (val, v.lowpass)

/-- The local `step` after one frame: `step_ * adjusted_pitch` when a pitch routing is
non-zero, unchanged otherwise. -/
noncomputable def frameStep (v : Voice) (step_ step modenv_gain viblfo_val modlfo_val : ℝ) :
    ℝ :=
  if v.modenv_to_pitch ≠ 0 ∨ v.vibLFO_to_pitch ≠ 0 ∨ v.modLFO_to_pitch ≠ 0 then
    let a1 : ℝ := if v.modenv_to_pitch ≠ 0 then
        1 * cents_to_hertz (modenv_gain * v.modenv_to_pitch) else 1
    let a2 : ℝ := if v.vibLFO_to_pitch ≠ 0 then
        a1 * cents_to_hertz (v.vibLFO_to_pitch * viblfo_val) else a1
    let a3 : ℝ := if v.modLFO_to_pitch ≠ 0 then
        a2 * cents_to_hertz (v.modLFO_to_pitch * modlfo_val) else a2
    step_ * a3
  else step

/-- One round of the loop of `Voice::Render` for the sample `sample`: the voice and the
local `step` after the round, and the values added to `output_L[i]` and `output_R[i]`.
The result is `none` when the voice has no zone, the sample has no data, the position
does not convert to `uint32_t`, or `data[pos]` or `data[pos_next]` lies outside the
buffer. The locals `viblfo_val` and `modlfo_val` are read as `0` where the source leaves
them unset (they are then not used). -/
noncomputable def Voice.renderFrame (sample : Sample) (sample_rate step_ : ℝ) (v : Voice)
    (step : ℝ) : Option (Voice × ℝ × ℝ × ℝ) :=
  match v.zone, sample.data with
  | some zone, some data =>
    if v.sample_pos ≤ -1 then none
    else
      let delta_time : ℝ := 1 / sample_rate
      let pos := ⌊v.sample_pos⌋₊
      let is_looping := v.isLooping zone
      let pos_next := nextPos pos v.loop_start v.loop_end sample.size is_looping
      match data[pos]?, data[pos_next]? with
      | some d0, some d1 =>
        let lerp_factor : ℝ := v.sample_pos - (pos : ℝ)
        let val0 := fast_lerp (d0 : ℝ) (d1 : ℝ) lerp_factor
        let rv := frameVolEnv v.volenv v.hold delta_time
        let rm := frameModEnv v.modenv v.hold delta_time
        let val1 := val0 * (v.gain * rv.1)
        let rvib : ℝ × VoiceLFO :=
          if v.vibLFO_to_pitch ≠ 0 then v.vibLFO.Get delta_time else (0, v.vibLFO)
        let rmod : ℝ × VoiceLFO :=
          if v.modLFO_to_pitch ≠ 0 ∨ v.modLFO_to_filter_fc ≠ 0 ∨ v.modLFO_to_volume ≠ 0 then
            v.modLFO.Get delta_time
          else (0, v.modLFO)
        let rlp := frameLowpass v sample_rate rm.1 rmod.1 val1
        let val3 : ℝ := if v.modLFO_to_volume ≠ 0 then
            rlp.1 * decibels_to_gain (rmod.1 * v.modLFO_to_volume) else rlp.1
        some ({ v with
                sample_pos := advancePos v.sample_pos step v.loop_start v.loop_end is_looping,
                volenv := rv.2, modenv := rm.2, vibLFO := rvib.2, modLFO := rmod.2,
                lowpass := rlp.2 },
              frameStep v step_ step rm.1 rvib.1 rmod.1,
              val3 * v.pan_factor_l, val3 * v.pan_factor_r)
      | _, _ => none
  | _, _ => none

/-- The loop `for(i = 0; i < size && sample_pos < sample->size; ++i)` of `Voice::Render`
with `n` rounds left: the voice after the loop and, frame by frame, the values added to
the two output buffers. -/
noncomputable def Voice.renderFrames (sample : Sample) (sample_rate step_ : ℝ) :
    Nat → Voice → ℝ → Option (Voice × List (ℝ × ℝ))
  | 0, v, _ => some (v, [])
  | n + 1, v, step =>
    if v.sample_pos < (sample.size : ℝ) then
      match v.renderFrame sample sample_rate step_ step with
      | none => none
      | some (v1, step1, l, r) =>
        match Voice.renderFrames sample sample_rate step_ n v1 step1 with
        | none => none
        | some (v2, added) => some (v2, (l, r) :: added)
    else some (v, [])

/-- The function `Voice::Render` for `size` frames: the voice after the call and the
values added to `output_L[i]` and `output_R[i]` for the frames rendered. With `size = 0`
the sample is not dereferenced. -/
noncomputable def Voice.Render (sf : SoundFont2) (v : Voice) (size : Nat) (sample_rate : ℝ) :
    Option (Voice × List (ℝ × ℝ)) :=
  match size with
  | 0 => some (v, [])
  | n + 1 =>
    match v.sample with
    | none => none
    | some i =>
      match sf.samples[i]? with
      | none => none
      | some sample =>
        Voice.renderFrames sample sample_rate (v.freq / sample_rate) (n + 1) v
          (v.freq / sample_rate)

/-- The function `Voice::IsDone`; `none` when the voice has no sample to dereference. -/
noncomputable def Voice.IsDone (sf : SoundFont2) (v : Voice) : Option Bool :=
  match v.sample with
  | none => none
  | some i =>
    match sf.samples[i]? with
    | none => none
    | some sample =>
      some ((decide (v.sample_pos ≥ (sample.size : ℝ)) && !v.hold) ||
        decide (v.volenv.phase = EnvPhase.End))

/-- The function `DynamicPool::erase` at position `i`: the last element is copied over
slot `i` and the size shrinks by one. A position outside the pool is `none`. -/
def DynamicPool.erase {T : Type} (p : DynamicPool T) (i : Nat) : Option (DynamicPool T) :=
  match p.elems.getLast? with
  | none => none
  | some last =>
    if i < p.size then some { p with elems := (p.elems.set i last).dropLast } else none

/-- The additions `output[i] += added[i]` of one voice to an output buffer; `none` when
the buffer is shorter than the frames rendered. -/
def addOutput (output added : List ℝ) : Option (List ℝ) :=
  if added.length ≤ output.length then
    some (List.zipWith (fun o a => o + a) output
      (added ++ List.replicate (output.length - added.length) 0))
  else none

/-- The loop of `Channel::Render` at index `i`, with one unit of fuel per round: the
voice at `i` is rendered in place; when it is done it is erased and the index stays,
otherwise the index moves on. -/
noncomputable def renderLoop (sf : SoundFont2) (size : Nat) (sample_rate : ℝ) :
    Nat → Nat → DynamicPool Voice → List ℝ → List ℝ →
      Option (DynamicPool Voice × List ℝ × List ℝ)
  | fuel, i, voices, output_L, output_R =>
    match voices.elems[i]? with
    | none => some (voices, output_L, output_R)
    | some v =>
      match fuel with
      | 0 => none
      | fuel1 + 1 =>
        match v.Render sf size sample_rate with
        | none => none
        | some (v1, added) =>
          match addOutput output_L (added.map Prod.fst),
                addOutput output_R (added.map Prod.snd), v1.IsDone sf with
          | some out_L, some out_R, some done =>
            let voices1 : DynamicPool Voice := { voices with elems := voices.elems.set i v1 }
            if done then
              match voices1.erase i with
              | none => none
              | some voices2 => renderLoop sf size sample_rate fuel1 i voices2 out_L out_R
            else renderLoop sf size sample_rate fuel1 (i + 1) voices1 out_L out_R
          | _, _, _ => none

/-- The function `Channel::Render`: the channel and the two output buffers after the
call. The voices reach their samples through the bank of the channel; a channel without
a bank has no sample to reach. -/
noncomputable def Channel.Render (ch : Channel) (fuel : Nat) (output_L output_R : List ℝ)
    (size : Nat) (sample_rate : ℝ) : Option (Channel × List ℝ × List ℝ) :=
  match renderLoop (ch.sf.getD {}) size sample_rate fuel 0 ch.voices output_L output_R with
  | none => none
  | some (voices, out_L, out_R) => some ({ ch with voices := voices }, out_L, out_R)

/-! ## Sample data (`Sample::load_data`) -/

/-- The `int16_t` stored in the two bytes `lo`, `hi` (the host is little-endian). -/
def toInt16 (lo hi : Nat) : Int :=
  let w := lo % 256 + 256 * (hi % 256)
  if w < 32768 then (w : Int) else (w : Int) - 65536

/-- The value `load_data` stores for a 16-bit sample word: `(float)data16[j] / 32767.0`. -/
def sample16 (lo hi : Nat) : ℚ := (toInt16 lo hi : ℚ) / 32767

/-- The `int` that `(hi << 24) | (lo << 16) | (b << 8)` gives for three bytes, with the
sign bit taken from bit 31, shifted right arithmetically by 8. -/
def shift24 (lo hi b : Nat) : Int :=
  let u := (hi % 256) * 16777216 + (lo % 256) * 65536 + (b % 256) * 256
  let i : Int := if u < 2147483648 then (u : Int) else (u : Int) - 4294967296
  i / 256

/-- The value `load_data` stores for a 16-bit sample word and its `sm24` byte. -/
def sample24 (lo hi b : Nat) : ℚ := (shift24 lo hi b : ℚ) / 8388607

/-- The call `stream->read(dest, n)` after `setpos(pos)`: the `n` bytes at `pos`. A read
that ends early leaves the rest of the destination buffer uninitialised (`none`). -/
def readBytes (stream : List Nat) (pos n : Nat) : Option (List Nat) :=
  if pos + n ≤ stream.length then some ((stream.drop pos).take n) else none

/-- The 16-bit words of a byte buffer, as pairs of the low and the high byte. -/
def wordBytes : List Nat → List (Nat × Nat)
  | lo :: hi :: rest => (lo, hi) :: wordBytes rest
  | _ => []

/-- The function `Sample::load_data`: the sample with its decoded buffer. -/
def Sample.load_data (sf2 : SoundFont2) (s : Sample) : Option Sample :=
  match readBytes sf2.stream (sf2.sample_data_offset + s.data_stream_offset * 2) (s.size * 2) with
  | none => none
  | some data16 =>
    if sf2.sample_data_24_offset ≠ 0 then
      match readBytes sf2.stream (sf2.sample_data_24_offset + s.data_stream_offset) s.size with
      | none => none
      | some data24 =>
        some { s with data := some (List.zipWith (fun w b => sample24 w.1 w.2 b)
          (wordBytes data16) data24) }
    else some { s with data := some ((wordBytes data16).map (fun w => sample16 w.1 w.2)) }

/-! ## RIFF chunks (`RIFF.hpp`) and the struct `RIFF_SoundFont2` -/

/-- The type `FOURCC`, a `uint32_t`. -/
abbrev FOURCC := Nat

/-- The function `string_to_FOURCC` on a string of four characters, the only strings it is
called with: character `i` is placed at bit `8 i`. The function `FOURCC_equals(code, s)`
holds exactly when `code` is this value. -/
def string_to_FOURCC (a b c d : Char) : FOURCC :=
  a.toNat + 256 * b.toNat + 65536 * c.toNat + 16777216 * d.toNat

/-- The struct `RIFF::chunk`, without the data: `type` is the form or list type of a `RIFF`
or `LIST` chunk and `0` for every other chunk. -/
structure chunk where
  id : FOURCC
  size : Nat := 0
  type : FOURCC := 0
  data_offset : Nat := 0
  deriving DecidableEq, Repr

/-- The function `RIFF::get_chunk_by_id`: the first chunk at or after `start_index` with
the given id, `none` for `nullptr`. -/
def get_chunk_by_id (chunks : List chunk) (id : FOURCC) (start_index : Nat) : Option chunk :=
  (chunks.drop start_index).find? (fun c => c.id == id)

/-- The function `RIFF::get_chunk_index_by_id_type` from index 0: the index of the first
chunk with the given id and type, `none` for the result `-1`. -/
def get_chunk_index_by_id_type (chunks : List chunk) (id type : FOURCC) : Option Nat :=
  let i := chunks.findIdx (fun c => c.id == id && c.type == type)
  if i < chunks.length then some i else none

/-- The struct `RIFF_SoundFont2::INFO_chunk`. -/
structure INFO_chunk where
  ifil : Option chunk := none
  isng : Option chunk := none
  INAM : Option chunk := none
  irom : Option chunk := none
  iver : Option chunk := none
  ICRD : Option chunk := none
  IENG : Option chunk := none
  IPRD : Option chunk := none
  ICOP : Option chunk := none
  ICMT : Option chunk := none
  ISFT : Option chunk := none
  deriving DecidableEq, Repr

/-- The struct `RIFF_SoundFont2::sdta_chunk`. -/
structure sdta_chunk where
  smpl : Option chunk := none
  sm24 : Option chunk := none
  deriving DecidableEq, Repr

/-- The struct `RIFF_SoundFont2::pdta_chunk`. -/
structure pdta_chunk where
  phdr : Option chunk := none
  pbag : Option chunk := none
  pmod : Option chunk := none
  pgen : Option chunk := none
  inst : Option chunk := none
  ibag : Option chunk := none
  imod : Option chunk := none
  igen : Option chunk := none
  shdr : Option chunk := none
  deriving DecidableEq, Repr

/-- The struct `RIFF_SoundFont2`; members the constructor has not assigned are `none`. -/
structure RIFF_SoundFont2 where
  INFO : INFO_chunk := {}
  sdta : sdta_chunk := {}
  pdta : pdta_chunk := {}
  structurally_unsound : Bool := false
  deriving DecidableEq, Repr

/-- The statement `cond_check(c->size % n)` followed by the rest `k` of the constructor:
reading the size through a null pointer is undefined (`none`); a size that is not a
multiple of `n` sets `structurally_unsound` and returns. -/
def sizeCheck (r : RIFF_SoundFont2) (c : Option chunk) (n : Nat)
    (k : Option RIFF_SoundFont2) : Option RIFF_SoundFont2 :=
  match c with
  | none => none
  | some c => if c.size % n ≠ 0 then some { r with structurally_unsound := true } else k

/-- The constructor `RIFF_SoundFont2(RIFF::RIFF* riff)` on the chunk list of `riff`. -/
def RIFF_SoundFont2.ofRIFF (chunks : List chunk) : Option RIFF_SoundFont2 :=
  let LIST := string_to_FOURCC 'L' 'I' 'S' 'T'
  match chunks with
  | [] => some { structurally_unsound := true }
  | c0 :: _ =>
    if c0.id ≠ string_to_FOURCC 'R' 'I' 'F' 'F' ∨ c0.type ≠ string_to_FOURCC 's' 'f' 'b' 'k' then
      some { structurally_unsound := true }
    else
      match get_chunk_index_by_id_type chunks LIST (string_to_FOURCC 'I' 'N' 'F' 'O') with
      | none => some { structurally_unsound := true }
      | some INFO_list_index =>
        let r1 : RIFF_SoundFont2 :=
          { INFO :=
            { ifil := get_chunk_by_id chunks (string_to_FOURCC 'i' 'f' 'i' 'l') INFO_list_index,
              isng := get_chunk_by_id chunks (string_to_FOURCC 'i' 's' 'n' 'g') INFO_list_index,
              INAM := get_chunk_by_id chunks (string_to_FOURCC 'I' 'N' 'A' 'M') INFO_list_index,
              irom := get_chunk_by_id chunks (string_to_FOURCC 'i' 'r' 'o' 'm') INFO_list_index,
              iver := get_chunk_by_id chunks (string_to_FOURCC 'i' 'v' 'e' 'r') INFO_list_index,
              ICRD := get_chunk_by_id chunks (string_to_FOURCC 'I' 'C' 'R' 'D') INFO_list_index,
              IENG := get_chunk_by_id chunks (string_to_FOURCC 'I' 'E' 'N' 'G') INFO_list_index,
              IPRD := get_chunk_by_id chunks (string_to_FOURCC 'I' 'P' 'R' 'D') INFO_list_index,
              ICOP := get_chunk_by_id chunks (string_to_FOURCC 'I' 'C' 'O' 'P') INFO_list_index,
              ICMT := get_chunk_by_id chunks (string_to_FOURCC 'I' 'C' 'M' 'T') INFO_list_index,
              ISFT := get_chunk_by_id chunks (string_to_FOURCC 'I' 'S' 'F' 'T') INFO_list_index } }
        if r1.INFO.ifil.isNone then some { r1 with structurally_unsound := true }
        else
          match get_chunk_index_by_id_type chunks LIST (string_to_FOURCC 's' 'd' 't' 'a') with
          | none => some { r1 with structurally_unsound := true }
          | some sdta_index =>
            let r2 : RIFF_SoundFont2 :=
              { r1 with sdta :=
                { smpl := get_chunk_by_id chunks (string_to_FOURCC 's' 'm' 'p' 'l') sdta_index,
                  sm24 := get_chunk_by_id chunks (string_to_FOURCC 's' 'm' '2' '4') sdta_index } }
            match get_chunk_index_by_id_type chunks LIST (string_to_FOURCC 's' 'd' 't' 'a') with
            | none => some { r2 with structurally_unsound := true }
            | some pdta_index =>
              let r3 : RIFF_SoundFont2 :=
                { r2 with pdta :=
                  { phdr := get_chunk_by_id chunks (string_to_FOURCC 'p' 'h' 'd' 'r') pdta_index,
                    pbag := get_chunk_by_id chunks (string_to_FOURCC 'p' 'b' 'a' 'g') pdta_index,
                    pmod := get_chunk_by_id chunks (string_to_FOURCC 'p' 'm' 'o' 'd') pdta_index,
                    pgen := get_chunk_by_id chunks (string_to_FOURCC 'p' 'g' 'e' 'n') pdta_index,
                    inst := get_chunk_by_id chunks (string_to_FOURCC 'i' 'n' 's' 't') pdta_index,
                    ibag := get_chunk_by_id chunks (string_to_FOURCC 'i' 'b' 'a' 'g') pdta_index,
                    imod := get_chunk_by_id chunks (string_to_FOURCC 'i' 'm' 'o' 'd') pdta_index,
                    igen := get_chunk_by_id chunks (string_to_FOURCC 'i' 'g' 'e' 'n') pdta_index,
                    shdr := get_chunk_by_id chunks (string_to_FOURCC 's' 'h' 'd' 'r') pdta_index } }
              sizeCheck r3 r3.pdta.phdr 38 <|
              sizeCheck r3 r3.pdta.pbag 4 <|
              sizeCheck r3 r3.pdta.pmod 10 <|
              sizeCheck r3 r3.pdta.pgen 4 <|
              sizeCheck r3 r3.pdta.inst 22 <|
              sizeCheck r3 r3.pdta.ibag 4 <|
              sizeCheck r3 r3.pdta.imod 10 <|
              sizeCheck r3 r3.pdta.igen 4 <|
              sizeCheck r3 r3.pdta.shdr 46 <|
              some r3

/-! ## The `SoundFont2` constructor: bank scan, sample pass, presets into banks, sorting -/

/-- The function `CheckSampleLinkType`. -/
def CheckSampleLinkType (type : SFSampleLink) : Bool :=
  (decide (type ≥ 1) && decide (type ≤ 8)) || (decide (type ≥ 0x8001) && decide (type ≤ 0x8008))

/-- The loop `//Scan banks` over all of `hydra.phdr`: a bank is appended for every `wBank`
that no earlier bank has. -/
def scanBanks (phdr : List sfPresetHeader) : List Bank :=
  phdr.foldl (fun banks ph =>
    if banks.any (fun b => b.num == ph.wBank) then banks else banks ++ [{ num := ph.wBank }]) []

/-- The body of the sample loop for one record of `shdr`, where `n` is `samples.size()`.
Reading `samples[wSampleLink]` outside the vector is undefined (`none`). -/
def loadSample (n : Nat) (sample : sfSample) : Option Sample :=
  let sample_type : SFSampleLink :=
    if CheckSampleLinkType sample.sfSampleType then sample.sfSampleType
    else SFSampleLink.monoSample
  let s : Sample :=
    { sample_rate := sample.dwSampleRate,
      loop_start := toUInt32 ((sample.dwStartloop : Int) - (sample.dwStart : Int)),
      loop_end := toUInt32 ((sample.dwEndloop : Int) - (sample.dwStart : Int)),
      original_key := sample.byOriginalKey,
      correction := sample.chCorrection,
      sample_type := sample_type,
      data_stream_offset := sample.dwStart,
      size := toUInt32 ((sample.dwEnd : Int) - (sample.dwStart : Int)),
      data := none }
  if sample_type ≠ SFSampleLink.monoSample then
    if sample.wSampleLink < n then some { s with linked_sample := some sample.wSampleLink }
    else none
  else some { s with linked_sample := none }

/-- The sample loop over a list of records. -/
def loadSampleList (n : Nat) : List sfSample → Option (List Sample)
  | [] => some []
  | sample :: rest =>
    match loadSample n sample, loadSampleList n rest with
    | some s, some ss => some (s :: ss)
    | _, _ => none

/-- The block `//Load samples`: one sample for every record of `shdr` but the last. With an
empty `shdr` the size `hydra.shdr.size()-1` wraps around and `resize` fails (`none`). -/
def loadSamples (shdr : List sfSample) : Option (List Sample) :=
  if shdr.isEmpty then none else loadSampleList (shdr.length - 1) shdr.dropLast

/-- The instrument loop for the records `i, …, i + n - 1` of `inst`. -/
def loadInstrumentList (hydra : HYDRA) : Nat → Nat → Option (List Instrument)
  | _, 0 => some []
  | i, n + 1 =>
    match loadInstrument hydra i, loadInstrumentList hydra (i + 1) n with
    | some instrument, some rest => some (instrument :: rest)
    | _, _ => none

/-- The block `//Load instruments`: one instrument for every record of `inst` but the last.
With an empty `inst` the size wraps around and `resize` fails (`none`). -/
def loadInstruments (hydra : HYDRA) : Option (List Instrument) :=
  if hydra.inst.isEmpty then none else loadInstrumentList hydra 0 (hydra.inst.length - 1)

/-- The loop `//find bank` for the new preset `p`: `p` is pushed to the first bank whose
number is `wBank`. -/
def addPreset : List Bank → Nat → Preset → List Bank
  | [], _, _ => []
  | bank :: rest, wBank, p =>
    if bank.num = wBank then { bank with presets := bank.presets ++ [p] } :: rest
    else bank :: addPreset rest wBank p

/-- The preset loop for the records `i, …, i + n - 1` of `phdr`: each preset is pushed to
its bank and loaded. -/
def loadPresetList (hydra : HYDRA) : Nat → Nat → List Bank → Option (List Bank)
  | _, 0, banks => some banks
  | i, n + 1, banks =>
    match hydra.phdr[i]?, loadPreset hydra i with
    | some ph, some p => loadPresetList hydra (i + 1) n (addPreset banks ph.wBank p)
    | _, _ => none

/-- The block `//Load presets`: one preset for every record of `phdr` but the last. With
an empty `phdr` the bound `hydra.phdr.size()-1` wraps around and the loop reads outside
the vector (`none`). -/
def loadPresets (hydra : HYDRA) (banks : List Bank) : Option (List Bank) :=
  if hydra.phdr.isEmpty then none else loadPresetList hydra 0 (hydra.phdr.length - 1) banks

/-- The two `std::sort` blocks at the end of the constructor: the banks by number, then the
presets of every bank by number. The source leaves the order of elements with equal
numbers open; the model keeps the order of an insertion sort. -/
def sortBanks (banks : List Bank) : List Bank :=
  (banks.insertionSort (fun a b => a.num ≤ b.num)).map
    (fun bank => { bank with presets := bank.presets.insertionSort (fun a b => a.num ≤ b.num) })

/-- The constructor `SoundFont2(RIFF::RIFF* riff, RIFF::stream* s)` from the point where the
version tag `ifil` and the `HYDRA` arrays have been read from the stream `stream`, whose
`smpl` and `sm24` data start at the two offsets given. The block under
`if(ifil.wMajor != 2)` is empty. -/
def SoundFont2.construct (ifil : sfVersionTag) (hydra : HYDRA) (stream : List Nat)
    (sample_data_offset sample_data_24_offset : Nat) : Option SoundFont2 :=
  let translate : Option SoundFont2 :=
    match loadSamples hydra.shdr, loadInstruments hydra,
          loadPresets hydra (scanBanks hydra.phdr) with
    | some samples, some instruments, some banks =>
      some { ifil := ifil, samples := samples, instruments := instruments,
             banks := sortBanks banks, stream := stream,
             sample_data_offset := sample_data_offset,
             sample_data_24_offset := sample_data_24_offset }
    | _, _, _ => none
  if ifil.wMajor ≠ 2 then translate else translate

/-! ## Selecting a preset (`Channel::SetPreset`) -/

/-- The loop `for(auto split : layer->instrument->splits)` under the label
`load_samples_proc`, with the bank model passed along: a sample without data is loaded by
`load_data`. A split without a sample is a null dereference (`none`). -/
def loadSplitSamples (sf : SoundFont2) : List Instrument.Zone → Option SoundFont2
  | [] => some sf
  | split :: rest =>
    match split.sample with
    | none => none
    | some i =>
      match sf.samples[i]? with
      | none => none
      | some s =>
        if s.data.isNone then
          match Sample.load_data sf s with
          | none => none
          | some s1 => loadSplitSamples { sf with samples := sf.samples.set i s1 } rest
        else loadSplitSamples sf rest

/-- The loop `for(auto layer : preset->layers)` under the label `load_samples_proc`. A layer
without an instrument is a null dereference (`none`). -/
def loadLayerSamples (sf : SoundFont2) : List Preset.Zone → Option SoundFont2
  | [] => some sf
  | layer :: rest =>
    match layer.instrument with
    | none => none
    | some i =>
      match sf.instruments[i]? with
      | none => none
      | some instrument =>
        match loadSplitSamples sf instrument.splits with
        | none => none
        | some sf1 => loadLayerSamples sf1 rest

/-- The statements of `SetPreset` from the label `load_samples_proc` on: with a preset
selected, the samples of its layers are loaded; without one nothing is done. -/
def load_samples_proc (ch : Channel) (sf : SoundFont2) : Option Channel :=
  match ch.preset with
  | none => some ch
  | some preset =>
    match loadLayerSamples sf preset.layers with
    | none => none
    | some sf1 => some { ch with sf := some sf1 }

/-- The statements of `SetPreset` from the label `fallback_bank_zero` on: the loop over
`sf->banks[0]->presets`, that is over the presets of the first bank of the vector. -/
def fallback_bank_zero (ch : Channel) (sf : SoundFont2) (presetno : Nat) : Option Channel :=
  match sf.banks[0]? with
  | none => none
  | some bank0 =>
    match bank0.presets.find? (fun p => p.num == presetno) with
    | some p => load_samples_proc { ch with bank := some bank0, preset := some p } sf
    | none => load_samples_proc ch sf

/-- The function `Channel::SetPreset`, with the bank model the channel points to passed
along in the field `sf`. -/
def Channel.SetPreset (ch : Channel) (presetno : Nat) (bankno : Nat := 0) : Option Channel :=
  match ch.sf with
  | none => some ch
  | some sf =>
    if sf.banks.isEmpty then some ch
    else
      match sf.banks.find? (fun b => b.num == bankno) with
      | none => fallback_bank_zero ch sf presetno
      | some target_bank =>
        match target_bank.presets.find? (fun p => p.num == presetno) with
        | some p => load_samples_proc { ch with bank := some target_bank, preset := some p } sf
        | none =>
          if target_bank.num = 128 then
            match target_bank.presets with
            | p :: _ => load_samples_proc { ch with preset := some p } sf
            | [] => fallback_bank_zero ch sf presetno
          else fallback_bank_zero ch sf presetno

/-! ## Copying the pool (`DynamicPool::DynamicPool(const DynamicPool&)`, `operator=`) -/

/-- The copy constructor for a trivially copyable `T`: a new block of `other._capacity`
slots to which the `other._size` live slots of `other` are copied; more live slots than
capacity would be copied past the block (`none`). -/
def DynamicPool.copy {T : Type} (other : DynamicPool T) : Option (DynamicPool T) :=
  if other.size ≤ other.capacity then
    some { elems := other.elems, capacity := other.capacity, resize_len := other.resize_len }
  else none

/-- The copy assignment `operator=` of the pool `pool` from a different pool `other`, for
a trivially copyable `T`. The slots of the result are optional values: `some x` for a slot
that holds `x`, `none` for a slot whose content is not determined by the live slots of the
two pools. When `_capacity >= other._capacity` the live slots of `other` are copied into
the block (`none` for the result when they do not fit). Otherwise the size, the capacity
and the growth step of `other` are taken and the block is reallocated to
`other._capacity` slots, which keeps its content, and nothing is copied into it: a slot
below the new size holds what `pool` held there. -/
def DynamicPool.assign {T : Type} (pool other : DynamicPool T) :
    Option (DynamicPool (Option T)) :=
  if pool.capacity ≥ other.capacity then
    if other.size ≤ pool.capacity then
      some { elems := other.elems.map some, capacity := pool.capacity,
             resize_len := other.resize_len }
    else none
  else
    some { elems := (List.range other.size).map (fun i => pool.elems[i]?),
           capacity := other.capacity, resize_len := other.resize_len }

/-! ## Concrete HYDRA arrays used below -/

/-- One instrument with a global zone `[startAddrsOffset 5]` and a local zone
`[startAddrsOffset 3, coarseTune 1, coarseTune 2, sampleID 0]`. -/
def hydraRepeatedOffsets : HYDRA :=
  { inst := [⟨0⟩, ⟨2⟩],
    ibag := [⟨0⟩, ⟨1⟩, ⟨5⟩],
    igen := [⟨GenType.startAddrsOffset, 5⟩,
             ⟨GenType.startAddrsOffset, 3⟩, ⟨GenType.coarseTune, 1⟩, ⟨GenType.coarseTune, 2⟩,
             ⟨GenType.sampleID, 0⟩,
             ⟨0, 0⟩] }

/-- One instrument with two zones, `[sampleID 0, initialFilterFc 5000]` and `[sampleID 1]`:
the last generator of the first zone is not `sampleID`. -/
def hydraSampleNotLast : HYDRA :=
  { inst := [⟨0⟩, ⟨2⟩],
    ibag := [⟨0⟩, ⟨2⟩, ⟨3⟩],
    igen := [⟨GenType.sampleID, 0⟩, ⟨GenType.initialFilterFc, 5000⟩,
             ⟨GenType.sampleID, 1⟩,
             ⟨0, 0⟩] }

/-- One instrument with three zones, `[sampleID 0]`, `[initialFilterFc 5000]` and
`[sampleID 1]`: the second zone has no sample and is not the first zone. -/
def hydraZoneWithoutSample : HYDRA :=
  { inst := [⟨0⟩, ⟨3⟩],
    ibag := [⟨0⟩, ⟨1⟩, ⟨2⟩, ⟨3⟩],
    igen := [⟨GenType.sampleID, 0⟩,
             ⟨GenType.initialFilterFc, 5000⟩,
             ⟨GenType.sampleID, 1⟩,
             ⟨0, 0⟩] }

/-- One instrument whose only zone is `[initialFilterFc 5000]`: it has no sample, and with
a single zone it cannot be the global zone. -/
def hydraLoneZoneWithoutSample : HYDRA :=
  { inst := [⟨0⟩, ⟨1⟩],
    ibag := [⟨0⟩, ⟨1⟩],
    igen := [⟨GenType.initialFilterFc, 5000⟩,
             ⟨0, 0⟩] }

/-- One preset with a global zone `[initialFilterFc 100, initialFilterFc 200]` and a local
zone `[initialFilterFc 300, instrument 0]`. -/
def hydraRepeatedGlobal : HYDRA :=
  { phdr := [⟨0, 0, 0⟩, ⟨0, 0, 2⟩],
    pbag := [⟨0⟩, ⟨2⟩, ⟨4⟩],
    pgen := [⟨GenType.initialFilterFc, 100⟩, ⟨GenType.initialFilterFc, 200⟩,
             ⟨GenType.initialFilterFc, 300⟩, ⟨GenType.instrument, 0⟩,
             ⟨0, 0⟩] }

/-! ## Definitions that follow the wording of the specification -/

/-- The generators of the first zone of the preset with header `ph`: the entries of `pgen`
from the first bag's `wGenNdx` up to the next bag's. -/
def firstPresetZoneGens (hydra : HYDRA) (ph : sfPresetHeader) : Option (List sfGenList) :=
  match hydra.pbag[ph.wPresetBagNdx]?, hydra.pbag[ph.wPresetBagNdx + 1]? with
  | some zone, some zone1 => iterRange hydra.pgen zone.wGenNdx zone1.wGenNdx
  | _, _ => none

/-- The condition of the specification for a global preset zone: the preset has more than
one zone and the final generator of the first zone, whose generators are `first`, is not
`instrument`. A first zone without generators has no final generator. -/
def specPresetGlobal (zones : Int) (first : List sfGenList) : Bool :=
  decide (zones > 1) &&
    (match first.getLast? with
     | some g => decide (g.sfGenOper ≠ GenType.instrument)
     | none => false)

/-- The test of the specification: `key_low ≤ key ≤ key_high` and `vel_low ≤ velocity ≤ vel_high`. -/
def inRange (key velocity key_low key_high vel_low vel_high : Nat) : Bool :=
  decide (key_low ≤ key ∧ key ≤ key_high ∧ vel_low ≤ velocity ∧ velocity ≤ vel_high)

/-- The splits of the instrument a layer refers to. -/
def layerSplits (sf : SoundFont2) (layer : Preset.Zone) : List Instrument.Zone :=
  match layer.instrument with
  | none => []
  | some i =>
    match sf.instruments[i]? with
    | none => []
    | some instrument => instrument.splits

/-- The test of `specPairs` on one (layer, split) pair. -/
def pairInRange (key velocity : Nat) (p : Preset.Zone × Instrument.Zone) : Bool :=
  inRange key velocity p.1.key_low p.1.key_high p.1.vel_low p.1.vel_high &&
    inRange key velocity p.2.key_low p.2.key_high p.2.vel_low p.2.vel_high

/-- The (layer, split) pairs of a preset, in layer order and then split order, whose ranges
both include the key and the velocity. -/
def specPairs (sf : SoundFont2) (preset : Preset) (key velocity : Nat) :
    List (Preset.Zone × Instrument.Zone) :=
  (preset.layers.flatMap (fun layer => (layerSplits sf layer).map (fun split => (layer, split)))).filter
    (pairInRange key velocity)

/-- The voice built for a (layer, split) pair with a mono sample: the assignments of
`create_voice` applied to a default-constructed voice, with the mono pan `0`. -/
noncomputable def monoVoice (sf : SoundFont2) (sample_rate : ℝ) (key velocity : Nat)
    (p : Preset.Zone × Instrument.Zone) : Voice :=
  match p.2.sample with
  | none => {}
  | some si =>
    match sf.samples[si]? with
    | none => {}
    | some sample =>
      setupVoice sample_rate p.1 p.2 key (tmpKey p.2 key) (tmpVel p.2 velocity) si sample 0 {}

/-- The pools that grow on demand, as the pool of a `Channel` does: automatic growth is
not switched off, the growth step is positive, and the size is within the capacity. -/
def DynamicPool.Growable {T : Type} (p : DynamicPool T) : Prop :=
  p.resize_len ≠ SIZE_MAX ∧ 0 < p.resize_len ∧ p.size ≤ p.capacity

/-- Every split of the list has a sample that exists in the bank and is mono. -/
def AllMono (sf : SoundFont2) (splits : List Instrument.Zone) : Prop :=
  ∀ split ∈ splits, ∃ si sample, split.sample = some si ∧ sf.samples[si]? = some sample ∧
    sample.sample_type = SFSampleLink.monoSample

/-- Every layer of the list refers to an instrument of the bank whose splits all have an
existing mono sample. -/
def AllLayersMono (sf : SoundFont2) (layers : List Preset.Zone) : Prop :=
  ∀ layer ∈ layers, ∃ i instrument, layer.instrument = some i ∧
    sf.instruments[i]? = some instrument ∧ AllMono sf instrument.splits

/-- A mono sample of 1000 frames recorded at 44100 Hz with original key 60. -/
def sample44k : Sample := { sample_rate := 44100, original_key := 60, size := 1000 }

/-- A split of sample 0 with the default generators. -/
def plainSplit : Instrument.Zone := { newSplit with sample := some 0 }

/-- A split of sample 0 with the default generators and the fixed key `keynum = 60`. -/
def fixedKeySplit : Instrument.Zone := { newSplit with sample := some 0, keynum := 60 }

/-- A bank with the sample `sample44k` and one instrument whose only split is
`fixedKeySplit`. -/
def fixedKeyBank : SoundFont2 :=
  { samples := [sample44k], instruments := [{ splits := [fixedKeySplit] }] }

/-- A layer that only names instrument 0. -/
def plainLayer : Preset.Zone := { instrument := some 0 }

/-- A preset with the single layer `plainLayer`. -/
def plainPreset : Preset := { layers := [plainLayer] }

/-- The pool a `Channel` starts with: `DynamicPool<Voice>(64, 64)`. -/
def emptyPool : DynamicPool Voice := { elems := [], capacity := 64, resize_len := 64 }

/-- The state of an earlier voice after `//extinguish fast`: note off, envelope time reset,
release time 1 ms. -/
def Voice.Extinguished (v : Voice) : Prop :=
  v.hold = false ∧ v.volenv.release = 1 / 1000 ∧ v.volenv.time = 0

/-- A split of sample 0 with the default generators and `exclusiveClass = 5`. -/
def exclusiveSplit : Instrument.Zone := { newSplit with sample := some 0, exclusive_class := 5 }

/-- A bank with the sample `sample44k` and one instrument whose only split is
`exclusiveSplit`. -/
def exclusiveBank : SoundFont2 :=
  { samples := [sample44k], instruments := [{ splits := [exclusiveSplit] }] }

/-- A fresh channel on which `plainPreset` of `exclusiveBank` is selected. -/
def exclusiveChannel : Channel := { preset := some plainPreset, sf := some exclusiveBank }

/-- The voice `GenerateVoices` builds from `plainLayer` and `exclusiveSplit` for a key at
velocity 100 and 44100 Hz. -/
noncomputable def exclusiveVoice (key : Nat) : Voice :=
  setupVoice 44100 plainLayer exclusiveSplit key key 100 0 sample44k 0 {}

/-- The channel `exclusiveChannel` after `NoteOn(60, 100, 44100)`. -/
noncomputable def exclusiveChannel1 : Channel :=
  { exclusiveChannel with
    key_states := exclusiveChannel.key_states.set 60 true,
    voices := { elems := [exclusiveVoice 60], capacity := 64, resize_len := 64 } }

/-- The channel `exclusiveChannel1` after `NoteOn(62, 100, 44100)`. -/
noncomputable def exclusiveChannel2 : Channel :=
  { exclusiveChannel1 with
    key_states := exclusiveChannel1.key_states.set 62 true,
    voices := { elems := [extinguish (exclusiveVoice 60), exclusiveVoice 62],
                capacity := 64, resize_len := 64 } }

/-- A bank with one mono sample of four frames, all of value 1. -/
def fourFrameBank : SoundFont2 :=
  { samples := [{ sample_rate := 44100, original_key := 60, size := 4,
                  data := some [1, 1, 1, 1] }] }

/-- A held voice of sample 0 of `fourFrameBank` whose position is the sample size 4 and
whose volume envelope is in the Delay phase. -/
def heldVoiceAtEnd : Voice := { sample := some 0, sample_pos := 4, hold := true }

/-- The phases visited by successive calls of `Get` with the time steps `dts`, starting
with the phase before the first call. -/
noncomputable def Env.phaseTrace (is_decibels : Bool) : Env → List ℝ → List EnvPhase
  | e, [] => [e.phase]
  | e, dt :: dts => e.phase :: Env.phaseTrace is_decibels (e.Get is_decibels dt).2 dts

/-- The chain of phases that starts at a phase and is followed when `Release()` is not
called: `Delay → Attack → Hold → Decay → Sustain`, and `Release → End`. -/
def phaseChain : EnvPhase → List EnvPhase
  | EnvPhase.Delay =>
    [EnvPhase.Delay, EnvPhase.Attack, EnvPhase.Hold, EnvPhase.Decay, EnvPhase.Sustain]
  | EnvPhase.Attack => [EnvPhase.Attack, EnvPhase.Hold, EnvPhase.Decay, EnvPhase.Sustain]
  | EnvPhase.Hold => [EnvPhase.Hold, EnvPhase.Decay, EnvPhase.Sustain]
  | EnvPhase.Decay => [EnvPhase.Decay, EnvPhase.Sustain]
  | EnvPhase.Sustain => [EnvPhase.Sustain]
  | EnvPhase.Release => [EnvPhase.Release, EnvPhase.End]
  | EnvPhase.End => [EnvPhase.End]

/-- The single steps of the phase chains. -/
def phaseSteps : List (EnvPhase × EnvPhase) :=
  [(EnvPhase.Delay, EnvPhase.Attack), (EnvPhase.Attack, EnvPhase.Hold),
   (EnvPhase.Hold, EnvPhase.Decay), (EnvPhase.Decay, EnvPhase.Sustain),
   (EnvPhase.Release, EnvPhase.End)]

/-- A call on an envelope: `Get(delta_time)` or `Release()`. -/
inductive EnvCall where
  | get (delta_time : ℝ)
  | release

/-- The values returned by the `Get` calls of a sequence of calls on an envelope. -/
noncomputable def Env.run (is_decibels : Bool) : Env → List EnvCall → List ℝ
  | _, [] => []
  | e, EnvCall.get dt :: calls =>
    (e.Get is_decibels dt).1 :: Env.run is_decibels (e.Get is_decibels dt).2 calls
  | e, EnvCall.release :: calls => Env.run is_decibels e.Release calls

/-- An `Envelope` with the sustain level `-100` (in decibel mode: -10 dB of attenuation,
a gain of 10 dB) and the shortest times. -/
def negativeSustain : Envelope := { ({} : Envelope).SetToDefault with sustain := -100 }

/-- The state of a decibel envelope that keeps the returned values at or below 0 dB. -/
def Env.Bounded (e : Env) : Prop :=
  e.value ≤ 0 ∧ 0 ≤ e.time ∧ 0 ≤ e.sustain ∧ 0 < e.delay ∧ 0 < e.attack ∧ 0 < e.hold ∧
    0 < e.decay ∧ 0 < e.release ∧
    (e.phase = EnvPhase.Delay → e.time < e.delay) ∧
    (e.phase = EnvPhase.Attack → e.time < e.attack ∧ e.slope_factor = 1 / e.attack) ∧
    (e.phase = EnvPhase.Decay → e.slope_factor = 1 / e.decay) ∧
    (e.phase = EnvPhase.Release → e.time < e.release ∧ e.slope_factor = 1 / e.release)

/-- A split of sample 0 with `initialFilterFc` 14400 cents (33489 Hz), a filter resonance of
-1 dB, and the default `modEnvToFilterFc` 0. -/
def openFilterSplit : Instrument.Zone :=
  { newSplit with sample := some 0, filter_freq := 14400, filter_q := -1 }

/-- A bank with the sample `sample44k` and one instrument whose only split is
`openFilterSplit`. -/
def openFilterBank : SoundFont2 :=
  { samples := [sample44k], instruments := [{ splits := [openFilterSplit] }] }

/-- A split of sample 0 with `freqVibLFO` 1200 cents (16.352 Hz) and `delayVibLFO` 0
timecents (1 s), and the default modulation LFO. -/
def vibratoSplit : Instrument.Zone :=
  { newSplit with sample := some 0, vibLFO := { delay := 0, frequency := 1200 } }

/-- A bank with the sample `sample44k` and one instrument whose only split is
`vibratoSplit`. -/
def vibratoBank : SoundFont2 :=
  { samples := [sample44k], instruments := [{ splits := [vibratoSplit] }] }

/-- A bank whose sample links are A → B → C → B: sample 0 (left) links to sample 1, sample 1
(right) to sample 2, and sample 2 (linked) back to sample 1. The one split of the one
instrument has the sample 0. -/
def cyclicBank : SoundFont2 :=
  { samples :=
      [{ sample_rate := 44100, original_key := 60, size := 1000,
         sample_type := SFSampleLink.leftSample, linked_sample := some 1 },
       { sample_rate := 44100, original_key := 60, size := 1000,
         sample_type := SFSampleLink.rightSample, linked_sample := some 2 },
       { sample_rate := 44100, original_key := 60, size := 1000,
         sample_type := SFSampleLink.linkedSample, linked_sample := some 1 }],
    instruments := [{ splits := [plainSplit] }] }

/-- The sample reached from the sample `i` by following `linked_sample` a number of times;
`none` after an unlinked sample. -/
def linkChain (sf : SoundFont2) : Nat → Nat → Option Nat
  | 0, i => some i
  | n + 1, i =>
    match sf.samples[i]? with
    | none => none
    | some sample =>
      match sample.linked_sample with
      | none => none
      | some next => linkChain sf n next

/-- A bank with a stereo pair: sample 0 is a left sample linked to sample 1, a right sample
that links back to sample 0. The one split of the one instrument has the sample 0. -/
def stereoBank : SoundFont2 :=
  { samples :=
      [{ sample_rate := 44100, original_key := 60, size := 1000,
         sample_type := SFSampleLink.leftSample, linked_sample := some 1 },
       { sample_rate := 44100, original_key := 60, size := 1000,
         sample_type := SFSampleLink.rightSample, linked_sample := some 0 }],
    instruments := [{ splits := [plainSplit] }] }

/-- A fresh channel on which `plainPreset` of `stereoBank` is selected. -/
def stereoChannel : Channel := { preset := some plainPreset, sf := some stereoBank }

/-- A voice that plays a continuous loop from `ls` to `le` at a constant step: its split
has `loop_mode = Continuous`, its loop points are `ls` and `le`, and no envelope or LFO is
routed to the pitch. -/
def Voice.Looping (v : Voice) (ls le : Nat) : Prop :=
  (∃ zone, v.zone = some zone ∧ zone.loop_mode = LoopMode.Continuous) ∧
    v.loop_start = ls ∧ v.loop_end = le ∧
    v.modenv_to_pitch = 0 ∧ v.vibLFO_to_pitch = 0 ∧ v.modLFO_to_pitch = 0

/-- A fresh voice of sample 0 at 44100 Hz whose split loops continuously, with the loop
points `ls` and `le` and the playback frequency `freq`. -/
def loopVoice (ls le : Nat) (freq : ℝ) : Voice :=
  { zone := some { newSplit with sample := some 0, loop_mode := LoopMode.Continuous },
    sample := some 0, sample_pos := 0, hold := true, loop_start := ls, loop_end := le,
    freq := freq }

/-- A split of sample 0 with `endAddrsOffset = -2`, and with the generators that switch
the low-pass filter of its voices off: a cutoff of 14400 cents, a resonance of -1 dB and
`modEnvToFilterFc = 1`. -/
def shortenedSplit : Instrument.Zone :=
  { newSplit with sample := some 0, end_offset := -2, filter_freq := 14400, filter_q := -1,
                  modEnv_to_filter_fc := 1 }

/-- A bank with the four-frame sample of `fourFrameBank` and one instrument whose only
split is `shortenedSplit`. -/
def shortenedBank : SoundFont2 :=
  { samples := [{ sample_rate := 44100, original_key := 60, size := 4,
                  data := some [1, 1, 1, 1] }],
    instruments := [{ splits := [shortenedSplit] }] }

/-- A held voice that plays its sample without a loop, at a constant step, past an
inactive low-pass filter and without tremolo, with positive gain and panning factors, and
whose volume envelope is in the Delay phase. -/
def Voice.Plain (v : Voice) : Prop :=
  (∃ zone, v.zone = some zone ∧ zone.loop_mode = LoopMode.None) ∧ v.hold = true ∧
    v.modenv_to_pitch = 0 ∧ v.vibLFO_to_pitch = 0 ∧ v.modLFO_to_pitch = 0 ∧
    v.modLFO_to_volume = 0 ∧ v.lowpass.active = false ∧
    v.volenv.phase = EnvPhase.Delay ∧ 0 < v.gain ∧ 0 < v.pan_factor_l ∧ 0 < v.pan_factor_r

/-- The rendered voices that stay in the pool: those for which `IsDone` is false. -/
noncomputable def Voice.notDone (sf : SoundFont2) (v : Voice) : Bool :=
  match v.IsDone sf with
  | some false => true
  | _ => false

/-- The output buffers after the frames of a list of rendered voices have been added, in
order. -/
def mixOutputs (output_L output_R : List ℝ) : List (List (ℝ × ℝ)) → Option (List ℝ × List ℝ)
  | [] => some (output_L, output_R)
  | added :: rest =>
    match addOutput output_L (added.map Prod.fst), addOutput output_R (added.map Prod.snd) with
    | some out_L, some out_R => mixOutputs out_L out_R rest
    | _, _ => none

/-- A released voice of sample 0 of `fourFrameBank` whose position is the sample size 4. -/
def releasedVoiceAtEnd : Voice := { sample := some 0, sample_pos := 4, hold := false }

/-- A channel on `fourFrameBank` whose pool holds `releasedVoiceAtEnd` and
`heldVoiceAtEnd`. -/
def twoVoiceChannel : Channel :=
  { sf := some fourFrameBank,
    voices := { elems := [releasedVoiceAtEnd, heldVoiceAtEnd], capacity := 64, resize_len := 64 } }

/-- The values of an `int16_t`. -/
def InInt16 (x : Int) : Prop := -32768 ≤ x ∧ x ≤ 32767

/-- An `Envelope` whose fields are values of `int16_t`, as they are in the source. -/
def Envelope.InInt16 (e : Envelope) : Prop :=
  SF2.InInt16 e.attack ∧ SF2.InInt16 e.decay ∧ SF2.InInt16 e.sustain ∧ SF2.InInt16 e.release ∧
    SF2.InInt16 e.hold ∧ SF2.InInt16 e.delay ∧ SF2.InInt16 e.keynumToHold ∧
    SF2.InInt16 e.keynumToDecay

/-- An `LFO` whose fields are values of `int16_t`, as they are in the source. -/
def LFO.InInt16 (l : LFO) : Prop := SF2.InInt16 l.delay ∧ SF2.InInt16 l.frequency

/-- The envelope state computed from one envelope descriptor alone. -/
noncomputable def Env.ofEnvelope (is_decibels : Bool) (env : Envelope) (key : Nat) : Env :=
  { value := if is_decibels then -96 else 0,
    delay := timecents_to_seconds env.delay,
    attack := timecents_to_seconds env.attack,
    hold := timecents_to_seconds env.hold *
      timecents_to_seconds ((env.keynumToHold * (60 - (key : Int)) : Int) : ℝ),
    decay := timecents_to_seconds env.decay *
      timecents_to_seconds ((env.keynumToDecay * (60 - (key : Int)) : Int) : ℝ),
    release := timecents_to_seconds env.release,
    sustain := if is_decibels then (env.sustain : ℝ) * (1 / 10)
               else 1 - (env.sustain : ℝ) * (1 / 1000),
    slope_factor := 1 / timecents_to_seconds env.delay }

/-- The LFO state computed from one LFO descriptor alone. -/
noncomputable def VoiceLFO.ofLFO (lfo : LFO) : VoiceLFO :=
  { time := 0,
    freq := 8176 / 1000 * cents_to_hertz (lfo.frequency : ℝ),
    delay := timecents_to_seconds (lfo.delay : ℝ) }

/-- The playback frequency computed from the split's tune and scale tuning alone. -/
noncomputable def splitFreq (split : Instrument.Zone) (sample : Sample) (tmp_key : Nat) : ℝ :=
  let root_key_cents : ℝ :=
    ((if split.root_key = -1 then (sample.original_key : Int) else split.root_key : Int) : ℝ)
      * 100
  let note_cents : ℝ := (tmp_key : ℝ) * 100 + (split.tune : ℝ)
  let freq : ℝ := (sample.sample_rate : ℝ) / cents_to_hertz root_key_cents *
    cents_to_hertz (root_key_cents + (note_cents - root_key_cents) * (split.scale_tuning : ℝ))
  if sample.correction ≠ 0 then freq * cents_to_hertz (sample.correction : ℝ) else freq

/-- The voice whose parameters are computed from the split's parameters alone: envelopes,
LFOs, filter, routings, gain, pan and frequency take the split's values with nothing
added. The vibrato LFO is computed from the split's modulation-LFO descriptor, which is
the descriptor `GenerateVoices` reads for it. -/
noncomputable def splitOnlyVoice (sample_rate : ℝ) (split : Instrument.Zone)
    (key tmp_key tmp_vel sampleIdx : Nat) (sample : Sample) (pan : ℝ) (voice : Voice) :
    Voice :=
  let factors := constant_power_pan (clamp_panning (pan + (split.pan : ℝ)))
  { voice with
    key := tmp_key,
    sample := some sampleIdx,
    zone := some split,
    hold := true,
    sample_pos := (split.start_offset : ℝ),
    sample_end_pos := toUInt32 ((sample.size : Int) + split.end_offset),
    loop_start := toUInt32 ((sample.loop_start : Int) + split.loop_start_offset),
    loop_end := toUInt32 ((sample.loop_end : Int) + split.loop_end_offset),
    volenv := Env.ofEnvelope true split.volEnv key,
    modenv := Env.ofEnvelope false split.modEnv key,
    filter_q := (split.filter_q : ℝ),
    filter_freq := 8176 / 1000 * cents_to_hertz (split.filter_freq : ℝ),
    modenv_to_filter_freq := (split.modEnv_to_filter_fc : ℝ),
    lowpass := setupLowpass voice.lowpass (8176 / 1000 * cents_to_hertz (split.filter_freq : ℝ))
      (split.filter_q : ℝ) (split.modEnv_to_filter_fc : ℝ) sample_rate,
    modenv_to_pitch := (split.modEnv_to_pitch : ℝ),
    modLFO := VoiceLFO.ofLFO split.modLFO,
    modLFO_to_filter_fc := (split.modLFO_to_filter_fc : ℝ),
    modLFO_to_pitch := (split.modLFO_to_pitch : ℝ),
    modLFO_to_volume := (split.modLFO_to_volume : ℝ) / 10,
    vibLFO := VoiceLFO.ofLFO split.modLFO,
    vibLFO_to_pitch := (split.vibLFO_to_pitch : ℝ),
    gain := decibels_to_gain (-(split.attenuation : ℝ) * (4 / 10)) * ((tmp_vel : ℝ) / 127),
    pan_factor_l := factors.1,
    pan_factor_r := factors.2,
    freq := splitFreq split sample tmp_key }

/-- A `RIFF` or `LIST` chunk with the given form or list type. -/
def listChunk (id type : FOURCC) : chunk := { id := id, type := type }

/-- The chunks `RIFF sfbk`, `LIST INFO`, `ifil`, `LIST sdta`, `smpl` that open a SoundFont
file. -/
def headChunks : List chunk :=
  [listChunk (string_to_FOURCC 'R' 'I' 'F' 'F') (string_to_FOURCC 's' 'f' 'b' 'k'),
   listChunk (string_to_FOURCC 'L' 'I' 'S' 'T') (string_to_FOURCC 'I' 'N' 'F' 'O'),
   { id := string_to_FOURCC 'i' 'f' 'i' 'l', size := 4 },
   listChunk (string_to_FOURCC 'L' 'I' 'S' 'T') (string_to_FOURCC 's' 'd' 't' 'a'),
   { id := string_to_FOURCC 's' 'm' 'p' 'l', size := 0 }]

/-- The eight sub-chunks `pbag` … `shdr` with one record each. -/
def pdtaTailChunks : List chunk :=
  [{ id := string_to_FOURCC 'p' 'b' 'a' 'g', size := 4 },
   { id := string_to_FOURCC 'p' 'm' 'o' 'd', size := 10 },
   { id := string_to_FOURCC 'p' 'g' 'e' 'n', size := 4 },
   { id := string_to_FOURCC 'i' 'n' 's' 't', size := 22 },
   { id := string_to_FOURCC 'i' 'b' 'a' 'g', size := 4 },
   { id := string_to_FOURCC 'i' 'm' 'o' 'd', size := 10 },
   { id := string_to_FOURCC 'i' 'g' 'e' 'n', size := 4 },
   { id := string_to_FOURCC 's' 'h' 'd' 'r', size := 46 }]

/-- A chunk list without a `LIST pdta` chunk: the head chunks followed directly by the nine
sub-chunks `phdr` … `shdr`. -/
def chunksWithoutPdtaList : List chunk :=
  headChunks ++ { id := string_to_FOURCC 'p' 'h' 'd' 'r', size := 38 } :: pdtaTailChunks

/-- A chunk list with a `LIST pdta` chunk but without the sub-chunk `phdr`. -/
def chunksWithoutPhdr : List chunk :=
  headChunks ++
    listChunk (string_to_FOURCC 'L' 'I' 'S' 'T') (string_to_FOURCC 'p' 'd' 't' 'a') ::
    pdtaTailChunks

/-- The `HYDRA` arrays of a file with three presets without zones, `(program 5, bank 1)`,
`(program 2, bank 0)` and `(program 3, bank 1)`, the terminal preset record with bank 255,
no instrument and no sample. -/
def hydraTwoBanks : HYDRA :=
  { phdr := [⟨5, 1, 0⟩, ⟨2, 0, 0⟩, ⟨3, 1, 0⟩, ⟨0, 255, 0⟩],
    pbag := [⟨0⟩],
    inst := [⟨0⟩],
    ibag := [⟨0⟩],
    shdr := [{}] }

/-- The `shdr` array with one sample of type 3, which is none of the eight defined link
types, linked to sample 0, and the terminal record. -/
def shdrTypeThree : List sfSample :=
  [{ dwStart := 0, dwEnd := 100, dwSampleRate := 44100, byOriginalKey := 60,
     wSampleLink := 0, sfSampleType := 3 }, {}]

/-- The eight defined values of `SFSampleLink`. -/
def definedLinkTypes : List Nat := [1, 2, 4, 8, 0x8001, 0x8002, 0x8004, 0x8008]

/-- The presets loaded from the records `i, …, i + n - 1` of `phdr` whose `wBank` is `k`, in
the order of the records. -/
def bankPresets (hydra : HYDRA) (k : Nat) : Nat → Nat → List Preset
  | _, 0 => []
  | i, n + 1 =>
    (match hydra.phdr[i]?, loadPreset hydra i with
     | some ph, some p => if k = ph.wBank then [p] else []
     | _, _ => []) ++ bankPresets hydra k (i + 1) n

/-- The bank model the constructor returns for `hydraTwoBanks`, version 2.1, and an empty
stream. -/
def twoBanksFont : SoundFont2 :=
  { ifil := { wMajor := 2, wMinor := 1 },
    banks := [{ num := 0, presets := [{ num := 2 }] },
              { num := 1, presets := [{ num := 3 }, { num := 5 }] },
              { num := 255 }] }

/-- The `HYDRA` arrays of a file with two presets without zones, `(program 5, bank 1)` and
`(program 9, bank 2)`, the terminal preset record with bank 2, no instrument and no
sample: no preset is in bank 0. -/
def hydraNoBankZero : HYDRA :=
  { phdr := [⟨5, 1, 0⟩, ⟨9, 2, 0⟩, ⟨0, 2, 0⟩],
    pbag := [⟨0⟩],
    inst := [⟨0⟩],
    ibag := [⟨0⟩],
    shdr := [{}] }

/-- The bank model the constructor returns for `hydraNoBankZero`, version 2.1, and an empty
stream. -/
def noBankZeroFont : SoundFont2 :=
  { ifil := { wMajor := 2, wMinor := 1 },
    banks := [{ num := 1, presets := [{ num := 5 }] },
              { num := 2, presets := [{ num := 9 }] }] }

/-- The bank and the preset of a channel, by their numbers. -/
def Channel.selection (ch : Channel) : Option Nat × Option Nat :=
  (ch.bank.map (fun b => b.num), ch.preset.map (fun p => p.num))

/-- A pool of three numbers with the default capacity. -/
def threePool : DynamicPool Nat := { elems := [10, 20, 30] }

/-- The component-wise integer sum of two envelope descriptors, with no narrowing. -/
def Envelope.sum (a b : Envelope) : Envelope :=
  { attack := a.attack + b.attack,
    decay := a.decay + b.decay,
    sustain := a.sustain + b.sustain,
    release := a.release + b.release,
    hold := a.hold + b.hold,
    delay := a.delay + b.delay,
    keynumToHold := a.keynumToHold + b.keynumToHold,
    keynumToDecay := a.keynumToDecay + b.keynumToDecay }

/-- A layer of instrument 0 whose volume envelope has the attack value 20000. -/
def longAttackLayer : Preset.Zone := { instrument := some 0, volEnv := { attack := 20000 } }

/-- A split of sample 0 whose volume envelope has the attack value 20000 and the other
times at their default. -/
def longAttackSplit : Instrument.Zone :=
  { newSplit with sample := some 0,
                  volEnv := { (Envelope.SetToDefault {}) with attack := 20000 } }

/-- A mono sample of four frames, all of value 1, whose loop points are both the sample
length 4. -/
def endLoopSample : Sample :=
  { sample_rate := 44100, original_key := 60, size := 4, loop_start := 4, loop_end := 4,
    data := some [1, 1, 1, 1] }

/-- A bank with the sample `endLoopSample`. -/
def endLoopBank : SoundFont2 := { samples := [endLoopSample] }

/-- The next-sample index in the words of the specification:
`(pos ≥ loop_end AND is_looping) ? loop_start : min(pos+1, length−1)`. -/
def specNextPos (pos loop_start loop_end length : Nat) (is_looping : Bool) : Nat :=
  if pos ≥ loop_end ∧ is_looping = true then loop_start else min (pos + 1) (length - 1)

/-- An `Envelope` with the sustain value 100 (in decibel mode an attenuation of 10 dB, in
linear mode the level 0.9) and the shortest times. -/
def quietSustain : Envelope := { ({} : Envelope).SetToDefault with sustain := 100 }

/-- A split of sample 0 whose two envelopes have `keynumToHold = keynumToDecay = 100`. -/
def keyTrackedSplit : Instrument.Zone :=
  { newSplit with
    sample := some 0,
    volEnv := { (Envelope.SetToDefault {}) with keynumToHold := 100, keynumToDecay := 100 },
    modEnv := { (Envelope.SetToDefault {}) with keynumToHold := 100, keynumToDecay := 100 } }

/-- A fresh channel on which `plainPreset` of `fixedKeyBank` is selected. -/
def fixedKeyChannel : Channel := { preset := some plainPreset, sf := some fixedKeyBank }

/-- The voice `GenerateVoices` builds from `plainLayer` and `fixedKeySplit` for the key
`key` at velocity 100 and 44100 Hz: the local `tmp_key` is the fixed key 60. -/
noncomputable def fixedKeyVoice (key : Nat) : Voice :=
  setupVoice 44100 plainLayer fixedKeySplit key 60 100 0 sample44k 0 {}

/-- The channel `fixedKeyChannel` after `NoteOn(72, 100, 44100)`. -/
noncomputable def fixedKeyChannel1 : Channel :=
  { fixedKeyChannel with
    key_states := fixedKeyChannel.key_states.set 72 true,
    voices := { elems := [fixedKeyVoice 72], capacity := 64, resize_len := 64 } }

/-- The filter with `inv_Q = 0` after `set_frequency(0.25)`. -/
noncomputable def quarterFilter : BiQuadLowpass := BiQuadLowpass.set_frequency {} (1 / 4)

/-- A pool of capacity 1 that holds the number 7. -/
def onePool : DynamicPool Nat := { elems := [7], capacity := 1, resize_len := 1 }

/-- A pool of capacity 2 that holds the numbers 9 and 8. -/
def twoPool : DynamicPool Nat := { elems := [9, 8], capacity := 2, resize_len := 1 }

/-- One preset with a global zone `[modLfoToPitch 7, initialFilterFc 100]` and a local zone
`[initialFilterFc 300, instrument 0]`. -/
def hydraGlobalZone : HYDRA :=
  { phdr := [⟨0, 0, 0⟩, ⟨0, 0, 2⟩],
    pbag := [⟨0⟩, ⟨2⟩, ⟨4⟩],
    pgen := [⟨GenType.modLfoToPitch, 7⟩, ⟨GenType.initialFilterFc, 100⟩,
             ⟨GenType.initialFilterFc, 300⟩, ⟨GenType.instrument, 0⟩,
             ⟨0, 0⟩] }

/-- The generators of the preset zone at bag index `j`: the entries of `pgen` from the
bag's `wGenNdx` up to the next bag's. -/
def presetZoneGens (hydra : HYDRA) (j : Nat) : Option (List sfGenList) :=
  match hydra.pbag[j]?, hydra.pbag[j + 1]? with
  | some pz, some pz1 => iterRange hydra.pgen pz.wGenNdx pz1.wGenNdx
  | _, _ => none

/-- The generators of the preset zone at bag index `j` when that zone is a local zone that
gives a layer: it has generators and the final one is `instrument`. -/
def layerZone (hydra : HYDRA) (j : Nat) : Option (List sfGenList) :=
  match presetZoneGens hydra j with
  | some loc =>
    (match loc.getLast? with
     | some g => if g.sfGenOper = GenType.instrument then some loc else none
     | none => none)
  | none => none

/-- The generator lists of the zones with bag indices `j, …, j + n - 1` that give a layer,
in the order of the zones. -/
def layerZones (hydra : HYDRA) : Nat → Nat → List (List sfGenList)
  | _, 0 => []
  | j, n + 1 =>
    (match layerZone hydra j with
     | some loc => [loc]
     | none => []) ++ layerZones hydra (j + 1) n

/-- The generator list `gens` of a layer has the list `baseline` as its baseline and `loc`
as its local zone: slot `k` of `gens` holds the `k`-th baseline generator, or a generator
of the local zone with the same operator in its place; every entry of `gens` is a baseline
generator or a generator of the local zone; and every operator of the local zone is
represented in `gens` by a generator of the local zone. -/
def BaselineMerge (baseline loc gens : List sfGenList) : Prop :=
  (∀ (k : Nat) (g : sfGenList), baseline[k]? = some g →
    ∃ g1, gens[k]? = some g1 ∧ g1.sfGenOper = g.sfGenOper ∧ (g1 = g ∨ g1 ∈ loc)) ∧
  (∀ g ∈ gens, g ∈ baseline ∨ g ∈ loc) ∧
  (∀ l ∈ loc, ∃ g ∈ gens, g.sfGenOper = l.sfGenOper ∧ g ∈ loc)

/-- A layer of a preset with the baseline `baseline`, built for the local zone `loc`: the
fold of the generator switch over a generator list that has `baseline` as its baseline and
`loc` as its local zone, starting from the default layer. -/
def LayerOver (baseline loc : List sfGenList) (layer : Preset.Zone) : Prop :=
  ∃ gens, BaselineMerge baseline loc gens ∧ layer = gens.foldl applyPresetGen {}

/-- C1 (the code departs from the claim). For the instrument of `hydraRepeatedOffsets` the
one split has `start_offset = 8` and `tune = 300`: the local `startAddrsOffset 3` is added
to the global `startAddrsOffset 5`, and the second `coarseTune` is added to the first;
replacement would give `3` and `200`. -/
theorem repeated_offset_and_tune_accumulate :
    (loadInstrument hydraRepeatedOffsets 0).map
        (fun inst => inst.splits.map (fun s => (s.sample, s.start_offset, s.tune)))
      = some [(some 0, 8, 300)] := by
  decide

/-- C2 (the code departs from the claim). For the instrument of `hydraSampleNotLast`, which
has two zones and whose first zone does not end in `sampleID`, the first zone is emitted as
a split and the second zone keeps the default `filter_freq = 13500` instead of inheriting
`5000`. -/
theorem first_zone_with_sample_is_not_global :
    (loadInstrument hydraSampleNotLast 0).map
        (fun inst => inst.splits.map (fun s => (s.sample, s.filter_freq)))
      = some [(some 0, 5000), (some 1, 13500)] := by
  decide

/-- C3 (the code departs from the claim). For the instrument of `hydraZoneWithoutSample`
the split list holds only the split of sample 1: discarding the second zone removed the
split of sample 0 that had been accepted before it. For the instrument of
`hydraLoneZoneWithoutSample` the discard acts on an empty split list, which is undefined
(`none`). -/
theorem discard_zone_drops_previous_split :
    (loadInstrument hydraZoneWithoutSample 0).map
        (fun inst => inst.splits.map (fun s => s.sample))
      = some [some 1] ∧
    (loadInstrument hydraLoneZoneWithoutSample 0).map
        (fun inst => inst.splits.map (fun s => s.sample))
      = none := by
  decide

/-! ## Theorems: preset pass -/

/-- C4 (the code departs from the claim). For the preset of `hydraRepeatedGlobal` the one
layer has `filter_freq = 200`, the second global value: the local `initialFilterFc 300`
replaced only the first of the two global entries. -/
theorem repeated_global_generator_wins :
    (loadPreset hydraRepeatedGlobal 0).map
        (fun p => p.layers.map (fun l => (l.instrument, l.filter_freq)))
      = some [(some 0, 200)] := by
  decide

/-- The last element of a non-empty slice `l[b], …, l[e-1]` is `l[e-1]`. -/
theorem getLast?_slice (l : List sfGenList) (b e : Nat) (h1 : b < e) (h2 : e ≤ l.length) :
    ((l.drop b).take (e - b)).getLast? = l[e - 1]? := by
  rw [List.getLast?_eq_getElem?]
  simp only [List.length_take, List.length_drop]
  have hmin : min (e - b) (l.length - b) = e - b := by omega
  rw [hmin, List.getElem?_take_of_lt (by omega), List.getElem?_drop]
  congr 1
  omega

/-- Every entry of the list after `supersede` is the new generator or an old entry. -/
theorem mem_supersede (gens : List sfGenList) (pg g : sfGenList)
    (h : g ∈ supersede gens pg) : g = pg ∨ g ∈ gens := by
  induction gens with
  | nil => simp [supersede] at h; exact Or.inl h
  | cons gen rest ih =>
    unfold supersede at h
    split at h
    · rcases List.mem_cons.mp h with h | h
      · exact Or.inl h
      · exact Or.inr (List.mem_cons_of_mem _ h)
    · rcases List.mem_cons.mp h with h | h
      · exact Or.inr (h ▸ List.mem_cons_self _ _)
      · rcases ih h with h | h
        · exact Or.inl h
        · exact Or.inr (List.mem_cons_of_mem _ h)

/-- Every merged generator comes from the local zone or from the global range. -/
theorem mem_mergeGenerators (loc global : List sfGenList) (g : sfGenList)
    (h : g ∈ mergeGenerators global loc) : g ∈ loc ∨ g ∈ global := by
  unfold mergeGenerators at h
  induction loc generalizing global with
  | nil => exact Or.inr h
  | cons pg rest ih =>
    rw [List.foldl_cons] at h
    rcases ih _ h with h | h
    · exact Or.inl (List.mem_cons_of_mem _ h)
    · rcases mem_supersede _ _ _ h with h | h
      · exact Or.inl (h ▸ List.mem_cons_self _ _)
      · exact Or.inr h

/-- The generators collected as the global baseline of preset `i`, in terms of the
generators `fz` of its first zone. -/
theorem presetGlobalGens_eq (hydra : HYDRA) (i : Nat) (ph ph1 : sfPresetHeader)
    (fz : List sfGenList)
    (h0 : hydra.phdr[i]? = some ph) (h1 : hydra.phdr[i + 1]? = some ph1)
    (hfz : (ph1.wPresetBagNdx : Int) - (ph.wPresetBagNdx : Int) > 1 →
      firstPresetZoneGens hydra ph = some fz) :
    presetGlobalGens hydra i = some
      (if specPresetGlobal ((ph1.wPresetBagNdx : Int) - (ph.wPresetBagNdx : Int)) fz
        then fz else []) := by
  unfold presetGlobalGens presetGlobalRange
  rw [h0, h1]
  by_cases hc : (ph1.wPresetBagNdx : Int) - (ph.wPresetBagNdx : Int) > 1
  · have hz := hfz hc
    unfold firstPresetZoneGens at hz
    simp only [hc, if_true]
    cases hb : hydra.pbag[ph.wPresetBagNdx]? with
    | none => simp [hb] at hz
    | some zone =>
      cases hb1 : hydra.pbag[ph.wPresetBagNdx + 1]? with
      | none => simp [hb, hb1] at hz
      | some zone1 =>
        simp only [hb, hb1] at hz
        unfold iterRange at hz
        split at hz
        next hr =>
          obtain ⟨hbe, hel⟩ := hr
          have hfz' : fz = (hydra.pgen.drop zone.wGenNdx).take (zone1.wGenNdx - zone.wGenNdx) :=
            (Option.some.inj hz).symm
          by_cases hlt : zone.wGenNdx < zone1.wGenNdx
          · have hne : zone1.wGenNdx ≠ 0 := by omega
            have hlast : fz.getLast? = hydra.pgen[zone1.wGenNdx - 1]? := by
              rw [hfz']; exact getLast?_slice _ _ _ hlt hel
            have hget : ∃ last, hydra.pgen[zone1.wGenNdx - 1]? = some last := by
              have : zone1.wGenNdx - 1 < hydra.pgen.length := by omega
              exact ⟨_, List.getElem?_eq_getElem this⟩
            obtain ⟨last, hl⟩ := hget
            simp only [hne, ne_eq, not_false_eq_true, if_true, hl]
            by_cases hop : last.sfGenOper = GenType.instrument
            · simp [hop, specPresetGlobal, hlast, hl, iterRange]
            · simp only [hop, specPresetGlobal, hlast, hl, iterRange, hc, hbe, hel, and_self, if_true,
                ne_eq, not_false_eq_true, decide_True, Bool.and_self]
              rw [hfz']
          · have heq : zone.wGenNdx = zone1.wGenNdx := by omega
            have hnil : fz = [] := by rw [hfz', heq]; simp
            subst hnil
            by_cases hne : zone1.wGenNdx = 0
            · simp [hne, specPresetGlobal, iterRange]
            · have hget : ∃ last, hydra.pgen[zone1.wGenNdx - 1]? = some last := by
                have : zone1.wGenNdx - 1 < hydra.pgen.length := by omega
                exact ⟨_, List.getElem?_eq_getElem this⟩
              obtain ⟨last, hl⟩ := hget
              simp only [hne, ne_eq, not_false_eq_true, if_true, hl]
              by_cases hop : last.sfGenOper = GenType.instrument
              · simp [hop, specPresetGlobal, iterRange]
              · simp [hop, specPresetGlobal, iterRange, heq, hel]
        next => simp at hz
  · simp [hc, specPresetGlobal, iterRange]

/-- A layer pushed by the zone loop is folded from the merge of the generators of the
global range with the generators of its own zone. -/
theorem presetZoneStep_layer (hydra : HYDRA) (gb ge j : Nat) (layer : Preset.Zone)
    (h : presetZoneStep hydra gb ge j = some (some layer)) :
    ∃ global loc pz pz1, iterRange hydra.pgen gb ge = some global ∧
      hydra.pbag[j]? = some pz ∧ hydra.pbag[j + 1]? = some pz1 ∧
      iterRange hydra.pgen pz.wGenNdx pz1.wGenNdx = some loc ∧
      layer = foldLayer (mergeGenerators global loc) := by
  unfold presetZoneStep at h
  cases hb : hydra.pbag[j]? with
  | none => simp [hb] at h
  | some pz =>
    cases hb1 : hydra.pbag[j + 1]? with
    | none => simp [hb, hb1] at h
    | some pz1 =>
      simp only [hb, hb1] at h
      split at h
      · simp at h
      · split at h
        · simp at h
        · cases hl : hydra.pgen[pz1.wGenNdx - 1]? with
          | none => simp [hl] at h
          | some last =>
            simp only [hl] at h
            split at h
            · simp at h
            · cases hg : iterRange hydra.pgen gb ge with
              | none => simp [hg] at h
              | some global =>
                cases hloc : iterRange hydra.pgen pz.wGenNdx pz1.wGenNdx with
                | none => simp [hg, hloc] at h
                | some loc =>
                  simp only [hg, hloc] at h
                  split at h
                  · simp at h
                  · simp only [Option.some.injEq] at h
                    exact ⟨global, loc, pz, pz1, rfl, rfl, rfl, hloc, h.symm⟩

/-! ## Theorems: voice construction -/

/-- The skip test of the source is the negation of the range test of the specification. -/
theorem outOfRange_eq (key velocity kl kh vl vh : Nat) :
    outOfRange key velocity kl kh vl vh = !inRange key velocity kl kh vl vh := by
  unfold outOfRange inRange
  by_cases h1 : key < kl <;> by_cases h2 : kh < key <;> by_cases h3 : velocity < vl <;>
    by_cases h4 : vh < velocity <;> simp [h1, h2, h3, h4]
  all_goals omega

/-- On a pool that grows on demand `emplace_back` appends the element and the pool still
grows on demand. -/
theorem emplace_back_growable {T : Type} (p : DynamicPool T) (x : T) (h : p.Growable) :
    ∃ p', p.emplace_back x = some p' ∧ p'.elems = p.elems ++ [x] ∧ p'.Growable := by
  obtain ⟨h1, h2, h3⟩ := h
  unfold DynamicPool.emplace_back
  by_cases hfull : p.size + 1 > p.capacity
  · have hroom : ¬ (p.size + 1 > p.capacity + p.resize_len) := by omega
    refine ⟨{ p with elems := p.elems ++ [x], capacity := p.capacity + p.resize_len }, ?_, rfl, ?_⟩
    · simp [hfull, h1, hroom]
    · refine ⟨h1, h2, ?_⟩
      simp only [DynamicPool.size, List.length_append, List.length_singleton] at *
      omega
  · refine ⟨{ p with elems := p.elems ++ [x] }, ?_, rfl, ?_⟩
    · simp [hfull]
    · refine ⟨h1, h2, ?_⟩
      simp only [DynamicPool.size, List.length_append, List.length_singleton] at *
      omega

/-- An update through `back()` rewrites the last element and nothing else. -/
theorem modifyBack_append {T : Type} (p : DynamicPool T) (l : List T) (x : T) (f : T → T)
    (h : p.elems = l ++ [x]) :
    p.modifyBack f = some { p with elems := l ++ [f x] } := by
  unfold DynamicPool.modifyBack
  rw [h]
  simp

/-- For a mono sample the `create_voice` block runs once: one voice is appended. -/
theorem createVoices_mono (sf : SoundFont2) (sample_rate : ℝ) (layer : Preset.Zone)
    (split : Instrument.Zone) (key tmp_key tmp_vel si fuel : Nat) (sample : Sample)
    (container : DynamicPool Voice)
    (hs : sf.samples[si]? = some sample)
    (hm : sample.sample_type = SFSampleLink.monoSample)
    (hp : container.Growable) :
    ∃ c, createVoices sf sample_rate layer split key tmp_key tmp_vel si (fuel + 1) si 0 container
          = some c ∧
      c.elems = container.elems ++
        [setupVoice sample_rate layer split key tmp_key tmp_vel si sample 0 {}] ∧
      c.Growable := by
  obtain ⟨c1, he, hel, hg⟩ := emplace_back_growable container ({} : Voice) hp
  have hmb := modifyBack_append c1 container.elems ({} : Voice)
    (setupVoice sample_rate layer split key tmp_key tmp_vel si sample 0) hel
  refine ⟨{ c1 with elems := container.elems ++
      [setupVoice sample_rate layer split key tmp_key tmp_vel si sample 0 {}] }, ?_, rfl, ?_⟩
  · unfold createVoices
    simp only [hs, he]
    have hpan : samplePan sample.sample_type 0 = 0 := by simp [samplePan, hm]
    rw [hpan, hmb]
    simp [hm]
  · obtain ⟨g1, g2, g3⟩ := hg
    refine ⟨g1, g2, ?_⟩
    simp only [DynamicPool.size, hel, List.length_append, List.length_singleton] at *
    omega

/-- The body of the split loop for a split with a mono sample: one voice when the split's
ranges include key and velocity, none otherwise. -/
theorem splitVoices_mono (sf : SoundFont2) (sample_rate : ℝ) (fuel : Nat)
    (layer : Preset.Zone) (key velocity : Nat) (split : Instrument.Zone)
    (container : DynamicPool Voice) (hf : 0 < fuel)
    (hm : ∃ si sample, split.sample = some si ∧ sf.samples[si]? = some sample ∧
      sample.sample_type = SFSampleLink.monoSample)
    (hp : container.Growable) :
    ∃ c, splitVoices sf sample_rate fuel layer key velocity split container = some c ∧
      c.elems = container.elems ++
        (if inRange key velocity split.key_low split.key_high split.vel_low split.vel_high
          then [monoVoice sf sample_rate key velocity (layer, split)] else []) ∧
      c.Growable := by
  obtain ⟨si, sample, h1, h2, h3⟩ := hm
  unfold splitVoices
  rw [outOfRange_eq]
  by_cases hr : inRange key velocity split.key_low split.key_high split.vel_low split.vel_high
      = true
  · obtain ⟨n, hn⟩ : ∃ n, fuel = n + 1 := ⟨fuel - 1, by omega⟩
    subst hn
    have hrom : IsSampleROM sample.sample_type = false := by rw [h3]; decide
    obtain ⟨c, hc, hel, hg⟩ := createVoices_mono sf sample_rate layer split key
      (tmpKey split key) (tmpVel split velocity) si n sample container h2 h3 hp
    refine ⟨c, ?_, ?_, hg⟩
    · simp [hr, h1, h2, hrom, hc]
    · rw [hel]
      simp [hr, monoVoice, h1, h2]
  · refine ⟨container, ?_, ?_, hp⟩
    · simp [hr]
    · simp [hr]

/-- The split loop over splits with mono samples appends one voice per split in range, in
order. -/
theorem splitsLoop_mono (sf : SoundFont2) (sample_rate : ℝ) (fuel : Nat)
    (layer : Preset.Zone) (key velocity : Nat) (hf : 0 < fuel)
    (splits : List Instrument.Zone) :
    ∀ container : DynamicPool Voice, AllMono sf splits → container.Growable →
    ∃ c, splitsLoop sf sample_rate fuel layer key velocity splits container = some c ∧
      c.elems = container.elems ++
        ((splits.filter (fun split =>
            inRange key velocity split.key_low split.key_high split.vel_low split.vel_high)).map
          (fun split => monoVoice sf sample_rate key velocity (layer, split))) ∧
      c.Growable := by
  induction splits with
  | nil =>
    intro container _ hp
    exact ⟨container, by simp [splitsLoop], by simp, hp⟩
  | cons split rest ih =>
    intro container hm hp
    obtain ⟨c1, h1, hel1, hg1⟩ := splitVoices_mono sf sample_rate fuel layer key velocity split
      container hf (hm split (List.mem_cons_self _ _)) hp
    obtain ⟨c2, h2, hel2, hg2⟩ := ih c1 (fun s hs => hm s (List.mem_cons_of_mem _ hs)) hg1
    refine ⟨c2, ?_, ?_, hg2⟩
    · simp [splitsLoop, h1, h2]
    · rw [hel2, hel1]
      by_cases hr : inRange key velocity split.key_low split.key_high split.vel_low
          split.vel_high = true
      · simp [hr, List.filter_cons]
      · simp [hr, List.filter_cons]

/-- The body of the layer loop for a layer whose splits have mono samples. -/
theorem layerVoices_mono (sf : SoundFont2) (sample_rate : ℝ) (fuel : Nat)
    (key velocity : Nat) (hf : 0 < fuel) (layer : Preset.Zone)
    (container : DynamicPool Voice)
    (hm : ∃ i instrument, layer.instrument = some i ∧
      sf.instruments[i]? = some instrument ∧ AllMono sf instrument.splits)
    (hp : container.Growable) :
    ∃ c, layerVoices sf sample_rate fuel key velocity layer container = some c ∧
      c.elems = container.elems ++
        ((((layerSplits sf layer).map (fun split => (layer, split))).filter
            (pairInRange key velocity)).map (monoVoice sf sample_rate key velocity)) ∧
      c.Growable := by
  obtain ⟨i, instrument, h1, h2, h3⟩ := hm
  unfold layerVoices
  rw [outOfRange_eq]
  have hsplits : layerSplits sf layer = instrument.splits := by simp [layerSplits, h1, h2]
  by_cases hr : inRange key velocity layer.key_low layer.key_high layer.vel_low layer.vel_high
      = true
  · obtain ⟨c, hc, hel, hg⟩ := splitsLoop_mono sf sample_rate fuel layer key velocity hf
      instrument.splits container h3 hp
    refine ⟨c, ?_, ?_, hg⟩
    · simp [hr, h1, h2, hc]
    · rw [hel, hsplits, List.filter_map, List.map_map]
      congr 2
      apply List.filter_congr
      intro x _
      simp [pairInRange, hr]
  · refine ⟨container, by simp [hr], ?_, hp⟩
    rw [List.filter_map]
    have : List.filter (pairInRange key velocity ∘ fun split => (layer, split))
        (layerSplits sf layer) = [] := by
      rw [List.filter_eq_nil_iff]
      intro x _
      simp [pairInRange, hr]
    simp [this]

/-- The layer loop over layers whose splits have mono samples appends one voice per (layer,
split) pair in range, in order. -/
theorem layersLoop_mono (sf : SoundFont2) (sample_rate : ℝ) (fuel : Nat)
    (key velocity : Nat) (hf : 0 < fuel) (layers : List Preset.Zone) :
    ∀ container : DynamicPool Voice, AllLayersMono sf layers → container.Growable →
    ∃ c, layersLoop sf sample_rate fuel key velocity layers container = some c ∧
      c.elems = container.elems ++
        (((layers.flatMap (fun layer =>
              (layerSplits sf layer).map (fun split => (layer, split)))).filter
            (pairInRange key velocity)).map (monoVoice sf sample_rate key velocity)) ∧
      c.Growable := by
  induction layers with
  | nil =>
    intro container _ hp
    exact ⟨container, by simp [layersLoop], by simp, hp⟩
  | cons layer rest ih =>
    intro container hm hp
    obtain ⟨c1, h1, hel1, hg1⟩ := layerVoices_mono sf sample_rate fuel key velocity hf layer
      container (hm layer (List.mem_cons_self _ _)) hp
    obtain ⟨c2, h2, hel2, hg2⟩ := ih c1 (fun l hl => hm l (List.mem_cons_of_mem _ hl)) hg1
    refine ⟨c2, ?_, ?_, hg2⟩
    · simp [layersLoop, h1, h2]
    · rw [hel2, hel1]
      simp [List.flatMap_cons, List.filter_append, List.map_append, List.append_assoc]

/-- The pool of a fresh channel grows on demand. -/
theorem emptyPool_growable : emptyPool.Growable := by
  refine ⟨by decide, by decide, ?_⟩
  simp [emptyPool, DynamicPool.size]

/-- The samples of `fixedKeyBank` are mono. -/
theorem fixedKeyBank_mono : AllLayersMono fixedKeyBank plainPreset.layers := by
  intro layer hl
  simp only [plainPreset, List.mem_singleton] at hl
  subst hl
  refine ⟨0, { splits := [fixedKeySplit] }, rfl, rfl, ?_⟩
  intro split hs
  simp only [List.mem_singleton] at hs
  subst hs
  exact ⟨0, sample44k, rfl, rfl, rfl⟩

/-- The value of `cents_to_hertz` is positive. -/
theorem cents_to_hertz_pos (c : ℝ) : 0 < cents_to_hertz c :=
  Real.rpow_pos_of_pos (by norm_num) _

/-- Adding 1200 cents doubles `cents_to_hertz`. -/
theorem cents_to_hertz_add_octave (c : ℝ) : cents_to_hertz (c + 1200) = 2 * cents_to_hertz c := by
  unfold cents_to_hertz
  have h : (c + 1200) / 1200 = c / 1200 + 1 := by ring
  rw [h, Real.rpow_add (by norm_num : (0:ℝ) < 2), Real.rpow_one]
  ring

/-- The field `freq` that `setupVoice` assigns. -/
theorem setupVoice_freq (sample_rate : ℝ) (layer : Preset.Zone) (split : Instrument.Zone)
    (key tmp_key tmp_vel sampleIdx : Nat) (sample : Sample) (pan : ℝ) (voice : Voice) :
    (setupVoice sample_rate layer split key tmp_key tmp_vel sampleIdx sample pan voice).freq
      = voiceFreq layer split sample tmp_key := rfl

/-- With scale tunings that sum to 1, twelve keys up doubles `voiceFreq`. -/
theorem voiceFreq_octave (layer : Preset.Zone) (split : Instrument.Zone) (sample : Sample)
    (k : Nat) (hst : split.scale_tuning + layer.scale_tuning = 1) :
    voiceFreq layer split sample (k + 12) = 2 * voiceFreq layer split sample k := by
  have hst' : (split.scale_tuning : ℝ) + (layer.scale_tuning : ℝ) = 1 := by
    exact_mod_cast hst
  unfold voiceFreq
  simp only [hst', mul_one]
  have hk : (((k + 12 : Nat) : ℝ) * 100 + (split.tune : ℝ) + (layer.tune : ℝ))
      = ((k : ℝ) * 100 + (split.tune : ℝ) + (layer.tune : ℝ)) + 1200 := by
    push_cast; ring
  rw [hk]
  set rc : ℝ := ((if split.root_key = -1 then (sample.original_key : Int) else split.root_key : Int) : ℝ) * 100
  set nc : ℝ := (k : ℝ) * 100 + (split.tune : ℝ) + (layer.tune : ℝ)
  have h2 : rc + (nc + 1200 - rc) = (rc + (nc - rc)) + 1200 := by ring
  rw [h2, cents_to_hertz_add_octave]
  split <;> ring

/-- At the root key, with tunes that sum to zero and no correction, `voiceFreq` is the
sample rate. -/
theorem voiceFreq_root (layer : Preset.Zone) (split : Instrument.Zone) (sample : Sample)
    (key : Nat)
    (hroot : (key : Int) = if split.root_key = -1 then (sample.original_key : Int) else split.root_key)
    (htune : split.tune + layer.tune = 0) (hcorr : sample.correction = 0) :
    voiceFreq layer split sample key = (sample.sample_rate : ℝ) := by
  unfold voiceFreq
  rw [← hroot]
  have ht : (split.tune : ℝ) + (layer.tune : ℝ) = 0 := by exact_mod_cast htune
  have h0 : ((key : Int) : ℝ) * 100 + ((key : ℝ) * 100 + (split.tune : ℝ) + (layer.tune : ℝ) - ((key : Int) : ℝ) * 100) *
      ((split.scale_tuning : ℝ) + (layer.scale_tuning : ℝ)) = ((key : Int) : ℝ) * 100 := by
    have : (key : ℝ) * 100 + (split.tune : ℝ) + (layer.tune : ℝ) - ((key : Int) : ℝ) * 100 = 0 := by
      push_cast; linarith
    rw [this]; ring
  simp only [h0, hcorr, ne_eq, not_true_eq_false, if_false]
  push_cast
  have hpos : cents_to_hertz ((key : ℝ) * 100) ≠ 0 := ne_of_gt (cents_to_hertz_pos _)
  rw [div_mul_cancel₀ _ hpos]

/-- On `fixedKeyBank` the call of `GenerateVoices` for any key up to 127 returns a pool with
one voice. -/
theorem fixedKey_voices (key : Nat) (hk : key ≤ 127) :
    ∃ c, GenerateVoices fixedKeyBank 1 plainPreset key 100 44100 emptyPool = some c ∧
      c.elems = [monoVoice fixedKeyBank 44100 key 100 (plainLayer, fixedKeySplit)] := by
  obtain ⟨c, h1, h2, _⟩ := layersLoop_mono fixedKeyBank 44100 1 key 100 (by decide)
    plainPreset.layers emptyPool fixedKeyBank_mono emptyPool_growable
  refine ⟨c, h1, ?_⟩
  rw [h2]
  simp [emptyPool, plainPreset, layerSplits, plainLayer, fixedKeyBank, pairInRange, inRange,
    fixedKeySplit, newSplit, hk]

/-- The voice of `fixedKeySplit` has frequency 44100 for every key. -/
theorem fixedKey_freq (key : Nat) :
    (monoVoice fixedKeyBank 44100 key 100 (plainLayer, fixedKeySplit)).freq = 44100 := by
  have h : monoVoice fixedKeyBank 44100 key 100 (plainLayer, fixedKeySplit) =
      setupVoice 44100 plainLayer fixedKeySplit key (tmpKey fixedKeySplit key)
        (tmpVel fixedKeySplit 100) 0 sample44k 0 {} := by
    simp [monoVoice, fixedKeySplit, fixedKeyBank]
  rw [h, setupVoice_freq]
  have hk : tmpKey fixedKeySplit key = 60 := by
    simp [tmpKey, fixedKeySplit, toUInt8]
  rw [hk]
  have := voiceFreq_root plainLayer fixedKeySplit sample44k 60 (by decide) (by decide) (by decide)
  rw [this]
  simp [sample44k]

/-- C7 as stated fails. The split `fixedKeySplit` and the layer `plainLayer` have scale
tunings that sum to 1, yet `GenerateVoices` builds for key 60 and for key 72 one voice each
with the same frequency 44100: the split's `keynum` override replaces the key, so the
voice of key 72 is not at twice the frequency of the voice of key 60. -/
theorem fixed_key_split_ignores_octave :
    fixedKeySplit.scale_tuning + plainLayer.scale_tuning = 1 ∧
    (GenerateVoices fixedKeyBank 1 plainPreset 60 100 44100 emptyPool).map
        (fun c => c.elems.map (fun v => v.freq)) = some [44100] ∧
    (GenerateVoices fixedKeyBank 1 plainPreset (60 + 12) 100 44100 emptyPool).map
        (fun c => c.elems.map (fun v => v.freq)) = some [44100] ∧
    (44100 : ℝ) ≠ 2 * 44100 := by
  refine ⟨by norm_num [fixedKeySplit, newSplit, plainLayer], ?_, ?_, by norm_num⟩
  · obtain ⟨c60, h60, e60⟩ := fixedKey_voices 60 (by decide)
    rw [h60]
    simp [e60, fixedKey_freq]
  · obtain ⟨c72, h72, e72⟩ := fixedKey_voices (60 + 12) (by decide)
    rw [h72]
    simp [e72, fixedKey_freq]

/-- C7, amended. For a split without a fixed-key override (`keynum = -1`), a layer and a
sample: when the scale tunings of split and layer sum to 1, the frequency of the voice built
for key `k + 12` is exactly twice that of the voice built for key `k` (same tune, same
correction), for every `k ≤ 115`; and when the key equals the root key, the tunes sum to
zero and the correction is zero, the frequency of the voice is the sample's sample rate.
The voice built for a key is the one `setupVoice` assigns, with the `tmp_key` of that key;
its other arguments do not matter. -/
theorem octave_doubles_frequency (layer : Preset.Zone) (split : Instrument.Zone)
    (sample : Sample) (hkn : split.keynum = -1) :
    (∀ k : Nat, k ≤ 115 → split.scale_tuning + layer.scale_tuning = 1 →
      ∀ (sr sr' : ℝ) (vel vel' idx idx' : Nat) (pan pan' : ℝ) (v v' : Voice),
        (setupVoice sr layer split (k + 12) (tmpKey split (k + 12)) vel idx sample pan v).freq
          = 2 * (setupVoice sr' layer split k (tmpKey split k) vel' idx' sample pan' v').freq) ∧
    (∀ key : Nat,
      (key : Int) = (if split.root_key = -1 then (sample.original_key : Int)
        else split.root_key) →
      split.tune + layer.tune = 0 → sample.correction = 0 →
      ∀ (sr : ℝ) (vel idx : Nat) (pan : ℝ) (v : Voice),
        (setupVoice sr layer split key (tmpKey split key) vel idx sample pan v).freq
          = (sample.sample_rate : ℝ)) := by
  have htk : ∀ key, tmpKey split key = key := by
    intro key
    simp [tmpKey, hkn]
  refine ⟨?_, ?_⟩
  · intro k _ hst sr sr' vel vel' idx idx' pan pan' v v'
    rw [setupVoice_freq, setupVoice_freq, htk, htk]
    exact voiceFreq_octave layer split sample k hst
  · intro key hroot htune hcorr sr vel idx pan v
    rw [setupVoice_freq, htk]
    exact voiceFreq_root layer split sample key hroot htune hcorr

/-- C7, amended, at the default split `plainSplit` of `sample44k` and the layer
`plainLayer`: the voice of key 72 sounds at twice the frequency of the voice of key 60,
and the voice of key 60 at 44100 Hz. -/
theorem octave_doubles_frequency_witness :
    plainSplit.keynum = -1 ∧
    (setupVoice 44100 plainLayer plainSplit (60 + 12) (tmpKey plainSplit (60 + 12)) 100 0
        sample44k 0 {}).freq
      = 2 * (setupVoice 44100 plainLayer plainSplit 60 (tmpKey plainSplit 60) 100 0
        sample44k 0 {}).freq ∧
    (setupVoice 44100 plainLayer plainSplit 60 (tmpKey plainSplit 60) 100 0
        sample44k 0 {}).freq = 44100 := by
  have h := octave_doubles_frequency plainLayer plainSplit sample44k (by decide)
  refine ⟨by decide,
    h.1 60 (by decide) (by norm_num [plainSplit, newSplit, plainLayer]) 44100 44100 100 100 0 0
      0 0 {} {}, ?_⟩
  have h2 := h.2 60 (by decide) (by decide) (by decide) 44100 100 0 0 {}
  rw [h2]
  simp [sample44k]

/-! ## Theorems: channels -/

/-- When growth is not switched off, a successful `emplace_back` appends the element. -/
theorem emplace_back_elems {T : Type} (p p' : DynamicPool T) (x : T)
    (h1 : p.resize_len ≠ SIZE_MAX) (h : p.emplace_back x = some p') :
    p'.elems = p.elems ++ [x] ∧ p'.resize_len = p.resize_len := by
  unfold DynamicPool.emplace_back at h
  by_cases hfull : p.size + 1 > p.capacity
  · by_cases hroom : p.size + 1 > p.capacity + p.resize_len
    · simp [hfull, h1, hroom] at h
    · simp only [hfull, h1, hroom, if_true, if_false] at h
      cases h; exact ⟨rfl, rfl⟩
  · simp only [hfull, if_false] at h
    cases h; exact ⟨rfl, rfl⟩

/-- The `create_voice` loop only appends to a pool whose growth is not switched off. -/
theorem createVoices_append (sf : SoundFont2) (sample_rate : ℝ) (layer : Preset.Zone)
    (split : Instrument.Zone) (key tmp_key tmp_vel sample_first : Nat) (fuel : Nat) :
    ∀ (sampleIdx : Nat) (pan : ℝ) (c c' : DynamicPool Voice),
      c.resize_len ≠ SIZE_MAX →
      createVoices sf sample_rate layer split key tmp_key tmp_vel sample_first fuel sampleIdx pan c
        = some c' →
      ∃ new, c'.elems = c.elems ++ new ∧ c'.resize_len = c.resize_len := by
  induction fuel with
  | zero => intro _ _ _ _ _ h; simp [createVoices] at h
  | succ n ih =>
    intro sampleIdx pan c c' hne h
    unfold createVoices at h
    split at h
    next sample first hs hfirst =>
      split at h
      · exact absurd h (by simp)
      next c1 he =>
        obtain ⟨hel, hrl⟩ := emplace_back_elems c c1 _ hne he
        dsimp only at h
        rw [modifyBack_append c1 c.elems _ _ hel] at h
        dsimp only at h
        have hbase : ∀ c3 : DynamicPool Voice,
            some ({ c1 with elems := c.elems ++ [setupVoice sample_rate layer split key tmp_key
              tmp_vel sampleIdx sample (samplePan sample.sample_type pan) {}] } :
              DynamicPool Voice) = some c3 →
            ∃ new, c3.elems = c.elems ++ new ∧ c3.resize_len = c.resize_len := by
          intro c3 hc
          cases hc
          exact ⟨_, rfl, hrl⟩
        split at h
        · split at h
          · exact hbase c' h
          next next hnext =>
            split at h
            · exact hbase c' h
            · obtain ⟨new, h1, h2⟩ := ih next _ _ c' (by simpa using hrl ▸ hne) h
              exact ⟨_, h1.trans (List.append_assoc _ _ _), h2.trans hrl⟩
        · exact hbase c' h
    next => exact absurd h (by simp)

/-- The body of the split loop only appends to a pool whose growth is not switched off. -/
theorem splitVoices_append (sf : SoundFont2) (sample_rate : ℝ) (fuel : Nat)
    (layer : Preset.Zone) (key velocity : Nat) (split : Instrument.Zone)
    (c c' : DynamicPool Voice) (hne : c.resize_len ≠ SIZE_MAX)
    (h : splitVoices sf sample_rate fuel layer key velocity split c = some c') :
    ∃ new, c'.elems = c.elems ++ new ∧ c'.resize_len = c.resize_len := by
  unfold splitVoices at h
  split at h
  · cases h; exact ⟨[], by simp, rfl⟩
  · split at h
    · exact absurd h (by simp)
    · split at h
      · exact absurd h (by simp)
      · split at h
        · cases h; exact ⟨[], by simp, rfl⟩
        · exact createVoices_append sf sample_rate layer split key _ _ _ fuel _ _ c c' hne h

/-- The split loop only appends to a pool whose growth is not switched off. -/
theorem splitsLoop_append (sf : SoundFont2) (sample_rate : ℝ) (fuel : Nat)
    (layer : Preset.Zone) (key velocity : Nat) (splits : List Instrument.Zone) :
    ∀ c c' : DynamicPool Voice, c.resize_len ≠ SIZE_MAX →
      splitsLoop sf sample_rate fuel layer key velocity splits c = some c' →
      ∃ new, c'.elems = c.elems ++ new ∧ c'.resize_len = c.resize_len := by
  induction splits with
  | nil =>
    intro c c' _ h
    simp only [splitsLoop] at h
    cases h; exact ⟨[], by simp, rfl⟩
  | cons split rest ih =>
    intro c c' hne h
    unfold splitsLoop at h
    split at h
    · exact absurd h (by simp)
    next c1 h1 =>
      obtain ⟨n1, e1, r1⟩ := splitVoices_append sf sample_rate fuel layer key velocity split
        c c1 hne h1
      obtain ⟨n2, e2, r2⟩ := ih c1 c' (r1 ▸ hne) h
      exact ⟨n1 ++ n2, by rw [e2, e1, List.append_assoc], r2.trans r1⟩

/-- The body of the layer loop only appends to a pool whose growth is not switched off. -/
theorem layerVoices_append (sf : SoundFont2) (sample_rate : ℝ) (fuel : Nat)
    (key velocity : Nat) (layer : Preset.Zone)
    (c c' : DynamicPool Voice) (hne : c.resize_len ≠ SIZE_MAX)
    (h : layerVoices sf sample_rate fuel key velocity layer c = some c') :
    ∃ new, c'.elems = c.elems ++ new ∧ c'.resize_len = c.resize_len := by
  unfold layerVoices at h
  split at h
  · cases h; exact ⟨[], by simp, rfl⟩
  · split at h
    · exact absurd h (by simp)
    · split at h
      · exact absurd h (by simp)
      · exact splitsLoop_append sf sample_rate fuel layer key velocity _ c c' hne h

/-- The layer loop only appends to a pool whose growth is not switched off. -/
theorem layersLoop_append (sf : SoundFont2) (sample_rate : ℝ) (fuel : Nat)
    (key velocity : Nat) (layers : List Preset.Zone) :
    ∀ c c' : DynamicPool Voice, c.resize_len ≠ SIZE_MAX →
      layersLoop sf sample_rate fuel key velocity layers c = some c' →
      ∃ new, c'.elems = c.elems ++ new ∧ c'.resize_len = c.resize_len := by
  induction layers with
  | nil =>
    intro c c' _ h
    simp only [layersLoop] at h
    cases h; exact ⟨[], by simp, rfl⟩
  | cons layer rest ih =>
    intro c c' hne h
    unfold layersLoop at h
    split at h
    · exact absurd h (by simp)
    next c1 h1 =>
      obtain ⟨n1, e1, r1⟩ := layerVoices_append sf sample_rate fuel key velocity layer
        c c1 hne h1
      obtain ⟨n2, e2, r2⟩ := ih c1 c' (r1 ▸ hne) h
      exact ⟨n1 ++ n2, by rw [e2, e1, List.append_assoc], r2.trans r1⟩

/-- The statements under `//extinguish fast` leave the voice extinguished. -/
theorem extinguish_extinguished (v : Voice) : (extinguish v).Extinguished := by
  unfold extinguish Voice.Extinguished Voice.Release
  exact ⟨rfl, rfl, rfl⟩

/-- The statements under `//extinguish fast` keep the voice's split. -/
theorem extinguish_zone (v : Voice) : (extinguish v).zone = v.zone := rfl

/-- The statements under `//extinguish fast` keep the voice's key. -/
theorem extinguish_key (v : Voice) : (extinguish v).key = v.key := rfl

/-- The inner exclusive-class loop keeps the zones and the keys, keeps the extinguished
state, extinguishes the voices of class `cls` and leaves the others as they are. -/
theorem releaseExclusive_spec (cls : Nat) (old : List Voice) :
    ∀ old' : List Voice, releaseExclusive cls old = some old' →
      ∀ (i : Nat) (v : Voice), old[i]? = some v →
        ∃ (v' : Voice) (z : Instrument.Zone), old'[i]? = some v' ∧ v.zone = some z ∧
          v'.zone = v.zone ∧ v'.key = v.key ∧
          (v.Extinguished → v'.Extinguished) ∧
          (z.exclusive_class = cls → v'.Extinguished) ∧
          (z.exclusive_class ≠ cls → v' = v) := by
  induction old with
  | nil => intro _ _ i v hv; simp at hv
  | cons w rest ih =>
    intro old' h i v hv
    cases hz : w.zone with
    | none => simp [releaseExclusive, hz] at h
    | some zone =>
      cases hr : releaseExclusive cls rest with
      | none => simp [releaseExclusive, hz, hr] at h
      | some rest1 =>
        simp only [releaseExclusive, hz, hr, Option.some.injEq] at h
        subst h
        cases i with
        | zero =>
          simp only [List.getElem?_cons_zero, Option.some.injEq] at hv
          subst hv
          refine ⟨if zone.exclusive_class = cls then extinguish w else w, zone, by simp, hz,
            ?_, ?_, ?_, ?_, ?_⟩
          · split <;> simp [extinguish_zone]
          · split <;> simp [extinguish_key]
          · intro he; split
            · exact extinguish_extinguished _
            · exact he
          · intro hc; rw [if_pos hc]; exact extinguish_extinguished _
          · intro hc; rw [if_neg hc]
        | succ j =>
          simp only [List.getElem?_cons_succ] at hv
          obtain ⟨v', z, h1, h2⟩ := ih rest1 hr j v hv
          exact ⟨v', z, by simpa using h1, h2⟩

/-- The exclusive-class loops over the new voices `nvs`: every earlier voice keeps its zone
and key; it ends extinguished when some new voice has its non-zero exclusive class, and is
unchanged when no new voice has. -/
theorem releaseExclusiveAll_spec (nvs : List Voice) :
    ∀ old old' : List Voice, releaseExclusiveAll nvs old = some old' →
      ∀ (i : Nat) (v : Voice) (z : Instrument.Zone), old[i]? = some v → v.zone = some z →
        ∃ v' : Voice, old'[i]? = some v' ∧
        v'.zone = v.zone ∧ v'.key = v.key ∧
        (v.Extinguished → v'.Extinguished) ∧
        ((∃ nv ∈ nvs, ∃ nz, nv.zone = some nz ∧ nz.exclusive_class ≠ 0 ∧
            z.exclusive_class = nz.exclusive_class) → v'.Extinguished) ∧
        ((∀ nv ∈ nvs, ∀ nz, nv.zone = some nz → nz.exclusive_class ≠ 0 →
            z.exclusive_class ≠ nz.exclusive_class) → v' = v) := by
  induction nvs with
  | nil =>
    intro old old' h i v z hv _
    simp only [releaseExclusiveAll] at h
    cases h
    exact ⟨v, hv, rfl, rfl, id, by simp, fun _ => rfl⟩
  | cons nv rest ih =>
    intro old old' h i v z hv hz
    unfold releaseExclusiveAll at h
    split at h
    · exact absurd h (by simp)
    next zone hnz =>
      split at h
      next hcls =>
        split at h
        · exact absurd h (by simp)
        next old1 h1 =>
          obtain ⟨v1, z1, g1, gz, gzone, gkey, gext, gyes, gno⟩ :=
            releaseExclusive_spec zone.exclusive_class old old1 h1 i v hv
          have hzz : z1 = z := by rw [hz] at gz; exact (Option.some.inj gz).symm
          subst hzz
          obtain ⟨v', k1, kzone, kkey, kext, kyes, kno⟩ :=
            ih old1 old' h i v1 z1 g1 (gzone.trans hz)
          refine ⟨v', k1, kzone.trans gzone, kkey.trans gkey, fun he => kext (gext he), ?_, ?_⟩
          · rintro ⟨nv', hmem, nz, hnz', hne, heq⟩
            rcases List.mem_cons.mp hmem with hm | hm
            · subst hm
              rw [hnz] at hnz'
              cases hnz'
              exact kext (gyes heq)
            · exact kyes ⟨nv', hm, nz, hnz', hne, heq⟩
          · intro hall
            have hv1 : v1 = v := gno (hall nv (List.mem_cons_self _ _) zone hnz hcls)
            have := kno (fun nv' hm nz hnz' hne => hall nv' (List.mem_cons_of_mem _ hm) nz hnz' hne)
            rw [this, hv1]
      next hcls =>
        obtain ⟨v', k1, kzone, kkey, kext, kyes, kno⟩ := ih old old' h i v z hv hz
        refine ⟨v', k1, kzone, kkey, kext, ?_, ?_⟩
        · rintro ⟨nv', hmem, nz, hnz', hne, heq⟩
          rcases List.mem_cons.mp hmem with hm | hm
          · subst hm
            rw [hnz] at hnz'
            cases hnz'
            exact absurd (not_not.mp hcls) hne
          · exact kyes ⟨nv', hm, nz, hnz', hne, heq⟩
        · intro hall
          exact kno (fun nv' hm nz hnz' hne => hall nv' (List.mem_cons_of_mem _ hm) nz hnz' hne)

/-- The inner exclusive-class loop keeps the number of voices. -/
theorem releaseExclusive_length (cls : Nat) (old : List Voice) :
    ∀ old' : List Voice, releaseExclusive cls old = some old' → old'.length = old.length := by
  induction old with
  | nil => intro old' h; simp only [releaseExclusive] at h; cases h; rfl
  | cons w rest ih =>
    intro old' h
    cases hz : w.zone with
    | none => simp [releaseExclusive, hz] at h
    | some zone =>
      cases hr : releaseExclusive cls rest with
      | none => simp [releaseExclusive, hz, hr] at h
      | some rest1 =>
        simp only [releaseExclusive, hz, hr, Option.some.injEq] at h
        subst h
        simp [ih rest1 hr]

/-- The exclusive-class loops keep the number of earlier voices. -/
theorem releaseExclusiveAll_length (nvs : List Voice) :
    ∀ old old' : List Voice, releaseExclusiveAll nvs old = some old' →
      old'.length = old.length := by
  induction nvs with
  | nil => intro old old' h; simp only [releaseExclusiveAll] at h; cases h; rfl
  | cons nv rest ih =>
    intro old old' h
    unfold releaseExclusiveAll at h
    split at h
    · exact absurd h (by simp)
    · split at h
      · split at h
        · exact absurd h (by simp)
        next old1 h1 => rw [ih old1 old' h, releaseExclusive_length _ _ _ h1]
      · exact ih old old' h

/-- The result of `NoteOn` in terms of the voices `GenerateVoices` appended. -/
theorem NoteOn_elems (ch ch' : Channel) (fuel key velocity : Nat) (sample_rate : ℝ)
    (hpool : ch.voices.resize_len ≠ SIZE_MAX)
    (h : ch.NoteOn fuel key velocity sample_rate = some ch') :
    ∃ new old' : List Voice, releaseExclusiveAll new ch.voices.elems = some old' ∧
      ch'.voices.elems = old' ++ new ∧ old'.length = ch.voices.size := by
  unfold Channel.NoteOn at h
  split at h
  next preset sf hp hs =>
    split at h
    · dsimp only at h
      split at h
      · exact absurd h (by simp)
      next c hc =>
        obtain ⟨new, hel, _⟩ := layersLoop_append sf sample_rate fuel key velocity preset.layers
          ch.voices c hpool hc
        have htake : c.elems.take ch.voices.size = ch.voices.elems := by
          rw [hel]; simp [DynamicPool.size]
        have hdrop : c.elems.drop ch.voices.size = new := by
          rw [hel]; simp [DynamicPool.size]
        rw [htake, hdrop] at h
        split at h
        · exact absurd h (by simp)
        next old' ho =>
          cases h
          exact ⟨new, old', ho, rfl, releaseExclusiveAll_length _ _ _ ho⟩
    · exact absurd h (by simp)
  next =>
    cases h
    exact ⟨[], ch.voices.elems, rfl, by simp, rfl⟩

/-- C8, amended. When `NoteOn` returns, every voice that was in the pool before the call
and whose split has the same non-zero exclusive class as the split of a voice created by
the call has its hold flag cleared, its volume-envelope time reset and its volume-envelope
release time set to 1 ms, and keeps its key and split. `NoteOn` itself does not put the
envelope into the Release phase. -/
theorem NoteOn_exclusive_class (ch ch' : Channel) (fuel key velocity : Nat) (sample_rate : ℝ)
    (hpool : ch.voices.resize_len ≠ SIZE_MAX)
    (h : ch.NoteOn fuel key velocity sample_rate = some ch')
    (i : Nat) (v : Voice) (z : Instrument.Zone)
    (hv : ch.voices.elems[i]? = some v) (hz : v.zone = some z)
    (nv : Voice) (nz : Instrument.Zone)
    (hnv : nv ∈ ch'.voices.elems.drop ch.voices.size) (hnz : nv.zone = some nz)
    (hcls : nz.exclusive_class ≠ 0) (heq : z.exclusive_class = nz.exclusive_class) :
    ∃ v' : Voice, ch'.voices.elems[i]? = some v' ∧ v'.hold = false ∧
      v'.volenv.release = 1 / 1000 ∧ v'.volenv.time = 0 ∧ v'.key = v.key ∧
      v'.zone = v.zone := by
  obtain ⟨new, old', hr, hel, hlen⟩ := NoteOn_elems ch ch' fuel key velocity sample_rate hpool h
  have hdrop : ch'.voices.elems.drop ch.voices.size = new := by
    rw [hel, ← hlen]; simp
  rw [hdrop] at hnv
  obtain ⟨v', h1, hzone, hkey, _, hyes, _⟩ :=
    releaseExclusiveAll_spec new ch.voices.elems old' hr i v z hv hz
  obtain ⟨e1, e2, e3⟩ := hyes ⟨nv, hnv, nz, hnz, hcls, heq⟩
  have hi : i < old'.length := by
    rcases List.getElem?_eq_some_iff.mp h1 with ⟨hi, _⟩
    exact hi
  refine ⟨v', ?_, e1, e2, e3, hkey, hzone⟩
  rw [hel, List.getElem?_append_left hi]
  exact h1

/-- The call `NoteOn` on a channel whose preset has only mono samples: it returns, and the pool
holds the earlier voices after the exclusive-class loops, followed by the new voices. -/
theorem NoteOn_mono (ch : Channel) (preset : Preset) (sf : SoundFont2)
    (fuel key velocity : Nat) (sample_rate : ℝ) (old' : List Voice)
    (hp : ch.preset = some preset) (hs : ch.sf = some sf) (hk : key < ch.key_states.length)
    (hf : 0 < fuel) (hm : AllLayersMono sf preset.layers) (hg : ch.voices.Growable)
    (hr : releaseExclusiveAll
      ((specPairs sf preset key velocity).map (monoVoice sf sample_rate key velocity))
      ch.voices.elems = some old') :
    ∃ ch' : Channel, ch.NoteOn fuel key velocity sample_rate = some ch' ∧
      ch'.voices.elems =
        old' ++ (specPairs sf preset key velocity).map (monoVoice sf sample_rate key velocity) ∧
      ch'.voices.Growable ∧ ch'.preset = some preset ∧ ch'.sf = some sf ∧
      ch'.key_states.length = ch.key_states.length := by
  obtain ⟨c, hc, hel, hcg⟩ := layersLoop_mono sf sample_rate fuel key velocity hf preset.layers
    ch.voices hm hg
  have htake : c.elems.take ch.voices.size = ch.voices.elems := by
    rw [hel]; simp [DynamicPool.size, specPairs]
  have hdrop : c.elems.drop ch.voices.size =
      (specPairs sf preset key velocity).map (monoVoice sf sample_rate key velocity) := by
    rw [hel]; simp [DynamicPool.size, specPairs]
  refine ⟨{ ch with key_states := ch.key_states.set key true,
                     voices := { c with elems := old' ++ c.elems.drop ch.voices.size } },
    ?_, ?_, ?_, hp, hs, ?_⟩
  · unfold Channel.NoteOn
    simp only [hp, hs, hk, if_true, GenerateVoices, hc, htake]
    rw [hdrop, hr]
  · simp only [hdrop]
  · obtain ⟨g1, g2, g3⟩ := hcg
    refine ⟨g1, g2, ?_⟩
    have hl := releaseExclusiveAll_length _ _ _ hr
    have hcl : ch.voices.elems.length ≤ c.elems.length := by rw [hel]; simp
    simp only [DynamicPool.size, List.length_append, List.length_drop] at g3 ⊢
    omega
  · simp

/-- The field `zone` that `setupVoice` assigns. -/
theorem setupVoice_zone (sample_rate : ℝ) (layer : Preset.Zone) (split : Instrument.Zone)
    (key tmp_key tmp_vel sampleIdx : Nat) (sample : Sample) (pan : ℝ) (voice : Voice) :
    (setupVoice sample_rate layer split key tmp_key tmp_vel sampleIdx sample pan voice).zone
      = some split := rfl

/-- A voice just built from `plainLayer` and `exclusiveSplit` is still in the Delay phase
after the statements under `//extinguish fast`: its delay time is 1 ms and its envelope time
is 0. -/
theorem extinguish_fresh_phase (sample_rate : ℝ) (key tmp_key tmp_vel sampleIdx : Nat)
    (sample : Sample) (pan : ℝ) (voice : Voice) :
    (extinguish (setupVoice sample_rate plainLayer exclusiveSplit key tmp_key tmp_vel sampleIdx
      sample pan voice)).volenv.phase = EnvPhase.Delay := by
  have hd : ¬ ((0 : ℝ) + 0 ≥ timecents_to_seconds (((wrap16 (0 + -12000) : Int) : ℝ))) := by
    have : wrap16 (0 + -12000) = -12000 := by decide
    rw [this]
    simp only [timecents_to_seconds]
    norm_num
  simp only [extinguish, Voice.Release, setupVoice, Env.Get, Env.ofEnvelopes, Envelope.add,
    plainLayer, exclusiveSplit, newSplit, Envelope.SetToDefault]
  rw [if_neg hd]

/-- The first note on `exclusiveChannel`. -/
theorem exclusive_noteOn_first :
    exclusiveChannel.NoteOn 1 60 100 44100 = some exclusiveChannel1 := by
  have hrom : Nat.land SFSampleLink.monoSample 65520 = 0 := by decide
  simp [hrom, Channel.NoteOn, exclusiveChannel, exclusiveChannel1, GenerateVoices, layersLoop,
    layerVoices, plainPreset, plainLayer, outOfRange, exclusiveBank, splitsLoop, splitVoices,
    exclusiveSplit, newSplit, sample44k, IsSampleROM, createVoices, DynamicPool.emplace_back,
    DynamicPool.size, DynamicPool.modifyBack, samplePan, tmpKey, tmpVel, releaseExclusiveAll,
    releaseExclusive, setupVoice_zone, exclusiveVoice]

/-- The second note on `exclusiveChannel`, which cuts the voice of the first. -/
theorem exclusive_noteOn_second :
    exclusiveChannel1.NoteOn 1 62 100 44100 = some exclusiveChannel2 := by
  have hrom : Nat.land SFSampleLink.monoSample 65520 = 0 := by decide
  simp [hrom, Channel.NoteOn, exclusiveChannel, exclusiveChannel1, exclusiveChannel2,
    GenerateVoices, layersLoop,
    layerVoices, plainPreset, plainLayer, outOfRange, exclusiveBank, splitsLoop, splitVoices,
    exclusiveSplit, newSplit, sample44k, IsSampleROM, createVoices, DynamicPool.emplace_back,
    DynamicPool.size, DynamicPool.modifyBack, samplePan, tmpKey, tmpVel, releaseExclusiveAll,
    releaseExclusive, setupVoice_zone, exclusiveVoice]

/-- C8 as stated fails. On `exclusiveChannel`, whose only split has exclusive class 5,
`NoteOn(60)` creates one voice and the following `NoteOn(62)` a second one of the same
class. When the second call has returned, the first voice (key 60) has `hold = false` but
its volume envelope is still in the Delay phase, not in Release. -/
theorem exclusive_voice_not_in_release_phase :
    exclusiveChannel.NoteOn 1 60 100 44100 = some exclusiveChannel1 ∧
    exclusiveChannel1.NoteOn 1 62 100 44100 = some exclusiveChannel2 ∧
    exclusiveChannel1.voices.elems.map
        (fun v => (v.key, v.zone.map (fun z => z.exclusive_class)))
      = [(60, some 5)] ∧
    exclusiveChannel2.voices.elems.map
        (fun v => (v.key, v.zone.map (fun z => z.exclusive_class), v.hold, v.volenv.phase))
      = [(60, some 5, false, EnvPhase.Delay), (62, some 5, true, EnvPhase.Delay)] := by
  refine ⟨exclusive_noteOn_first, exclusive_noteOn_second, ?_, ?_⟩
  · simp [exclusiveChannel1, exclusiveVoice, setupVoice, exclusiveSplit]
  · have h := extinguish_fresh_phase 44100 60 60 100 0 sample44k 0 {}
    simp only [exclusiveChannel2, List.map_cons, List.map_nil, exclusiveVoice, h]
    simp [extinguish, Voice.Release, setupVoice, exclusiveSplit, Env.ofEnvelopes]

/-- C8, amended, on `exclusiveChannel1` and `NoteOn(62)`: the voice of key 60 at index 0 is
cut by the new voice of key 62. -/
theorem NoteOn_exclusive_class_witness :
    exclusiveChannel1.NoteOn 1 62 100 44100 = some exclusiveChannel2 ∧
    ∃ v' : Voice, exclusiveChannel2.voices.elems[0]? = some v' ∧ v'.hold = false ∧
      v'.volenv.release = 1 / 1000 ∧ v'.volenv.time = 0 ∧ v'.key = (exclusiveVoice 60).key ∧
      v'.zone = (exclusiveVoice 60).zone :=
  ⟨exclusive_noteOn_second,
   NoteOn_exclusive_class exclusiveChannel1 exclusiveChannel2 1 62 100 44100 (by decide)
    exclusive_noteOn_second 0 (exclusiveVoice 60) exclusiveSplit rfl rfl
    (exclusiveVoice 62) exclusiveSplit
    (by simp [exclusiveChannel1, exclusiveChannel2, DynamicPool.size]) rfl (by decide) rfl⟩

/-- Releasing a voice twice is releasing it once. -/
theorem Release_Release (v : Voice) : v.Release.Release = v.Release := rfl

/-- Releasing a voice keeps its key. -/
theorem Release_key (v : Voice) : v.Release.key = v.key := rfl

/-- The loops of `SetSustain` over a list of keys release exactly the voices whose key is
in the list and has the key state `false`. -/
theorem releaseUpKeys_eq (key_states : List Bool) (keys : List Nat) :
    ∀ voices : List Voice, releaseUpKeys key_states keys voices =
      voices.map (fun v =>
        if v.key ∈ keys ∧ key_states[v.key]? = some false then v.Release else v) := by
  induction keys with
  | nil => intro voices; simp [releaseUpKeys]
  | cons key rest ih =>
    intro voices
    unfold releaseUpKeys
    split
    next hk =>
      rw [ih, List.map_map]
      apply List.map_congr_left
      intro v _
      simp only [Function.comp]
      by_cases h1 : v.key = key
      · subst h1
        simp [hk, Release_Release]
      · simp [h1, Release_key]
    next hk =>
      rw [ih]
      apply List.map_congr_left
      intro v _
      by_cases h1 : v.key = key
      · subst h1
        simp [hk]
      · simp [h1]

/-- C9. On a channel with the sustain flag set, `NoteOff(k)` for a key `k` inside
`key_states` returns a channel that differs only in the key state of `k`, which is
`false`: the voice pool, and with it every voice's hold flag and envelope state (also of
the voices of key `k`), is unchanged, and so are the other key states, the preset, the bank
model and the sustain flag. -/
theorem NoteOff_sustained (ch : Channel) (k : Nat) (hs : ch.sustain = true)
    (hk : k < ch.key_states.length) :
    ∃ ch' : Channel, ch.NoteOff k = some ch' ∧ ch'.voices = ch.voices ∧
      ch'.key_states[k]? = some false ∧
      (∀ j : Nat, j ≠ k → ch'.key_states[j]? = ch.key_states[j]?) ∧
      ch'.sustain = ch.sustain ∧ ch'.preset = ch.preset ∧ ch'.sf = ch.sf := by
  refine ⟨{ ch with key_states := ch.key_states.set k false }, ?_, rfl, ?_, ?_, rfl, rfl, rfl⟩
  · simp [Channel.NoteOff, hk, hs]
  · simp [hk]
  · intro j hj
    simp [List.getElem?_set, Ne.symm hj]

/-- C9, on `exclusiveChannel2` with the sustain pedal down and key 60. -/
theorem NoteOff_sustained_witness :
    ∃ ch' : Channel, ({ exclusiveChannel2 with sustain := true } : Channel).NoteOff 60 = some ch' ∧
      ch'.voices = exclusiveChannel2.voices ∧
      ch'.key_states[60]? = some false ∧
      (∀ j : Nat, j ≠ 60 → ch'.key_states[j]? = exclusiveChannel2.key_states[j]?) ∧
      ch'.sustain = true ∧ ch'.preset = exclusiveChannel2.preset ∧
      ch'.sf = exclusiveChannel2.sf :=
  NoteOff_sustained { exclusiveChannel2 with sustain := true } 60 rfl
    (by simp [exclusiveChannel2, exclusiveChannel1, exclusiveChannel])

/-- C10. `SetSustain(false)` clears the sustain flag, keeps the key states, and maps the
voices of the pool one by one: a voice whose key has the key state `false` is released
(only its hold flag changes, to `false`), every other voice is left as it is. -/
theorem SetSustain_false_releases (ch : Channel) :
    (ch.SetSustain false).sustain = false ∧
    (ch.SetSustain false).key_states = ch.key_states ∧
    (ch.SetSustain false).voices.elems = ch.voices.elems.map (fun v =>
      if ch.key_states[v.key]? = some false then { v with hold := false } else v) := by
  refine ⟨rfl, rfl, ?_⟩
  simp only [Channel.SetSustain, Bool.not_false, if_true]
  rw [releaseUpKeys_eq]
  apply List.map_congr_left
  intro v _
  by_cases h : ch.key_states[v.key]? = some false
  · have hlt : v.key < ch.key_states.length := by
      rcases List.getElem?_eq_some_iff.mp h with ⟨hlt, _⟩
      exact hlt
    simp [h, hlt, Voice.Release]
  · simp [h]

/-! ## Theorems: end of a voice -/

/-- C12 as stated fails. The voice `heldVoiceAtEnd` has its position at the end of its
sample, so the claim makes it done, but `IsDone` is false because the hold flag is set. -/
theorem held_voice_at_end_is_not_done :
    fourFrameBank.samples[0]?.map (fun s => s.size) = some 4 ∧
    heldVoiceAtEnd.sample_pos = 4 ∧ heldVoiceAtEnd.hold = true ∧
    heldVoiceAtEnd.IsDone fourFrameBank = some false := by
  refine ⟨by decide, rfl, rfl, ?_⟩
  simp [Voice.IsDone, heldVoiceAtEnd, fourFrameBank]

/-- C12, amended. For a voice whose sample is `sample`, `IsDone` is true if and only if
its position has passed the end of the sample while the hold flag is false, or its volume
envelope has reached the End phase. -/
theorem IsDone_iff (sf : SoundFont2) (v : Voice) (i : Nat) (sample : Sample)
    (hi : v.sample = some i) (hs : sf.samples[i]? = some sample) :
    ∃ done, v.IsDone sf = some done ∧
      (done = true ↔ (v.sample_pos ≥ (sample.size : ℝ) ∧ v.hold = false) ∨
        v.volenv.phase = EnvPhase.End) := by
  refine ⟨(decide (v.sample_pos ≥ (sample.size : ℝ)) && !v.hold) ||
    decide (v.volenv.phase = EnvPhase.End), by simp only [Voice.IsDone, hi, hs], ?_⟩
  simp

/-- C12, amended, at `heldVoiceAtEnd` once it is released: the voice is done. -/
theorem IsDone_iff_witness :
    ∃ done, ({ heldVoiceAtEnd with hold := false } : Voice).IsDone fourFrameBank = some done ∧
      (done = true ↔
        ((({ heldVoiceAtEnd with hold := false } : Voice).sample_pos ≥ ((4 : Nat) : ℝ) ∧
          ({ heldVoiceAtEnd with hold := false } : Voice).hold = false) ∨
        ({ heldVoiceAtEnd with hold := false } : Voice).volenv.phase = EnvPhase.End)) :=
  IsDone_iff fourFrameBank { heldVoiceAtEnd with hold := false } 0
    { sample_rate := 44100, original_key := 60, size := 4, data := some [1, 1, 1, 1] } rfl rfl

/-! ## Theorems: envelopes -/

/-- One call of `Get` keeps the phase or takes one step of `phaseSteps`. -/
theorem Get_phase_step (is_decibels : Bool) (e : Env) (dt : ℝ) :
    (e.Get is_decibels dt).2.phase = e.phase ∨
      (e.phase, (e.Get is_decibels dt).2.phase) ∈ phaseSteps := by
  unfold Env.Get
  cases hp : e.phase <;> simp only [phaseSteps] <;> (try split_ifs) <;> simp [hp]

/-- After a step of `phaseSteps` the chain of the new phase is the tail of the chain of
the old phase. -/
theorem phaseChain_step (p q : EnvPhase) (h : (p, q) ∈ phaseSteps) :
    phaseChain p = p :: phaseChain q := by
  simp only [phaseSteps, List.mem_cons, Prod.mk.injEq, List.mem_singleton, List.not_mem_nil,
    or_false] at h
  rcases h with ⟨rfl, rfl⟩ | ⟨rfl, rfl⟩ | ⟨rfl, rfl⟩ | ⟨rfl, rfl⟩ | ⟨rfl, rfl⟩ <;> rfl

/-- A step of `phaseSteps` changes the phase. -/
theorem phaseSteps_ne (p q : EnvPhase) (h : (p, q) ∈ phaseSteps) : p ≠ q := by
  simp only [phaseSteps, List.mem_cons, Prod.mk.injEq, List.mem_singleton, List.not_mem_nil,
    or_false] at h
  rcases h with ⟨rfl, rfl⟩ | ⟨rfl, rfl⟩ | ⟨rfl, rfl⟩ | ⟨rfl, rfl⟩ | ⟨rfl, rfl⟩ <;> decide

/-- The phase trace starts with the phase of the envelope. -/
theorem phaseTrace_eq_cons (is_decibels : Bool) (e : Env) (dts : List ℝ) :
    ∃ rest, Env.phaseTrace is_decibels e dts = e.phase :: rest := by
  cases dts with
  | nil => exact ⟨[], rfl⟩
  | cons dt dts => exact ⟨_, rfl⟩

/-- The phase trace without repetitions is a prefix of the chain of the first phase. -/
theorem phaseTrace_prefix (is_decibels : Bool) (dts : List ℝ) :
    ∀ e : Env, ((Env.phaseTrace is_decibels e dts).destutter (fun a b => a ≠ b)) <+:
      phaseChain e.phase := by
  induction dts with
  | nil =>
    intro e
    cases hp : e.phase <;> simp [Env.phaseTrace, phaseChain, hp, List.destutter]
  | cons dt dts ih =>
    intro e
    obtain ⟨rest, hrest⟩ := phaseTrace_eq_cons is_decibels (e.Get is_decibels dt).2 dts
    have ih1 := ih (e.Get is_decibels dt).2
    rw [hrest] at ih1
    simp only [Env.phaseTrace, hrest, List.destutter] at ih1 ⊢
    rcases Get_phase_step is_decibels e dt with h | h
    · rw [h] at ih1 ⊢
      simpa [List.destutter'] using ih1
    · have hne := phaseSteps_ne _ _ h
      rw [phaseChain_step _ _ h]
      rw [List.destutter'_cons_pos _ hne]
      exact (List.prefix_cons_inj _).2 ih1

/-- C15. For both kinds of envelope, every state and every time step, one call of `Get`
keeps the phase or moves it one step along Delay → Attack → Hold → Decay → Sustain or
Release → End, so the phase never moves backward; `Get` keeps an envelope in Sustain there;
and over any sequence of `Get` calls the phases visited, repetitions dropped, are a prefix
of the chain of the first phase, which for Delay is Delay → Attack → Hold → Decay →
Sustain. -/
theorem Get_phase_order (is_decibels : Bool) (e : Env) (dt : ℝ) (dts : List ℝ) :
    ((e.Get is_decibels dt).2.phase = e.phase ∨
      (e.phase, (e.Get is_decibels dt).2.phase) ∈ phaseSteps) ∧
    e.phase.toInt ≤ (e.Get is_decibels dt).2.phase.toInt ∧
    (e.Get is_decibels dt).2.phase.toInt ≤ e.phase.toInt + 1 ∧
    (({ e with phase := EnvPhase.Sustain } : Env).Get is_decibels dt).2.phase =
      EnvPhase.Sustain ∧
    ((Env.phaseTrace is_decibels e dts).destutter (fun a b => a ≠ b)) <+:
      phaseChain e.phase ∧
    ((Env.phaseTrace is_decibels { e with phase := EnvPhase.Delay } dts).destutter
        (fun a b => a ≠ b)) <+:
      [EnvPhase.Delay, EnvPhase.Attack, EnvPhase.Hold, EnvPhase.Decay, EnvPhase.Sustain] := by
  have hstep := Get_phase_step is_decibels e dt
  refine ⟨hstep, ?_, ?_, ?_, phaseTrace_prefix is_decibels dts e,
    phaseTrace_prefix is_decibels dts { e with phase := EnvPhase.Delay }⟩
  · rcases hstep with h | h
    · rw [h]
    · simp only [phaseSteps, List.mem_cons, Prod.mk.injEq, List.mem_singleton,
        List.not_mem_nil, or_false] at h
      rcases h with ⟨h1, h2⟩ | ⟨h1, h2⟩ | ⟨h1, h2⟩ | ⟨h1, h2⟩ | ⟨h1, h2⟩ <;>
        rw [h1, h2] <;> decide
  · rcases hstep with h | h
    · rw [h]; omega
    · simp only [phaseSteps, List.mem_cons, Prod.mk.injEq, List.mem_singleton,
        List.not_mem_nil, or_false] at h
      rcases h with ⟨h1, h2⟩ | ⟨h1, h2⟩ | ⟨h1, h2⟩ | ⟨h1, h2⟩ | ⟨h1, h2⟩ <;>
        rw [h1, h2] <;> decide
  · simp [Env.Get]

/-- The function `timecents_to_seconds` is positive. -/
theorem timecents_to_seconds_pos (t : ℝ) : 0 < timecents_to_seconds t := by
  unfold timecents_to_seconds
  split_ifs
  · norm_num
  · exact Real.rpow_pos_of_pos (by norm_num) _

/-- The function `gain_to_decibels` is at most 0 below gain 1. -/
theorem gain_to_decibels_nonpos (g : ℝ) (h : g ≤ 1) : gain_to_decibels g ≤ 0 := by
  unfold gain_to_decibels
  split_ifs with h1
  · norm_num
  · push_neg at h1
    have hg : 0 < g := lt_trans (by norm_num) h1
    have : Real.logb 10 g ≤ 0 := Real.logb_nonpos (by norm_num) hg.le h
    linarith

/-- The envelope the constructor builds is bounded when the summed sustain is not
negative. -/
theorem ofEnvelopes_bounded (env env2 : Envelope) (key : Nat)
    (hs : 0 ≤ (env.add env2).sustain) : (Env.ofEnvelopes true env env2 key).Bounded := by
  have hs1 : (0 : ℝ) ≤ ((env.add env2).sustain : ℝ) := by exact_mod_cast hs
  refine ⟨?_, ?_, ?_, ?_, ?_, ?_, ?_, ?_, ?_, ?_, ?_, ?_⟩ <;>
    simp only [Env.ofEnvelopes, if_true]
  · norm_num
  · norm_num
  · positivity
  · exact timecents_to_seconds_pos _
  · exact timecents_to_seconds_pos _
  · exact mul_pos (timecents_to_seconds_pos _) (timecents_to_seconds_pos _)
  · exact mul_pos (timecents_to_seconds_pos _) (timecents_to_seconds_pos _)
  · exact timecents_to_seconds_pos _
  · intro _; exact timecents_to_seconds_pos _
  · intro h; exact absurd h (by decide)
  · intro h; exact absurd h (by decide)
  · intro h; exact absurd h (by decide)

/-- The call `Release()` keeps an envelope bounded. -/
theorem Release_bounded (e : Env) (h : e.Bounded) : e.Release.Bounded := by
  obtain ⟨h1, h2, h3, h4, h5, h6, h7, h8, _, _, _, _⟩ := h
  refine ⟨h1, le_refl _, h3, h4, h5, h6, h7, h8, ?_, ?_, ?_, ?_⟩
  all_goals
    intro h
    first
      | exact EnvPhase.noConfusion h
      | exact ⟨h8, rfl⟩

/-- One call of `Get` with a time step between 0 and the attack time returns at most 0 dB
on a bounded envelope and keeps it bounded. -/
theorem Get_bounded (e : Env) (dt : ℝ) (h : e.Bounded) (hdt : 0 < dt) (hat : dt ≤ e.attack) :
    (e.Get true dt).1 ≤ 0 ∧ (e.Get true dt).2.Bounded := by
  obtain ⟨h1, h2, h3, h4, h5, h6, h7, h8, h9, h10, h11, h12⟩ := h
  unfold Env.Get
  cases hp : e.phase
  · -- Delay
    have ht := h9 hp
    simp only [if_true]
    refine ⟨by norm_num, ?_⟩
    split_ifs with hc
    · refine ⟨h1, by simp only; linarith, h3, h4, h5, h6, h7, h8, ?_, ?_, ?_, ?_⟩
      all_goals
        intro h
        first
          | exact EnvPhase.noConfusion h
          | exact ⟨by simp only; linarith, rfl⟩
    · push_neg at hc
      refine ⟨h1, by simp only; linarith, h3, h4, h5, h6, h7, h8, ?_, ?_, ?_, ?_⟩
      all_goals
        intro h
        first
          | exact EnvPhase.noConfusion h
          | exact hc
  · -- Attack
    obtain ⟨ht, hsl⟩ := h10 hp
    simp only [if_true]
    have hv : gain_to_decibels (e.time * e.slope_factor) ≤ 0 := by
      apply gain_to_decibels_nonpos
      rw [hsl, mul_one_div, div_le_one h5]
      exact ht.le
    refine ⟨hv, ?_⟩
    split_ifs with hc
    · refine ⟨hv, by simp only; linarith, h3, h4, h5, h6, h7, h8, ?_, ?_, ?_, ?_⟩
      all_goals
        intro h
        exact EnvPhase.noConfusion h
    · push_neg at hc
      refine ⟨hv, by simp only; linarith, h3, h4, h5, h6, h7, h8, ?_, ?_, ?_, ?_⟩
      all_goals
        intro h
        first
          | exact EnvPhase.noConfusion h
          | exact ⟨hc, hsl⟩
  · -- Hold
    simp only [if_true]
    refine ⟨le_refl _, ?_⟩
    split_ifs with hc
    · refine ⟨le_refl _, by simp only; linarith, h3, h4, h5, h6, h7, h8, ?_, ?_, ?_, ?_⟩
      all_goals
        intro h
        first
          | exact EnvPhase.noConfusion h
          | rfl
    · push_neg at hc
      refine ⟨le_refl _, by simp only; linarith, h3, h4, h5, h6, h7, h8, ?_, ?_, ?_, ?_⟩
      all_goals
        intro h
        exact EnvPhase.noConfusion h
  · -- Decay
    have hsl := h11 hp
    simp only [if_true]
    have hv : -e.sustain * e.time * e.slope_factor ≤ 0 := by
      rw [hsl]
      have : 0 ≤ e.sustain * e.time * (1 / e.decay) := by positivity
      linarith
    refine ⟨hv, ?_⟩
    split_ifs with hc
    · refine ⟨hv, by simp only; linarith, h3, h4, h5, h6, h7, h8, ?_, ?_, ?_, ?_⟩
      all_goals
        intro h
        exact EnvPhase.noConfusion h
    · push_neg at hc
      refine ⟨hv, by simp only; linarith, h3, h4, h5, h6, h7, h8, ?_, ?_, ?_, ?_⟩
      all_goals
        intro h
        first
          | exact EnvPhase.noConfusion h
          | exact hsl
  · -- Sustain
    simp only [if_true]
    refine ⟨by linarith, h1, h2, h3, h4, h5, h6, h7, h8, h9, h10, h11, h12⟩
  · -- Release
    obtain ⟨ht, hsl⟩ := h12 hp
    simp only [if_true]
    have hv : e.value + e.time * e.slope_factor * (-96 - e.value) ≤ 0 := by
      rw [hsl, mul_one_div]
      have hq0 : 0 ≤ e.time / e.release := div_nonneg h2 h8.le
      have hq1 : e.time / e.release ≤ 1 := (div_le_one h8).2 ht.le
      nlinarith
    refine ⟨hv, ?_⟩
    split_ifs with hc
    · refine ⟨h1, by simp only; linarith, h3, h4, h5, h6, h7, h8, ?_, ?_, ?_, ?_⟩
      all_goals
        intro h
        exact EnvPhase.noConfusion h
    · push_neg at hc
      refine ⟨h1, by simp only; linarith, h3, h4, h5, h6, h7, h8, ?_, ?_, ?_, ?_⟩
      all_goals
        intro h
        first
          | exact EnvPhase.noConfusion h
          | exact ⟨hc, hsl⟩
  · -- End
    simp only [if_true]
    refine ⟨by norm_num, h1, h2, h3, h4, h5, h6, h7, h8, h9, h10, h11, h12⟩

/-- The calls `Get` and `Release` keep the attack time. -/
theorem Get_attack (b : Bool) (e : Env) (dt : ℝ) : (e.Get b dt).2.attack = e.attack := by
  unfold Env.Get
  cases e.phase <;> simp only <;> (try split_ifs) <;> rfl

/-- Every value a bounded envelope returns over a sequence of calls whose time steps lie
between 0 and the attack time is at most 0 dB. -/
theorem run_bounded (calls : List EnvCall) :
    ∀ e : Env, e.Bounded → (∀ dt, EnvCall.get dt ∈ calls → 0 < dt ∧ dt ≤ e.attack) →
      ∀ x ∈ Env.run true e calls, x ≤ 0 := by
  induction calls with
  | nil => intro e _ _ x hx; simp [Env.run] at hx
  | cons c calls ih =>
    intro e hb hdt x hx
    cases c with
    | get dt =>
      obtain ⟨h0, h1⟩ := hdt dt (List.mem_cons_self _ _)
      obtain ⟨hv, hb1⟩ := Get_bounded e dt hb h0 h1
      simp only [Env.run, List.mem_cons] at hx
      rcases hx with rfl | hx
      · exact hv
      · refine ih _ hb1 (fun d hd => ?_) x hx
        rw [Get_attack]
        exact hdt d (List.mem_cons_of_mem _ hd)
    | release =>
      simp only [Env.run] at hx
      exact ih _ (Release_bounded e hb) (fun d hd => hdt d (List.mem_cons_of_mem _ hd)) x hx

/-- C16 as stated fails in two ways. With the time step 1 s on the envelope of the default
generators (delay and attack 1 ms) the second `Get` returns `gain_to_decibels 999`, about
60 dB. With the sustain generator `-100` and the time step 1 ms the fifth `Get` is in the
Sustain phase and returns 10 dB. -/
theorem decibel_envelope_above_zero :
    0 < (1 : ℝ) ∧
    Env.run true (Env.ofEnvelopes true ({} : Envelope).SetToDefault {} 60)
      [EnvCall.get 1, EnvCall.get 1] = [-96, gain_to_decibels 999] ∧
    0 < gain_to_decibels 999 ∧
    Env.run true (Env.ofEnvelopes true negativeSustain {} 60)
      [EnvCall.get (1 / 1000), EnvCall.get (1 / 1000), EnvCall.get (1 / 1000),
       EnvCall.get (1 / 1000), EnvCall.get (1 / 1000)] = [-96, -100, 0, 0, 10] := by
  have hw : wrap16 (-12000 + 0) = -12000 := by decide
  have hw0 : wrap16 (0 + 0) = 0 := by decide
  have hw1 : wrap16 (-100 + 0) = -100 := by decide
  have ht : timecents_to_seconds ((-12000 : Int) : ℝ) = 1 / 1000 := by
    simp [timecents_to_seconds]
  have ht0 : timecents_to_seconds (((0 : Int) * (60 - ((60 : Nat) : Int)) : Int) : ℝ) = 1 := by
    simp [timecents_to_seconds]
  refine ⟨by norm_num, ?_, ?_, ?_⟩
  · simp only [Env.run, Env.ofEnvelopes, Envelope.add, Envelope.SetToDefault, hw, hw0, ht, ht0,
      Env.Get, if_true]
    norm_num
  · unfold gain_to_decibels
    rw [if_neg (by norm_num)]
    have : 0 < Real.logb 10 999 := Real.logb_pos (by norm_num) (by norm_num)
    linarith
  · simp only [Env.run, Env.ofEnvelopes, Envelope.add, Envelope.SetToDefault, negativeSustain,
      hw, hw0, hw1, ht, ht0, Env.Get, if_true]
    norm_num [gain_to_decibels]

/-- C16, amended. For the decibel envelope the constructor builds from two descriptors
whose summed sustain is not negative, over every sequence of `Get` and `Release` calls in
which each time step is positive and at most the attack time, every value `Get` returns is
at most 0 dB; and in the End phase `Get` returns -96 dB. -/
theorem decibel_envelope_nonpos (env env2 : Envelope) (key : Nat) (calls : List EnvCall)
    (hs : 0 ≤ (env.add env2).sustain)
    (hdt : ∀ dt, EnvCall.get dt ∈ calls →
      0 < dt ∧ dt ≤ (Env.ofEnvelopes true env env2 key).attack) :
    (∀ x ∈ Env.run true (Env.ofEnvelopes true env env2 key) calls, x ≤ 0) ∧
    ∀ (e : Env) (dt : ℝ),
      (({ e with phase := EnvPhase.End } : Env).Get true dt).1 = -96 :=
  ⟨run_bounded calls _ (ofEnvelopes_bounded env env2 key hs) hdt,
    fun e dt => by simp [Env.Get]⟩

/-- C16, amended, on the envelope of the default generators with three calls of 1 ms
around a `Release`. -/
theorem decibel_envelope_nonpos_witness :
    (∀ x ∈ Env.run true (Env.ofEnvelopes true ({} : Envelope).SetToDefault {} 60)
        [EnvCall.get (1 / 1000), EnvCall.get (1 / 1000), EnvCall.release,
         EnvCall.get (1 / 1000)], x ≤ 0) ∧
    ∀ (e : Env) (dt : ℝ),
      (({ e with phase := EnvPhase.End } : Env).Get true dt).1 = -96 :=
  decibel_envelope_nonpos ({} : Envelope).SetToDefault {} 60
    [EnvCall.get (1 / 1000), EnvCall.get (1 / 1000), EnvCall.release, EnvCall.get (1 / 1000)]
    (by decide)
    (by
      have hw : wrap16 (-12000 + 0) = -12000 := by decide
      have ht : timecents_to_seconds ((-12000 : Int) : ℝ) = 1 / 1000 := by
        simp [timecents_to_seconds]
      intro dt hmem
      have hd : dt = 1 / 1000 := by
        simp only [List.mem_cons, EnvCall.get.injEq, List.mem_singleton, List.not_mem_nil,
          or_false, false_or, reduceCtorEq] at hmem
        rcases hmem with h | h | h <;> exact h
      subst hd
      simp only [Env.ofEnvelopes, Envelope.add, Envelope.SetToDefault, hw, ht]
      norm_num)

/-! ## Theorems: low-pass filter and LFOs of a new voice -/

/-- The value of `cents_to_hertz` at a whole number of octaves. -/
theorem cents_to_hertz_octaves (n : Nat) : cents_to_hertz ((1200 * n : Nat) : ℝ) = 2 ^ n := by
  unfold cents_to_hertz
  have : (((1200 * n : Nat) : ℝ)) / 1200 = (n : ℝ) := by
    push_cast
    field_simp
  rw [this, Real.rpow_natCast]

/-- The low-pass flag `setupLowpass` assigns. -/
theorem setupLowpass_active (lowpass : BiQuadLowpass)
    (filter_freq filter_q modenv_to_filter_freq sample_rate : ℝ) :
    (setupLowpass lowpass filter_freq filter_q modenv_to_filter_freq sample_rate).active =
      !(decide (filter_freq > 20000) && decide (filter_q < 0) &&
        decide (modenv_to_filter_freq ≠ 0)) := by
  unfold setupLowpass
  dsimp only
  split_ifs with h
  · simp only [BiQuadLowpass.set_frequency, BiQuadLowpass.set_Q]
  · rfl

/-- The low-pass flag `setupVoice` assigns. -/
theorem setupVoice_lowpass_active (sample_rate : ℝ) (layer : Preset.Zone)
    (split : Instrument.Zone) (key tmp_key tmp_vel si : Nat) (sample : Sample) (pan : ℝ)
    (voice : Voice) :
    ((setupVoice sample_rate layer split key tmp_key tmp_vel si sample pan voice).lowpass.active
        = false ↔
      (setupVoice sample_rate layer split key tmp_key tmp_vel si sample pan voice).filter_freq
          > 20000 ∧
      (setupVoice sample_rate layer split key tmp_key tmp_vel si sample pan voice).filter_q < 0 ∧
      (setupVoice sample_rate layer split key tmp_key tmp_vel si sample pan voice).modenv_to_filter_freq
          ≠ 0) := by
  simp only [setupVoice, setupLowpass_active]
  simp [and_assoc]

/-- The bank `openFilterBank` has only mono samples. -/
theorem openFilterBank_mono : AllLayersMono openFilterBank plainPreset.layers := by
  intro layer hl
  simp only [plainPreset, List.mem_singleton] at hl
  subst hl
  refine ⟨0, { splits := [openFilterSplit] }, rfl, rfl, ?_⟩
  intro split hs
  simp only [List.mem_singleton] at hs
  subst hs
  exact ⟨0, sample44k, rfl, rfl, rfl⟩

/-- The bank `vibratoBank` has only mono samples. -/
theorem vibratoBank_mono : AllLayersMono vibratoBank plainPreset.layers := by
  intro layer hl
  simp only [plainPreset, List.mem_singleton] at hl
  subst hl
  refine ⟨0, { splits := [vibratoSplit] }, rfl, rfl, ?_⟩
  intro split hs
  simp only [List.mem_singleton] at hs
  subst hs
  exact ⟨0, sample44k, rfl, rfl, rfl⟩

/-- C19 (the code departs from the claim). For the split `openFilterSplit` the call
`GenerateVoices` at key 60, velocity 100 and 44100 Hz builds one voice whose cutoff is
33488.896 Hz, above 20000 Hz, whose resonance is -1 dB, below 0 dB, and whose
`modenv_to_filter_freq` is 0, and the low-pass of that voice is active: the code switches
the filter off only when `modenv_to_filter_freq` differs from 0. -/
theorem open_filter_voice_lowpass_active :
    ∃ c v, GenerateVoices openFilterBank 1 plainPreset 60 100 44100 emptyPool = some c ∧
      c.elems = [v] ∧ v.filter_freq = 33488896 / 1000 ∧ v.filter_freq > 20000 ∧
      v.filter_q = -1 ∧ v.filter_q < 0 ∧ v.modenv_to_filter_freq = 0 ∧
      v.lowpass.active = true := by
  obtain ⟨c, h1, h2, _⟩ := layersLoop_mono openFilterBank 44100 1 60 100 (by decide)
    plainPreset.layers emptyPool openFilterBank_mono emptyPool_growable
  have hel : c.elems = [monoVoice openFilterBank 44100 60 100 (plainLayer, openFilterSplit)] := by
    rw [h2]
    simp [emptyPool, plainPreset, layerSplits, plainLayer, openFilterBank, pairInRange, inRange,
      openFilterSplit, newSplit]
  have hc := cents_to_hertz_octaves 12
  norm_num at hc
  have hfreq : (monoVoice openFilterBank 44100 60 100 (plainLayer, openFilterSplit)).filter_freq
      = 33488896 / 1000 := by
    simp [monoVoice, openFilterBank, openFilterSplit, newSplit, setupVoice, plainLayer, hc]
    norm_num
  have hq : (monoVoice openFilterBank 44100 60 100 (plainLayer, openFilterSplit)).filter_q
      = -1 := by
    simp [monoVoice, openFilterBank, openFilterSplit, newSplit, setupVoice, plainLayer]
  have hm : (monoVoice openFilterBank 44100 60 100
      (plainLayer, openFilterSplit)).modenv_to_filter_freq = 0 := by
    simp [monoVoice, openFilterBank, openFilterSplit, newSplit, setupVoice, plainLayer]
  refine ⟨c, _, h1, hel, hfreq, by rw [hfreq]; norm_num, hq, by rw [hq]; norm_num, hm, ?_⟩
  have hiff := setupVoice_lowpass_active 44100 plainLayer openFilterSplit 60
    (tmpKey openFilterSplit 60) (tmpVel openFilterSplit 100) 0 sample44k 0 {}
  have hmv : monoVoice openFilterBank 44100 60 100 (plainLayer, openFilterSplit) =
      setupVoice 44100 plainLayer openFilterSplit 60 (tmpKey openFilterSplit 60)
        (tmpVel openFilterSplit 100) 0 sample44k 0 {} := by
    simp [monoVoice, openFilterBank, openFilterSplit]
  rw [hmv] at hm ⊢
  by_contra hne
  have hfalse := hiff.1 (by simpa using hne)
  exact hfalse.2.2 hm

/-- C20 (the code departs from the claim). For the split `vibratoSplit`, whose vibrato-LFO
generators ask for 16.352 Hz after 1 s, the call `GenerateVoices` at key 60, velocity 100
and 44100 Hz builds one voice whose vibrato LFO has the frequency 8.176 Hz and the delay
1 ms of the default modulation-LFO generators, the same as for the split `plainSplit`
without vibrato generators: the vibrato LFO is built from the modulation-LFO descriptors
of the layer and the split, for every layer and split. -/
theorem vibrato_generators_ignored :
    (∃ c v, GenerateVoices vibratoBank 1 plainPreset 60 100 44100 emptyPool = some c ∧
      c.elems = [v] ∧ v.vibLFO.freq = 8176 / 1000 ∧ v.vibLFO.delay = 1 / 1000 ∧
      v.vibLFO.freq = (setupVoice 44100 plainLayer plainSplit 60 60 100 0 sample44k 0 {}).vibLFO.freq ∧
      v.vibLFO.delay = (setupVoice 44100 plainLayer plainSplit 60 60 100 0 sample44k 0 {}).vibLFO.delay) ∧
    (VoiceLFO.ofLFOs plainLayer.vibLFO vibratoSplit.vibLFO).freq = 16352 / 1000 ∧
    (VoiceLFO.ofLFOs plainLayer.vibLFO vibratoSplit.vibLFO).delay = 1 ∧
    ∀ (sample_rate : ℝ) (layer : Preset.Zone) (split : Instrument.Zone)
      (key tmp_key tmp_vel si : Nat) (sample : Sample) (pan : ℝ) (voice : Voice),
      (setupVoice sample_rate layer split key tmp_key tmp_vel si sample pan voice).vibLFO =
        VoiceLFO.ofLFOs layer.modLFO split.modLFO := by
  obtain ⟨c, h1, h2, _⟩ := layersLoop_mono vibratoBank 44100 1 60 100 (by decide)
    plainPreset.layers emptyPool vibratoBank_mono emptyPool_growable
  have hel : c.elems = [monoVoice vibratoBank 44100 60 100 (plainLayer, vibratoSplit)] := by
    rw [h2]
    simp [emptyPool, plainPreset, layerSplits, plainLayer, vibratoBank, pairInRange, inRange,
      vibratoSplit, newSplit]
  have hc0 := cents_to_hertz_octaves 0
  have hc1 := cents_to_hertz_octaves 1
  norm_num at hc0 hc1
  have hw : wrap16 (0 + -12000) = -12000 := by decide
  have hw0 : wrap16 (0 + 0) = 0 := by decide
  have hw1 : wrap16 (0 + 1200) = 1200 := by decide
  have ht : timecents_to_seconds ((-12000 : Int) : ℝ) = 1 / 1000 := by
    simp [timecents_to_seconds]
  have ht0 : timecents_to_seconds ((0 : Int) : ℝ) = 1 := by
    simp [timecents_to_seconds]
  have hv : (monoVoice vibratoBank 44100 60 100 (plainLayer, vibratoSplit)).vibLFO =
      { time := 0, freq := 8176 / 1000, delay := 1 / 1000 } := by
    simp only [monoVoice, vibratoBank, vibratoSplit, newSplit, setupVoice, plainLayer,
      List.getElem?_cons_zero, VoiceLFO.ofLFOs, LFO.add, hw, hw0, Int.cast_zero, hc0, ht, mul_one]
  have hp : (setupVoice 44100 plainLayer plainSplit 60 60 100 0 sample44k 0 {}).vibLFO =
      { time := 0, freq := 8176 / 1000, delay := 1 / 1000 } := by
    simp only [plainSplit, newSplit, setupVoice, plainLayer,
      VoiceLFO.ofLFOs, LFO.add, hw, hw0, Int.cast_zero, hc0, ht, mul_one]
  refine ⟨⟨c, _, h1, hel, by rw [hv], by rw [hv], by rw [hv, hp], by rw [hv, hp]⟩, ?_, ?_,
    fun _ _ _ _ _ _ _ _ _ _ => rfl⟩
  · simp only [plainLayer, vibratoSplit, VoiceLFO.ofLFOs, LFO.add, hw1]
    have : ((1200 : Int) : ℝ) = 1200 := by norm_num
    rw [this, hc1]
    norm_num
  · simp only [plainLayer, vibratoSplit, VoiceLFO.ofLFOs, LFO.add, hw0, ht0]

/-! ## Theorems: linked samples -/

/-- In `cyclicBank` the `create_voice` loop of a split of sample 0 does not return,
whatever the sample it is entered at and the number of rounds allowed. -/
theorem createVoices_cyclic (layer : Preset.Zone) (split : Instrument.Zone)
    (key tmp_key tmp_vel : Nat) (fuel : Nat) :
    ∀ (i : Nat) (pan : ℝ) (container : DynamicPool Voice), i ≤ 2 →
      createVoices cyclicBank 44100 layer split key tmp_key tmp_vel 0 fuel i pan container
        = none := by
  induction fuel with
  | zero => intro i pan container _; rfl
  | succ n ih =>
    intro i pan container hi
    have h0 : cyclicBank.samples[0]? = some
        { sample_rate := 44100, original_key := 60, size := 1000,
          sample_type := SFSampleLink.leftSample, linked_sample := some 1 } := rfl
    have h1 : cyclicBank.samples[1]? = some
        { sample_rate := 44100, original_key := 60, size := 1000,
          sample_type := SFSampleLink.rightSample, linked_sample := some 2 } := rfl
    have h2 : cyclicBank.samples[2]? = some
        { sample_rate := 44100, original_key := 60, size := 1000,
          sample_type := SFSampleLink.linkedSample, linked_sample := some 1 } := rfl
    unfold createVoices
    obtain rfl | rfl | rfl : i = 0 ∨ i = 1 ∨ i = 2 := by omega
    · simp only [h0]
      cases container.emplace_back {} with
      | none => rfl
      | some c1 =>
        simp only
        cases c1.modifyBack _ with
        | none => rfl
        | some c2 => simp [ih 1 _ c2 (by omega)]
    · simp only [h0, h1]
      cases container.emplace_back {} with
      | none => rfl
      | some c1 =>
        simp only
        cases c1.modifyBack _ with
        | none => rfl
        | some c2 => simp [ih 2 _ c2 (by omega)]
    · simp only [h0, h2]
      cases container.emplace_back {} with
      | none => rfl
      | some c1 =>
        simp only
        cases c1.modifyBack _ with
        | none => rfl
        | some c2 => simp [ih 1 _ c2 (by omega)]

/-- The chain of links of `cyclicBank` from sample 1 or 2 stays on the samples 1 and 2. -/
theorem linkChain_cyclic (n : Nat) :
    ∀ i, i = 1 ∨ i = 2 →
      linkChain cyclicBank n i = some 1 ∨ linkChain cyclicBank n i = some 2 := by
  induction n with
  | zero =>
    intro i hi
    rcases hi with rfl | rfl
    · exact Or.inl rfl
    · exact Or.inr rfl
  | succ n ih =>
    intro i hi
    rcases hi with rfl | rfl
    · exact ih 2 (Or.inr rfl)
    · exact ih 1 (Or.inl rfl)

/-- C17 (the code departs from the claim). In `cyclicBank` the links are A → B → C → B.
For the split of sample A, the chain of links from A is on B or C after every positive
number of steps, so it never meets A again and never ends; and `GenerateVoices` does not
return, whatever the number of rounds allowed to the `create_voice` loop. -/
theorem GenerateVoices_cyclic_links_no_return (fuel : Nat) :
    (linkChain cyclicBank (fuel + 1) 0 = some 1 ∨ linkChain cyclicBank (fuel + 1) 0 = some 2) ∧
    GenerateVoices cyclicBank fuel plainPreset 60 100 44100 emptyPool = none := by
  refine ⟨linkChain_cyclic fuel 1 (Or.inl rfl), ?_⟩
  have hrom : Nat.land SFSampleLink.leftSample 65520 = 0 := by decide
  have h0 : cyclicBank.samples[0]? = some
      { sample_rate := 44100, original_key := 60, size := 1000,
        sample_type := SFSampleLink.leftSample, linked_sample := some 1 } := rfl
  have hi : cyclicBank.instruments[0]? = some { splits := [plainSplit] } := rfl
  have hs : plainSplit.sample = some 0 := rfl
  have hr1 : outOfRange 60 100 plainLayer.key_low plainLayer.key_high plainLayer.vel_low
      plainLayer.vel_high = false := by decide
  have hr2 : outOfRange 60 100 plainSplit.key_low plainSplit.key_high plainSplit.vel_low
      plainSplit.vel_high = false := by decide
  have hl : plainLayer.instrument = some 0 := rfl
  simp only [GenerateVoices, plainPreset, layersLoop, layerVoices, hr1, hl, hi, splitsLoop,
    splitVoices, hr2, hs, h0, IsSampleROM, hrom]
  simp [createVoices_cyclic]

/-! ## Theorems: stereo pairs -/

/-- The panning factors at the pan of a left sample: the left factor is the larger. -/
theorem pan_left_sample :
    (constant_power_pan (clamp_panning (-(1 / 2) + ((0 : ℚ) : ℝ) + ((0 : ℚ) : ℝ)))).1 >
      (constant_power_pan (clamp_panning (-(1 / 2) + ((0 : ℚ) : ℝ) + ((0 : ℚ) : ℝ)))).2 := by
  have hc : clamp_panning (-(1 / 2) + ((0 : ℚ) : ℝ) + ((0 : ℚ) : ℝ)) = -(1 / 2) := by
    unfold clamp_panning
    norm_num
  rw [hc]
  simp only [constant_power_pan]
  have hp : -(1 / 2) * (2 * Real.pi) * (125 / 1000) = -(Real.pi / 8) := by ring
  rw [hp, Real.sin_neg, Real.cos_neg]
  have hs : 0 < Real.sin (Real.pi / 8) :=
    Real.sin_pos_of_pos_of_lt_pi (by positivity) (by linarith [Real.pi_pos])
  nlinarith

/-- The panning factors at the pan of a right sample: the right factor is the larger. -/
theorem pan_right_sample :
    (constant_power_pan (clamp_panning (1 / 2 + ((0 : ℚ) : ℝ) + ((0 : ℚ) : ℝ)))).2 >
      (constant_power_pan (clamp_panning (1 / 2 + ((0 : ℚ) : ℝ) + ((0 : ℚ) : ℝ)))).1 := by
  have hc : clamp_panning (1 / 2 + ((0 : ℚ) : ℝ) + ((0 : ℚ) : ℝ)) = 1 / 2 := by
    unfold clamp_panning
    norm_num
  rw [hc]
  simp only [constant_power_pan]
  have hp : 1 / 2 * (2 * Real.pi) * (125 / 1000) = Real.pi / 8 := by ring
  rw [hp]
  have hs : 0 < Real.sin (Real.pi / 8) :=
    Real.sin_pos_of_pos_of_lt_pi (by positivity) (by linarith [Real.pi_pos])
  nlinarith

/-- The `create_voice` loop for a left sample linked to a right sample that links back:
two rounds, one voice per sample. -/
theorem createVoices_stereo (sf : SoundFont2) (sample_rate : ℝ) (layer : Preset.Zone)
    (split : Instrument.Zone) (key tmp_key tmp_vel a b fuel : Nat) (sa sb : Sample)
    (container : DynamicPool Voice)
    (ha : sf.samples[a]? = some sa) (hta : sa.sample_type = SFSampleLink.leftSample)
    (hla : sa.linked_sample = some b)
    (hb : sf.samples[b]? = some sb) (htb : sb.sample_type = SFSampleLink.rightSample)
    (hlb : sb.linked_sample = some a)
    (hp : container.Growable) :
    ∃ c, createVoices sf sample_rate layer split key tmp_key tmp_vel a (fuel + 2) a 0 container
          = some c ∧
      c.elems = container.elems ++
        [setupVoice sample_rate layer split key tmp_key tmp_vel a sa (-(1 / 2)) {},
         setupVoice sample_rate layer split key tmp_key tmp_vel b sb (1 / 2) {}] ∧
      c.Growable := by
  have hab : b ≠ a := by
    intro h
    subst h
    rw [ha] at hb
    cases hb
    rw [hta] at htb
    exact absurd htb (by decide)
  obtain ⟨c1, he1, hel1, hg1⟩ := emplace_back_growable container ({} : Voice) hp
  have hmb1 := modifyBack_append c1 container.elems ({} : Voice)
    (setupVoice sample_rate layer split key tmp_key tmp_vel a sa (-(1 / 2))) hel1
  have hg1' : ({ c1 with elems := container.elems ++
      [setupVoice sample_rate layer split key tmp_key tmp_vel a sa (-(1 / 2)) {}] } :
      DynamicPool Voice).Growable := by
    obtain ⟨g1, g2, g3⟩ := hg1
    refine ⟨g1, g2, ?_⟩
    simp only [DynamicPool.size, hel1, List.length_append, List.length_singleton] at *
    omega
  obtain ⟨c2, he2, hel2, hg2⟩ := emplace_back_growable _ ({} : Voice) hg1'
  have hmb2 := modifyBack_append c2 _ ({} : Voice)
    (setupVoice sample_rate layer split key tmp_key tmp_vel b sb (1 / 2)) hel2
  refine ⟨{ c2 with elems := (container.elems ++
      [setupVoice sample_rate layer split key tmp_key tmp_vel a sa (-(1 / 2)) {}]) ++
      [setupVoice sample_rate layer split key tmp_key tmp_vel b sb (1 / 2) {}] }, ?_, ?_, ?_⟩
  · have hpa : samplePan sa.sample_type 0 = -(1 / 2) := by
      rw [hta]; simp [samplePan]
    have hpb : samplePan sb.sample_type (-(1 / 2)) = 1 / 2 := by
      rw [htb]; simp [samplePan]
    have hne : sa.sample_type ≠ SFSampleLink.monoSample := by rw [hta]; decide
    rw [createVoices]
    simp only [ha, he1, hpa, hmb1, hne, ne_eq, not_false_eq_true, if_true, hla, hab, if_false]
    rw [createVoices]
    simp only [ha, hb, he2, hpb, hmb2, hne, ne_eq, not_false_eq_true, if_true, hlb]
  · simp
  · obtain ⟨g1, g2, g3⟩ := hg2
    refine ⟨g1, g2, ?_⟩
    simp only [DynamicPool.size, hel2, List.length_append, List.length_singleton] at *
    omega

/-- The loop over the earlier voices for one exclusive class returns when every earlier
voice has a split, and every voice still has one afterwards. -/
theorem releaseExclusive_some (cls : Nat) (old : List Voice)
    (hz : ∀ v ∈ old, v.zone ≠ none) :
    ∃ old', releaseExclusive cls old = some old' ∧ ∀ v ∈ old', v.zone ≠ none := by
  induction old with
  | nil => exact ⟨[], rfl, by simp⟩
  | cons v rest ih =>
    obtain ⟨rest1, h1, h2⟩ := ih (fun u hu => hz u (List.mem_cons_of_mem _ hu))
    have hv := hz v (List.mem_cons_self _ _)
    obtain ⟨zone, hzone⟩ := Option.ne_none_iff_exists'.mp hv
    refine ⟨(if zone.exclusive_class = cls then extinguish v else v) :: rest1, ?_, ?_⟩
    · simp only [releaseExclusive, hzone, h1]
    · intro u hu
      rcases List.mem_cons.mp hu with rfl | hu
      · split_ifs
        · rw [extinguish_zone]; exact hv
        · exact hv
      · exact h2 u hu

/-- The exclusive-class loops return when every new and every earlier voice has a split. -/
theorem releaseExclusiveAll_some (nvs : List Voice) :
    ∀ old : List Voice, (∀ v ∈ nvs, v.zone ≠ none) → (∀ v ∈ old, v.zone ≠ none) →
      ∃ old', releaseExclusiveAll nvs old = some old' := by
  induction nvs with
  | nil => intro old _ _; exact ⟨old, rfl⟩
  | cons nv nvs ih =>
    intro old hn ho
    obtain ⟨zone, hzone⟩ := Option.ne_none_iff_exists'.mp (hn nv (List.mem_cons_self _ _))
    have hn' : ∀ v ∈ nvs, v.zone ≠ none := fun v hv => hn v (List.mem_cons_of_mem _ hv)
    by_cases hc : zone.exclusive_class ≠ 0
    · obtain ⟨old1, h1, h2⟩ := releaseExclusive_some zone.exclusive_class old ho
      obtain ⟨old', h3⟩ := ih old1 hn' h2
      exact ⟨old', by simp [releaseExclusiveAll, hzone, hc, h1, h3]⟩
    · obtain ⟨old', h3⟩ := ih old hn' ho
      exact ⟨old', by simp [releaseExclusiveAll, hzone, hc, h3]⟩

/-- C18. On a channel whose preset has one layer, whose instrument has one split, whose
sample is a left sample linked to a right sample that links back to it, with zero layer
and split pan, a key and a velocity inside the ranges of the layer and the split, a pool
that grows on demand and earlier voices that have a split, `NoteOn` returns and appends
exactly two voices to the earlier ones: the first plays the left sample and has
`pan_factor_l > pan_factor_r`, the second plays the right sample and has
`pan_factor_r > pan_factor_l`. -/
theorem NoteOn_stereo_pair (ch : Channel) (preset : Preset) (sf : SoundFont2)
    (layer : Preset.Zone) (i : Nat) (instrument : Instrument) (split : Instrument.Zone)
    (a b : Nat) (sa sb : Sample) (fuel key velocity : Nat) (sample_rate : ℝ)
    (hp : ch.preset = some preset) (hsf : ch.sf = some sf) (hl : preset.layers = [layer])
    (hin : layer.instrument = some i) (his : sf.instruments[i]? = some instrument)
    (hsplits : instrument.splits = [split])
    (hsa : split.sample = some a)
    (ha : sf.samples[a]? = some sa) (hta : sa.sample_type = SFSampleLink.leftSample)
    (hla : sa.linked_sample = some b)
    (hb : sf.samples[b]? = some sb) (htb : sb.sample_type = SFSampleLink.rightSample)
    (hlb : sb.linked_sample = some a)
    (hlp : layer.pan = 0) (hsp : split.pan = 0)
    (hlr : inRange key velocity layer.key_low layer.key_high layer.vel_low layer.vel_high = true)
    (hsr : inRange key velocity split.key_low split.key_high split.vel_low split.vel_high = true)
    (hk : key < ch.key_states.length) (hf : 2 ≤ fuel) (hg : ch.voices.Growable)
    (hz : ∀ v ∈ ch.voices.elems, v.zone ≠ none) :
    ∃ (ch' : Channel) (old' : List Voice) (v0 v1 : Voice),
      ch.NoteOn fuel key velocity sample_rate = some ch' ∧
      ch'.voices.elems = old' ++ [v0, v1] ∧ old'.length = ch.voices.elems.length ∧
      v0.sample = some a ∧ v1.sample = some b ∧
      v0.pan_factor_l > v0.pan_factor_r ∧ v1.pan_factor_r > v1.pan_factor_l := by
  obtain ⟨n, rfl⟩ : ∃ n, fuel = n + 2 := ⟨fuel - 2, by omega⟩
  obtain ⟨c, hc, hel, _⟩ := createVoices_stereo sf sample_rate layer split key
    (tmpKey split key) (tmpVel split velocity) a b n sa sb ch.voices ha hta hla hb htb hlb hg
  have hrom : IsSampleROM sa.sample_type = false := by rw [hta]; decide
  have hgen : GenerateVoices sf (n + 2) preset key velocity sample_rate ch.voices = some c := by
    simp only [GenerateVoices, hl, layersLoop, layerVoices, outOfRange_eq, hlr, hin, his,
      hsplits, splitsLoop, splitVoices, hsr, hsa, ha, hrom, hc, Bool.not_true]
    simp
  have htake : c.elems.take ch.voices.size = ch.voices.elems := by
    rw [hel]; simp [DynamicPool.size]
  have hdrop : c.elems.drop ch.voices.size =
      [setupVoice sample_rate layer split key (tmpKey split key) (tmpVel split velocity) a sa
         (-(1 / 2)) {},
       setupVoice sample_rate layer split key (tmpKey split key) (tmpVel split velocity) b sb
         (1 / 2) {}] := by
    rw [hel]; simp [DynamicPool.size]
  obtain ⟨old', hold⟩ := releaseExclusiveAll_some
    [setupVoice sample_rate layer split key (tmpKey split key) (tmpVel split velocity) a sa
       (-(1 / 2)) {},
     setupVoice sample_rate layer split key (tmpKey split key) (tmpVel split velocity) b sb
       (1 / 2) {}] ch.voices.elems
    (by
      intro v hv
      simp only [List.mem_cons, List.mem_singleton, List.not_mem_nil, or_false] at hv
      rcases hv with rfl | rfl <;> simp [setupVoice]) hz
  refine ⟨{ ch with key_states := ch.key_states.set key true,
                     voices := { c with elems := old' ++ c.elems.drop ch.voices.size } },
    old',
    setupVoice sample_rate layer split key (tmpKey split key) (tmpVel split velocity) a sa
      (-(1 / 2)) {},
    setupVoice sample_rate layer split key (tmpKey split key) (tmpVel split velocity) b sb
      (1 / 2) {},
    ?_, ?_, releaseExclusiveAll_length _ _ _ hold, rfl, rfl, ?_, ?_⟩
  · unfold Channel.NoteOn
    simp only [hp, hsf, hk, if_true, hgen, htake]
    rw [hdrop, hold]
  · simp only [hdrop]
  · have := pan_left_sample
    simpa only [setupVoice, hlp, hsp] using this
  · have := pan_right_sample
    simpa only [setupVoice, hlp, hsp] using this

/-- C18 on the fresh channel `stereoChannel` at key 60 and velocity 100. -/
theorem NoteOn_stereo_pair_witness :
    ∃ (ch' : Channel) (old' : List Voice) (v0 v1 : Voice),
      stereoChannel.NoteOn 2 60 100 44100 = some ch' ∧
      ch'.voices.elems = old' ++ [v0, v1] ∧ old'.length = stereoChannel.voices.elems.length ∧
      v0.sample = some 0 ∧ v1.sample = some 1 ∧
      v0.pan_factor_l > v0.pan_factor_r ∧ v1.pan_factor_r > v1.pan_factor_l :=
  NoteOn_stereo_pair stereoChannel plainPreset stereoBank plainLayer 0 { splits := [plainSplit] }
    plainSplit 0 1
    { sample_rate := 44100, original_key := 60, size := 1000,
      sample_type := SFSampleLink.leftSample, linked_sample := some 1 }
    { sample_rate := 44100, original_key := 60, size := 1000,
      sample_type := SFSampleLink.rightSample, linked_sample := some 0 }
    2 60 100 44100 rfl rfl rfl rfl rfl rfl rfl rfl rfl rfl rfl rfl rfl rfl rfl
    (by decide) (by decide) (by decide) (le_refl 2)
    (by
      refine ⟨?_, ?_, ?_⟩
      · simp [stereoChannel, SIZE_MAX]
      · simp [stereoChannel]
      · simp [stereoChannel, DynamicPool.size])
    (by simp [stereoChannel])

/-! ## Theorems: looping -/

/-- The function `nextPos` stays inside the sample for a looping voice. -/
theorem nextPos_lt (pos ls le size : Nat) (h2 : ls < le) (h3 : le ≤ size) :
    nextPos pos ls le size true < size := by
  unfold nextPos
  simp only [Bool.and_true, Bool.or_eq_true, decide_eq_true_eq, ↓reduceIte]
  split_ifs <;> omega

/-- One frame of a looping voice whose position is before the loop end: the frame is
rendered, the step is kept, and the position advances by the step, less the loop length
when it reaches the loop end. -/
theorem renderFrame_looping (sample : Sample) (data : List ℚ) (sample_rate step_ step : ℝ)
    (ls le : Nat) (v : Voice)
    (hd : sample.data = some data) (hlen : sample.size ≤ data.length)
    (hL : v.Looping ls le) (hlt : ls < le) (hle : le ≤ sample.size) (h32 : le < 4294967296)
    (h0 : 0 ≤ v.sample_pos) (h1 : v.sample_pos < (le : ℝ)) :
    ∃ res, v.renderFrame sample sample_rate step_ step = some res ∧ res.2.1 = step ∧
      res.1.Looping ls le ∧
      res.1.sample_pos =
        if v.sample_pos + step ≥ (le : ℝ) then v.sample_pos + step - ((le : ℝ) - (ls : ℝ))
        else v.sample_pos + step := by
  obtain ⟨⟨zone, hz, hcont⟩, hls, hle', hm1, hm2, hm3⟩ := hL
  have hloop : v.isLooping zone = true := by simp [Voice.isLooping, hcont]
  have hpos : ⌊v.sample_pos⌋₊ < le := (Nat.floor_lt h0).2 h1
  have hnext := nextPos_lt ⌊v.sample_pos⌋₊ ls le sample.size hlt hle
  obtain ⟨d0, hd0⟩ : ∃ d, data[⌊v.sample_pos⌋₊]? = some d :=
    ⟨data.get ⟨⌊v.sample_pos⌋₊, by omega⟩, List.getElem?_eq_getElem _⟩
  obtain ⟨d1, hd1⟩ : ∃ d, data[nextPos ⌊v.sample_pos⌋₊ ls le sample.size true]? = some d :=
    ⟨data.get ⟨nextPos ⌊v.sample_pos⌋₊ ls le sample.size true, by omega⟩,
      List.getElem?_eq_getElem _⟩
  have hneg : ¬ v.sample_pos ≤ -1 := by linarith
  have hu : (toUInt32 ((le : Int) - (ls : Int)) : ℝ) = (le : ℝ) - (ls : ℝ) := by
    have : toUInt32 ((le : Int) - (ls : Int)) = le - ls := by
      unfold toUInt32
      omega
    rw [this, Nat.cast_sub hlt.le]
  simp only [Voice.renderFrame, hz, hd, hneg, if_false, hloop, hls, hle', hd0, hd1]
  refine ⟨_, rfl, ?_, ⟨⟨zone, rfl, hcont⟩, rfl, rfl, hm1, hm2, hm3⟩, ?_⟩
  · simp [frameStep, hm1, hm2, hm3]
  · simp only [advancePos, hu, and_true]

/-- A run of frames of a looping voice that starts before the loop end with a step of at
most the loop length: every frame is rendered, the position stays before the loop end, it
is at or after the loop start once the frames suffice to reach it, and it is the start
position plus the steps as long as that is before the loop end. -/
theorem renderFrames_looping (sample : Sample) (data : List ℚ) (sample_rate step_ step : ℝ)
    (ls le : Nat) (hd : sample.data = some data) (hlen : sample.size ≤ data.length)
    (hlt : ls < le) (hle : le ≤ sample.size) (h32 : le < 4294967296)
    (hs0 : 0 < step) (hs1 : step ≤ (le : ℝ) - (ls : ℝ)) (n : Nat) :
    ∀ v : Voice, v.Looping ls le → 0 ≤ v.sample_pos → v.sample_pos < (le : ℝ) →
      ∃ res, Voice.renderFrames sample sample_rate step_ n v step = some res ∧
        res.2.length = n ∧ res.1.Looping ls le ∧ 0 ≤ res.1.sample_pos ∧
        res.1.sample_pos < (le : ℝ) ∧
        ((ls : ℝ) ≤ v.sample_pos + n * step → (ls : ℝ) ≤ res.1.sample_pos) ∧
        (v.sample_pos + n * step < (le : ℝ) → res.1.sample_pos = v.sample_pos + n * step) := by
  induction n with
  | zero =>
    intro v hL h0 h1
    exact ⟨(v, []), rfl, rfl, hL, h0, h1, by simp, by simp⟩
  | succ n ih =>
    intro v hL h0 h1
    obtain ⟨⟨v1, step1, l, r⟩, hrf, hst, hL1, hp1⟩ := renderFrame_looping sample data
      sample_rate step_ step ls le v hd hlen hL hlt hle h32 h0 h1
    simp only at hst hL1 hp1
    rw [hst] at hrf
    have hlt' : v.sample_pos < (sample.size : ℝ) :=
      lt_of_lt_of_le h1 (by exact_mod_cast hle)
    have hls0 : (0 : ℝ) ≤ (ls : ℝ) := Nat.cast_nonneg _
    have h10 : 0 ≤ v1.sample_pos := by
      rw [hp1]; split_ifs with hc <;> linarith
    have h11 : v1.sample_pos < (le : ℝ) := by
      rw [hp1]; split_ifs with hc
      · linarith
      · push_neg at hc; exact hc
    obtain ⟨⟨v2, out⟩, hrs, hlen2, hL2, h20, h21, h2a, h2b⟩ := ih v1 hL1 h10 h11
    simp only at hlen2 hL2 h20 h21 h2a h2b
    refine ⟨(v2, (l, r) :: out), ?_, by simp [hlen2], hL2, h20, h21, ?_, ?_⟩
    · simp only [Voice.renderFrames, hlt', if_true, hrf, hrs]
    · intro hge
      apply h2a
      rw [hp1]
      push_cast at hge
      have hn : (0 : ℝ) ≤ (n : ℝ) * step := by positivity
      split_ifs with hc
      · linarith
      · linarith
    · intro hl
      push_cast at hl ⊢
      have hn : (0 : ℝ) ≤ (n : ℝ) * step := by positivity
      have hc : ¬ v.sample_pos + step ≥ (le : ℝ) := by
        push_neg; linarith
      rw [if_neg hc] at hp1
      rw [h2b (by rw [hp1]; linarith), hp1]
      ring

/-- The call `Render` of a looping voice that starts before the loop end with a step of at
most the loop length. -/
theorem Render_looping (sf : SoundFont2) (v : Voice) (i : Nat) (sample : Sample)
    (data : List ℚ) (ls le N : Nat) (sample_rate : ℝ)
    (hi : v.sample = some i) (hs : sf.samples[i]? = some sample)
    (hd : sample.data = some data) (hlen : sample.size ≤ data.length)
    (hL : v.Looping ls le) (hlt : ls < le) (hle : le ≤ sample.size) (h32 : le < 4294967296)
    (hs0 : 0 < v.freq / sample_rate) (hs1 : v.freq / sample_rate ≤ (le : ℝ) - (ls : ℝ))
    (h0 : 0 ≤ v.sample_pos) (h1 : v.sample_pos < (le : ℝ)) :
    ∃ res, v.Render sf N sample_rate = some res ∧ res.2.length = N ∧
      res.1.sample_pos < (le : ℝ) ∧
      ((ls : ℝ) ≤ v.sample_pos + N * (v.freq / sample_rate) → (ls : ℝ) ≤ res.1.sample_pos) ∧
      (v.sample_pos + N * (v.freq / sample_rate) < (le : ℝ) →
        res.1.sample_pos = v.sample_pos + N * (v.freq / sample_rate)) := by
  obtain ⟨res, hr, hl, _, _, hlt2, ha, hb⟩ := renderFrames_looping sample data sample_rate
    (v.freq / sample_rate) (v.freq / sample_rate) ls le hd hlen hlt hle h32 hs0 hs1 N v hL h0 h1
  cases N with
  | zero =>
    refine ⟨(v, []), rfl, rfl, h1, ?_, ?_⟩
    · intro h; simpa using h
    · intro _; simp
  | succ n =>
    exact ⟨res, by simp only [Voice.Render, hi, hs, hr], hl, hlt2, ha, hb⟩

/-- C14 as stated fails. On a sample of 4 frames, a fresh voice at step 1 with the loop
from 3 to 4 is at position 2 after 2 frames, although 2 > (4 - 3) / 1; and a fresh voice at
step 2 with the loop from 0 to 1 is at position 1 after 1 frame, although 1 > (1 - 0) / 2,
because the loop length is subtracted once. Neither position is inside the loop. -/
theorem loop_position_outside_loop :
    (∃ v out, (loopVoice 3 4 44100).Render fourFrameBank 2 44100 = some (v, out) ∧
      (loopVoice 3 4 44100).freq / 44100 = 1 ∧ ((2 : Nat) : ℝ) > (4 - 3) / 1 ∧
      v.sample_pos = 2 ∧ ¬ (3 ≤ v.sample_pos ∧ v.sample_pos < 4)) ∧
    (∃ v out, (loopVoice 0 1 88200).Render fourFrameBank 1 44100 = some (v, out) ∧
      (loopVoice 0 1 88200).freq / 44100 = 2 ∧ ((1 : Nat) : ℝ) > (1 - 0) / 2 ∧
      v.sample_pos = 1 ∧ ¬ (0 ≤ v.sample_pos ∧ v.sample_pos < 1)) := by
  constructor
  · have hstep : (loopVoice 3 4 44100).freq / 44100 = 1 := by norm_num [loopVoice]
    obtain ⟨⟨v, out⟩, hr, _, _, _, hb⟩ := Render_looping fourFrameBank (loopVoice 3 4 44100) 0
      { sample_rate := 44100, original_key := 60, size := 4, data := some [1, 1, 1, 1] }
      [1, 1, 1, 1] 3 4 2 44100 rfl rfl rfl (by decide) ⟨⟨_, rfl, rfl⟩, rfl, rfl, rfl, rfl, rfl⟩
      (by decide) (by decide) (by decide) (by rw [hstep]; norm_num) (by rw [hstep]; norm_num)
      (by norm_num [loopVoice]) (by norm_num [loopVoice])
    have hp : v.sample_pos = 2 := by
      have := hb (by rw [hstep]; norm_num [loopVoice])
      rw [this, hstep]
      norm_num [loopVoice]
    refine ⟨v, out, hr, hstep, by norm_num, hp, ?_⟩
    rw [hp]
    norm_num
  · have hstep : (loopVoice 0 1 88200).freq / 44100 = 2 := by norm_num [loopVoice]
    obtain ⟨⟨v, st, l, r⟩, hrf, _, _, hp⟩ := renderFrame_looping
      { sample_rate := 44100, original_key := 60, size := 4, data := some [1, 1, 1, 1] }
      [1, 1, 1, 1] 44100 ((loopVoice 0 1 88200).freq / 44100)
      ((loopVoice 0 1 88200).freq / 44100) 0 1 (loopVoice 0 1 88200) rfl (by decide)
      ⟨⟨_, rfl, rfl⟩, rfl, rfl, rfl, rfl, rfl⟩ (by decide) (by decide) (by decide)
      (by norm_num [loopVoice]) (by norm_num [loopVoice])
    simp only at hp
    have hp1 : v.sample_pos = 1 := by
      rw [hp, hstep]
      norm_num [loopVoice]
    have h0 : (loopVoice 0 1 88200).sample = some 0 := rfl
    have hs : fourFrameBank.samples[0]? = some
      { sample_rate := 44100, original_key := 60, size := 4, data := some [1, 1, 1, 1] } := rfl
    have hlt : (loopVoice 0 1 88200).sample_pos < ((4 : Nat) : ℝ) := by norm_num [loopVoice]
    refine ⟨v, [(l, r)], ?_, hstep, by norm_num, hp1, ?_⟩
    · simp only [Voice.Render, h0, hs, Voice.renderFrames, hlt, if_true, hrf]
    · rw [hp1]
      norm_num

/-- C14, amended. For a voice whose split loops continuously, with loop points
`loop_start < loop_end` inside the sample, no envelope or LFO routed to the pitch, a step
`freq / sample_rate` that is positive and at most the loop length, and a position at entry
in `[0, loop_end)`: `Render` of N frames renders all N frames and leaves the position in
`[loop_start, loop_end)`, for every N that suffices to reach the loop start from the entry
position. -/
theorem Render_continuous_loop (sf : SoundFont2) (v : Voice) (i : Nat) (sample : Sample)
    (data : List ℚ) (ls le N : Nat) (sample_rate : ℝ)
    (hi : v.sample = some i) (hs : sf.samples[i]? = some sample)
    (hd : sample.data = some data) (hlen : sample.size ≤ data.length)
    (hL : v.Looping ls le) (hlt : ls < le) (hle : le ≤ sample.size) (h32 : le < 4294967296)
    (hs0 : 0 < v.freq / sample_rate) (hs1 : v.freq / sample_rate ≤ (le : ℝ) - (ls : ℝ))
    (h0 : 0 ≤ v.sample_pos) (h1 : v.sample_pos < (le : ℝ))
    (hN : (ls : ℝ) ≤ v.sample_pos + N * (v.freq / sample_rate)) :
    ∃ v1 out, v.Render sf N sample_rate = some (v1, out) ∧ out.length = N ∧
      (ls : ℝ) ≤ v1.sample_pos ∧ v1.sample_pos < (le : ℝ) := by
  obtain ⟨⟨v1, out⟩, hr, hl, hlt2, ha, _⟩ := Render_looping sf v i sample data ls le N
    sample_rate hi hs hd hlen hL hlt hle h32 hs0 hs1 h0 h1
  exact ⟨v1, out, hr, hl, ha hN, hlt2⟩

/-- C14, amended, on a fresh voice at step 1 with the loop from 1 to 3 of a sample of 4
frames, for 5 frames. -/
theorem Render_continuous_loop_witness :
    ∃ v1 out, (loopVoice 1 3 44100).Render fourFrameBank 5 44100 = some (v1, out) ∧
      out.length = 5 ∧ ((1 : Nat) : ℝ) ≤ v1.sample_pos ∧ v1.sample_pos < ((3 : Nat) : ℝ) :=
  Render_continuous_loop fourFrameBank (loopVoice 1 3 44100) 0
    { sample_rate := 44100, original_key := 60, size := 4, data := some [1, 1, 1, 1] }
    [1, 1, 1, 1] 1 3 5 44100 rfl rfl rfl (by decide) ⟨⟨_, rfl, rfl⟩, rfl, rfl, rfl, rfl, rfl⟩
    (by decide) (by decide) (by decide) (by norm_num [loopVoice]) (by norm_num [loopVoice])
    (by norm_num [loopVoice]) (by norm_num [loopVoice]) (by norm_num [loopVoice])

/-! ## Theorems: end of the sample -/

/-- The `double` with a positive upper word from the normal range is positive. -/
theorem doubleOfUpperWord_pos (h : Int) (h1 : 1048576 ≤ h) (h2 : h < 2147483648) :
    0 < doubleOfUpperWord h := by
  unfold doubleOfUpperWord
  have hb : h % 2147483648 = h := Int.emod_eq_of_lt (by omega) h2
  simp only [hb]
  have he : h / 1048576 ≠ 0 := by omega
  have hm : (0 : ℝ) ≤ ((h % 1048576 : Int) : ℝ) := by
    have : (0 : Int) ≤ h % 1048576 := Int.emod_nonneg _ (by norm_num)
    exact_mod_cast this
  rw [if_neg he, if_neg (by omega)]
  have hz : (0 : ℝ) < (2 : ℝ) ^ (h / 1048576 - 1023) := zpow_pos (by norm_num) _
  have hf : (0 : ℝ) < 1 + ((h % 1048576 : Int) : ℝ) / 1048576 := by positivity
  exact mul_pos hf hz

/-- The function `decibels_to_gain` is positive between -100 dB and 100 dB. -/
theorem decibels_to_gain_pos (db : ℝ) (h1 : -100 < db) (h2 : db ≤ 100) :
    0 < decibels_to_gain db := by
  unfold decibels_to_gain fastPow
  rw [if_pos h1]
  have hx0 : (1048576 : ℝ) ≤ db * (5 / 100) * (((1076101120 : Int) : ℝ) - 1072632447) +
      1072632447 := by
    push_cast
    nlinarith
  have hx1 : db * (5 / 100) * (((1076101120 : Int) : ℝ) - 1072632447) + 1072632447 <
      2147483648 := by
    push_cast
    nlinarith
  apply doubleOfUpperWord_pos
  · unfold truncToInt
    rw [if_pos (by linarith)]
    exact Int.le_floor.2 (by exact_mod_cast hx0)
  · unfold truncToInt
    rw [if_pos (by linarith)]
    exact Int.floor_lt.2 (by exact_mod_cast hx1)

/-- The volume-envelope part of a frame for a held voice whose envelope stays in the Delay
phase: the gain is that of -96 dB and the envelope time advances. -/
theorem frameVolEnv_delay (e : Env) (dt : ℝ) (hp : e.phase = EnvPhase.Delay)
    (ht : e.time + dt < e.delay) :
    frameVolEnv e true dt = (decibels_to_gain (-96), { e with time := e.time + dt }) := by
  have hnot : ¬ e.time + dt ≥ e.delay := not_le.2 ht
  have hget : Env.Get true e dt = (-96, { e with time := e.time + dt }) := by
    simp only [Env.Get, hp, hnot, if_false, if_true]
  simp only [frameVolEnv, hget, hp]
  simp

/-- One frame of a plain voice inside a sample whose values are all 1, while the volume
envelope stays in the Delay phase: the frame is rendered, both output values are positive,
the step is kept and the position advances by the step. -/
theorem renderFrame_plain (sample : Sample) (data : List ℚ) (sample_rate step_ step : ℝ)
    (v : Voice) (hd : sample.data = some data)
    (hones : ∀ i, i < sample.size → data[i]? = some 1)
    (hP : v.Plain) (h0 : 0 ≤ v.sample_pos) (h1 : v.sample_pos < (sample.size : ℝ))
    (ht : v.volenv.time + 1 / sample_rate < v.volenv.delay) :
    ∃ res, v.renderFrame sample sample_rate step_ step = some res ∧ res.2.1 = step ∧
      0 < res.2.2.1 ∧ 0 < res.2.2.2 ∧ res.1.Plain ∧
      res.1.sample_pos = v.sample_pos + step ∧
      res.1.volenv.time = v.volenv.time + 1 / sample_rate ∧
      res.1.volenv.delay = v.volenv.delay ∧
      res.1.sample_end_pos = v.sample_end_pos ∧ res.1.sample = v.sample ∧
      res.1.freq = v.freq := by
  obtain ⟨⟨zone, hz, hnone⟩, hh, hm1, hm2, hm3, hm4, hact, hph, hg, hpl, hpr⟩ := hP
  have hloop : v.isLooping zone = false := by simp [Voice.isLooping, hnone]
  have hpos : ⌊v.sample_pos⌋₊ < sample.size := (Nat.floor_lt h0).2 h1
  have hnext : nextPos ⌊v.sample_pos⌋₊ v.loop_start v.loop_end sample.size false <
      sample.size := by
    unfold nextPos
    simp only [Bool.and_false, Bool.false_or, decide_eq_true_eq, Bool.false_eq_true,
      ↓reduceIte]
    split_ifs <;> omega
  have hd0 := hones _ hpos
  have hd1 := hones _ hnext
  have hneg : ¬ v.sample_pos ≤ -1 := by linarith
  have hgain : 0 < decibels_to_gain (-96) := decibels_to_gain_pos _ (by norm_num) (by norm_num)
  have hve := frameVolEnv_delay v.volenv (1 / sample_rate) hph ht
  have hlp : ∀ a b c : ℝ, frameLowpass v sample_rate a b c = (c, v.lowpass) := by
    intro a b c
    simp [frameLowpass, hact]
  simp only [Voice.renderFrame, hz, hd, hneg, if_false, hloop, hd0, hd1, hh, hve, hlp, hm4,
    ne_eq, not_true_eq_false, if_false]
  refine ⟨_, rfl, ?_, ?_, ?_, ⟨⟨zone, rfl, hnone⟩, rfl, hm1, hm2, hm3, rfl, hact, hph, hg, hpl,
    hpr⟩, ?_, rfl, rfl, rfl, rfl, rfl⟩
  · simp [frameStep, hm1, hm2, hm3]
  · simp only [fast_lerp]
    have : (0 : ℝ) < v.gain * decibels_to_gain (-96) := mul_pos hg hgain
    simp only [Rat.cast_one, sub_self, mul_zero, add_zero, one_mul]
    exact mul_pos this hpl
  · simp only [fast_lerp]
    have : (0 : ℝ) < v.gain * decibels_to_gain (-96) := mul_pos hg hgain
    simp only [Rat.cast_one, sub_self, mul_zero, add_zero, one_mul]
    exact mul_pos this hpr
  · simp [advancePos]

/-- A run of frames of a plain voice that ends inside a sample whose values are all 1,
while the volume envelope stays in the Delay phase: every frame is rendered with positive
output values, and the position advances by the step in every frame. -/
theorem renderFrames_plain (sample : Sample) (data : List ℚ) (sample_rate step_ step : ℝ)
    (hd : sample.data = some data) (hones : ∀ i, i < sample.size → data[i]? = some 1)
    (hs0 : 0 < step) (hsr : 0 < sample_rate) (n : Nat) :
    ∀ v : Voice, v.Plain → 0 ≤ v.sample_pos →
      v.sample_pos + n * step ≤ (sample.size : ℝ) →
      v.volenv.time + n * (1 / sample_rate) < v.volenv.delay →
      ∃ res, Voice.renderFrames sample sample_rate step_ n v step = some res ∧
        res.2.length = n ∧ (∀ x ∈ res.2, 0 < x.1 ∧ 0 < x.2) ∧ res.1.Plain ∧
        res.1.sample_pos = v.sample_pos + n * step ∧
        res.1.volenv.time = v.volenv.time + n * (1 / sample_rate) ∧
        res.1.volenv.delay = v.volenv.delay ∧
        res.1.sample_end_pos = v.sample_end_pos ∧ res.1.sample = v.sample ∧
        res.1.freq = v.freq := by
  have hdt : 0 < 1 / sample_rate := by positivity
  induction n with
  | zero =>
    intro v hP _ _ _
    exact ⟨(v, []), rfl, rfl, by simp, hP, by simp, by simp, rfl, rfl, rfl, rfl⟩
  | succ n ih =>
    intro v hP h0 h1 ht
    push_cast at h1 ht
    have hn : (0 : ℝ) ≤ (n : ℝ) * step := by positivity
    have hn2 : (0 : ℝ) ≤ (n : ℝ) * (1 / sample_rate) := by positivity
    have hlt : v.sample_pos < (sample.size : ℝ) := by nlinarith
    obtain ⟨⟨v1, step1, l, r⟩, hrf, hst, hl, hr, hP1, hp1, ht1, hdl1, he1, hsm1, hf1⟩ :=
      renderFrame_plain sample data sample_rate step_ step v hd hones hP h0 hlt
        (by nlinarith)
    simp only at hst hl hr hP1 hp1 ht1 hdl1 he1 hsm1 hf1
    rw [hst] at hrf
    obtain ⟨⟨v2, out⟩, hrs, hlen2, hpos2, hP2, hp2, ht2, hdl2, he2, hsm2, hf2⟩ := ih v1 hP1
      (by rw [hp1]; linarith) (by rw [hp1]; nlinarith) (by rw [ht1, hdl1]; nlinarith)
    simp only at hlen2 hpos2 hP2 hp2 ht2 hdl2 he2 hsm2 hf2
    refine ⟨(v2, (l, r) :: out), ?_, by simp [hlen2], ?_, hP2, ?_, ?_, by rw [hdl2, hdl1],
      by rw [he2, he1], by rw [hsm2, hsm1], by rw [hf2, hf1]⟩
    · simp only [Voice.renderFrames, hlt, if_true, hrf, hrs]
    · intro x hx
      rcases List.mem_cons.mp hx with rfl | hx
      · exact ⟨hl, hr⟩
      · exact hpos2 x hx
    · rw [hp2, hp1]; push_cast; ring
    · rw [ht2, ht1]; push_cast; ring

/-- The call `Render` of a plain voice for frames that end inside a sample whose values
are all 1, while the volume envelope stays in the Delay phase. -/
theorem Render_plain (sf : SoundFont2) (v : Voice) (i : Nat) (sample : Sample)
    (data : List ℚ) (n : Nat) (sample_rate : ℝ)
    (hi : v.sample = some i) (hs : sf.samples[i]? = some sample)
    (hd : sample.data = some data) (hones : ∀ i, i < sample.size → data[i]? = some 1)
    (hs0 : 0 < v.freq / sample_rate) (hsr : 0 < sample_rate)
    (hP : v.Plain) (h0 : 0 ≤ v.sample_pos)
    (h1 : v.sample_pos + n * (v.freq / sample_rate) ≤ (sample.size : ℝ))
    (ht : v.volenv.time + n * (1 / sample_rate) < v.volenv.delay) :
    ∃ res, v.Render sf n sample_rate = some res ∧
      res.2.length = n ∧ (∀ x ∈ res.2, 0 < x.1 ∧ 0 < x.2) ∧ res.1.Plain ∧
      res.1.sample_pos = v.sample_pos + n * (v.freq / sample_rate) ∧
      res.1.volenv.time = v.volenv.time + n * (1 / sample_rate) ∧
      res.1.volenv.delay = v.volenv.delay ∧
      res.1.sample_end_pos = v.sample_end_pos ∧ res.1.sample = v.sample ∧
      res.1.freq = v.freq := by
  obtain ⟨res, hr, hrest⟩ := renderFrames_plain sample data sample_rate (v.freq / sample_rate)
    (v.freq / sample_rate) hd hones hs0 hsr n v hP h0 h1 ht
  cases n with
  | zero =>
    exact ⟨(v, []), rfl, rfl, by simp, hP, by simp, by simp, rfl, rfl, rfl, rfl⟩
  | succ n =>
    exact ⟨res, by simp only [Voice.Render, hi, hs, hr], hrest⟩

/-- The bank `shortenedBank` has only mono samples. -/
theorem shortenedBank_mono : AllLayersMono shortenedBank plainPreset.layers := by
  intro layer hl
  simp only [plainPreset, List.mem_singleton] at hl
  subst hl
  refine ⟨0, { splits := [shortenedSplit] }, rfl, rfl, ?_⟩
  intro split hs
  simp only [List.mem_singleton] at hs
  subst hs
  exact ⟨0, _, rfl, rfl, rfl⟩

/-- The voice of `shortenedSplit` at key 60, velocity 100 and 44100 Hz is a plain voice at
position 0 with `sample_end_pos = 2`, the frequency 44100 and a volume-envelope delay of
1 ms. -/
theorem shortened_voice :
    (monoVoice shortenedBank 44100 60 100 (plainLayer, shortenedSplit)).Plain ∧
    (monoVoice shortenedBank 44100 60 100 (plainLayer, shortenedSplit)).sample = some 0 ∧
    (monoVoice shortenedBank 44100 60 100 (plainLayer, shortenedSplit)).sample_pos = 0 ∧
    (monoVoice shortenedBank 44100 60 100 (plainLayer, shortenedSplit)).sample_end_pos = 2 ∧
    (monoVoice shortenedBank 44100 60 100 (plainLayer, shortenedSplit)).freq = 44100 ∧
    (monoVoice shortenedBank 44100 60 100 (plainLayer, shortenedSplit)).volenv.time = 0 ∧
    (monoVoice shortenedBank 44100 60 100 (plainLayer, shortenedSplit)).volenv.delay =
      1 / 1000 := by
  have hmv : monoVoice shortenedBank 44100 60 100 (plainLayer, shortenedSplit) =
      setupVoice 44100 plainLayer shortenedSplit 60 (tmpKey shortenedSplit 60)
        (tmpVel shortenedSplit 100) 0
        { sample_rate := 44100, original_key := 60, size := 4, data := some [1, 1, 1, 1] }
        0 {} := by
    simp [monoVoice, shortenedBank, shortenedSplit]
  have hk : tmpKey shortenedSplit 60 = 60 := by simp [tmpKey, shortenedSplit, newSplit]
  have hvl : tmpVel shortenedSplit 100 = 100 := by simp [tmpVel, shortenedSplit, newSplit]
  rw [hmv, hk, hvl]
  have hc := cents_to_hertz_octaves 12
  norm_num at hc
  have hw : wrap16 (0 + -12000) = -12000 := by decide
  have ht : timecents_to_seconds ((-12000 : Int) : ℝ) = 1 / 1000 := by
    simp [timecents_to_seconds]
  have hact := (setupVoice_lowpass_active 44100 plainLayer shortenedSplit 60 60 100 0
    { sample_rate := 44100, original_key := 60, size := 4, data := some [1, 1, 1, 1] }
    0 {}).2 (by
      refine ⟨?_, ?_, ?_⟩
      · simp [setupVoice, shortenedSplit, newSplit, plainLayer, hc]
        norm_num
      · simp [setupVoice, shortenedSplit, newSplit, plainLayer]
      · simp [setupVoice, shortenedSplit, newSplit, plainLayer])
  have hfreq := voiceFreq_root plainLayer shortenedSplit
    { sample_rate := 44100, original_key := 60, size := 4, data := some [1, 1, 1, 1] } 60
    (by decide) (by decide) (by decide)
  have hgain : 0 < decibels_to_gain (-(((0 : ℚ) : ℝ) + ((0 : ℚ) : ℝ)) * (4 / 10)) :=
    decibels_to_gain_pos _ (by norm_num) (by norm_num)
  have hclamp : clamp_panning ((0 : ℝ) + ((0 : ℚ) : ℝ) + ((0 : ℚ) : ℝ)) = 0 := by
    unfold clamp_panning
    norm_num
  refine ⟨⟨⟨shortenedSplit, rfl, rfl⟩, rfl, ?_, ?_, ?_, ?_, hact, rfl, ?_, ?_, ?_⟩, rfl, ?_, ?_,
    ?_, rfl, ?_⟩
  · simp [setupVoice, shortenedSplit, newSplit, plainLayer]
  · simp [setupVoice, shortenedSplit, newSplit, plainLayer]
  · simp [setupVoice, shortenedSplit, newSplit, plainLayer]
  · simp [setupVoice, shortenedSplit, newSplit, plainLayer]
  · have : (0 : ℝ) < ((100 : Nat) : ℝ) / 127 := by norm_num
    exact mul_pos hgain this
  · simp only [setupVoice, shortenedSplit, newSplit, plainLayer, hclamp, constant_power_pan]
    norm_num
  · simp only [setupVoice, shortenedSplit, newSplit, plainLayer, hclamp, constant_power_pan]
    norm_num
  · simp [setupVoice, shortenedSplit, newSplit]
  · simp [setupVoice, shortenedSplit, newSplit, toUInt32]
  · rw [setupVoice_freq, hfreq]
    norm_num
  · simp only [setupVoice, Env.ofEnvelopes, plainLayer, shortenedSplit, newSplit,
      Envelope.add, Envelope.SetToDefault, hw, ht]

/-- C13 (the code departs from the claim). For the split `shortenedSplit` of a sample of
four frames of value 1, with `endAddrsOffset = -2`, the call `GenerateVoices` at key 60,
velocity 100 and 44100 Hz builds one voice at position 0 with `sample_end_pos = 2`.
`Render` of 2 frames at 44100 Hz leaves it at position 2, which is `sample_end_pos`, and
a further `Render` of 2 frames renders both frames, adds a positive value to both outputs
in each of them and leaves the position at 4, the size of the sample: `sample_end_pos` is
not read, and the negative offset does not shorten playback. -/
theorem render_continues_past_sample_end_pos :
    ∃ c v v2 out2 v4 out4,
      GenerateVoices shortenedBank 1 plainPreset 60 100 44100 emptyPool = some c ∧
      c.elems = [v] ∧ v.sample_pos = 0 ∧ v.sample_end_pos = 2 ∧
      v.Render shortenedBank 2 44100 = some (v2, out2) ∧
      v2.sample_pos = 2 ∧ v2.sample_end_pos = 2 ∧
      v2.Render shortenedBank 2 44100 = some (v4, out4) ∧
      out4.length = 2 ∧ (∀ x ∈ out4, 0 < x.1 ∧ 0 < x.2) ∧ v4.sample_pos = 4 := by
  obtain ⟨c, h1, h2, _⟩ := layersLoop_mono shortenedBank 44100 1 60 100 (by decide)
    plainPreset.layers emptyPool shortenedBank_mono emptyPool_growable
  have hel : c.elems = [monoVoice shortenedBank 44100 60 100 (plainLayer, shortenedSplit)] := by
    rw [h2]
    simp [emptyPool, plainPreset, layerSplits, plainLayer, shortenedBank, pairInRange, inRange,
      shortenedSplit, newSplit]
  obtain ⟨hP, hsm, hp, hep, hf, hvt, hvd⟩ := shortened_voice
  have hones : ∀ i, i < 4 → ([1, 1, 1, 1] : List ℚ)[i]? = some 1 := by
    intro i hi
    interval_cases i <;> rfl
  obtain ⟨⟨v2, out2⟩, hr2, _, _, hP2, hp2, ht2, hd2, he2, hs2, hf2⟩ := Render_plain
    shortenedBank (monoVoice shortenedBank 44100 60 100 (plainLayer, shortenedSplit)) 0
    { sample_rate := 44100, original_key := 60, size := 4, data := some [1, 1, 1, 1] }
    [1, 1, 1, 1] 2 44100 hsm rfl rfl hones (by rw [hf]; norm_num) (by norm_num) hP
    (by rw [hp]) (by rw [hp, hf]; norm_num) (by rw [hvt, hvd]; norm_num)
  simp only at hP2 hp2 ht2 hd2 he2 hs2 hf2
  have hp2' : v2.sample_pos = 2 := by rw [hp2, hp, hf]; norm_num
  obtain ⟨⟨v4, out4⟩, hr4, hl4, hpos4, _, hp4, _⟩ := Render_plain
    shortenedBank v2 0
    { sample_rate := 44100, original_key := 60, size := 4, data := some [1, 1, 1, 1] }
    [1, 1, 1, 1] 2 44100 (by rw [hs2, hsm]) rfl rfl hones (by rw [hf2, hf]; norm_num)
    (by norm_num) hP2 (by rw [hp2']; norm_num) (by rw [hp2', hf2, hf]; norm_num)
    (by rw [ht2, hd2, hvt, hvd]; norm_num)
  simp only at hl4 hpos4 hp4
  refine ⟨c, _, v2, out2, v4, out4, h1, hel, hp, hep, hr2, hp2', by rw [he2, hep], hr4, hl4,
    hpos4, ?_⟩
  rw [hp4, hp2', hf2, hf]
  norm_num

/-! ## Theorems: rendering a channel -/

/-- The frames `renderFrames` returns are at most the frames asked for. -/
theorem renderFrames_length (sample : Sample) (sample_rate step_ : ℝ) (n : Nat) :
    ∀ (v : Voice) (step : ℝ) (res : Voice × List (ℝ × ℝ)),
      Voice.renderFrames sample sample_rate step_ n v step = some res → res.2.length ≤ n := by
  induction n with
  | zero =>
    intro v step res h
    simp only [Voice.renderFrames, Option.some.injEq] at h
    subst h
    simp
  | succ n ih =>
    intro v step res h
    simp only [Voice.renderFrames] at h
    split_ifs at h with hlt
    · cases hrf : v.renderFrame sample sample_rate step_ step with
      | none => simp [hrf] at h
      | some r =>
        obtain ⟨v1, step1, l, r⟩ := r
        simp only [hrf] at h
        cases hrs : Voice.renderFrames sample sample_rate step_ n v1 step1 with
        | none => simp [hrs] at h
        | some r2 =>
          obtain ⟨v2, added⟩ := r2
          simp only [hrs, Option.some.injEq] at h
          subst h
          have := ih v1 step1 _ hrs
          simp only [List.length_cons] at this ⊢
          omega
    · simp only [Option.some.injEq] at h
      subst h
      simp

/-- The frames `Render` returns are at most the frames asked for. -/
theorem Render_length (sf : SoundFont2) (v : Voice) (size : Nat) (sample_rate : ℝ)
    (res : Voice × List (ℝ × ℝ)) (h : v.Render sf size sample_rate = some res) :
    res.2.length ≤ size := by
  cases size with
  | zero =>
    simp only [Voice.Render, Option.some.injEq] at h
    subst h
    simp
  | succ n =>
    simp only [Voice.Render] at h
    cases hs : v.sample with
    | none => simp [hs] at h
    | some i =>
      simp only [hs] at h
      cases hsm : sf.samples[i]? with
      | none => simp [hsm] at h
      | some sample =>
        simp only [hsm] at h
        exact renderFrames_length sample sample_rate _ (n + 1) v _ res h

/-- Adding at most as many frames as the buffer holds returns a buffer of the same
length. -/
theorem addOutput_some (output added : List ℝ) (h : added.length ≤ output.length) :
    ∃ out, addOutput output added = some out ∧ out.length = output.length := by
  refine ⟨List.zipWith (fun o a => o + a) output
    (added ++ List.replicate (output.length - added.length) 0),
    by simp only [addOutput, h, if_true], ?_⟩
  simp
  omega

/-- Erasing the slot after `pre` in a pool `pre ++ v :: tail` leaves `pre` followed by a
permutation of `tail`. -/
theorem erase_spec (p : DynamicPool Voice) (pre tail : List Voice) (v : Voice)
    (h : p.elems = pre ++ v :: tail) :
    ∃ p' rest, p.erase pre.length = some p' ∧ p'.elems = pre ++ rest ∧ rest.Perm tail ∧
      p'.capacity = p.capacity ∧ p'.resize_len = p.resize_len := by
  rcases List.eq_nil_or_concat tail with rfl | ⟨L, b, hLb⟩
  · refine ⟨{ p with elems := pre }, [], ?_, by simp, List.Perm.refl _, rfl, rfl⟩
    simp [DynamicPool.erase, h, DynamicPool.size]
  · rw [List.concat_eq_append] at hLb
    subst hLb
    refine ⟨{ p with elems := pre ++ b :: L }, b :: L, ?_, rfl, ?_, rfl, rfl⟩
    · have hl : (pre ++ v :: (L ++ [b])).getLast? = some b := by
        rw [show pre ++ v :: (L ++ [b]) = (pre ++ v :: L) ++ [b] by simp]
        exact List.getLast?_concat _
      have hset : ((pre ++ v :: (L ++ [b])).set pre.length b).dropLast = pre ++ b :: L := by
        rw [List.set_append_right _ _ (le_refl _)]
        simp only [Nat.sub_self, List.set_cons_zero]
        rw [show pre ++ b :: (L ++ [b]) = (pre ++ b :: L) ++ [b] by simp]
        exact List.dropLast_concat
      have hsz : pre.length < p.size := by
        simp only [DynamicPool.size, h, List.length_append, List.length_cons]
        omega
      unfold DynamicPool.erase
      rw [h, hl]
      simp only [← h, hsz, if_true]
      rw [h, hset]
    · exact (List.perm_append_singleton b L).symm

/-- The loop of `Channel::Render` from the slot after `pre`, when the pool is `pre ++ rest`,
every voice of `rest` can be rendered, and the buffers hold `size` frames: the loop
returns; the voices it rendered, each once, are a permutation of `rest`; their frames were
added to the buffers in the order of rendering; and the pool is `pre` followed by a
permutation of the rendered voices that are not done. -/
theorem renderLoop_spec (sf : SoundFont2) (size : Nat) (sample_rate : ℝ) (fuel : Nat) :
    ∀ (pre rest : List Voice) (pool : DynamicPool Voice) (out_L out_R : List ℝ),
      pool.elems = pre ++ rest → rest.length ≤ fuel →
      (∀ v ∈ rest, ∃ v1 added done,
        v.Render sf size sample_rate = some (v1, added) ∧ v1.IsDone sf = some done) →
      size ≤ out_L.length → size ≤ out_R.length →
      ∃ (pool' : DynamicPool Voice) (oL oR : List ℝ)
        (rendered : List (Voice × Voice × List (ℝ × ℝ))) (kept : List Voice),
        renderLoop sf size sample_rate fuel pre.length pool out_L out_R = some (pool', oL, oR) ∧
        (rendered.map (fun t => t.1)).Perm rest ∧
        (∀ t ∈ rendered, t.1.Render sf size sample_rate = some (t.2.1, t.2.2)) ∧
        mixOutputs out_L out_R (rendered.map (fun t => t.2.2)) = some (oL, oR) ∧
        pool'.elems = pre ++ kept ∧
        kept.Perm ((rendered.map (fun t => t.2.1)).filter (Voice.notDone sf)) := by
  induction fuel with
  | zero =>
    intro pre rest pool out_L out_R hel hlen _ _ _
    have hrest : rest = [] := List.length_eq_zero.mp (Nat.le_zero.mp hlen)
    subst hrest
    have hget : pool.elems[pre.length]? = none := by
      rw [hel]; simp
    refine ⟨pool, out_L, out_R, [], [], ?_, by simp, by simp, rfl, by simpa using hel, by simp⟩
    rw [renderLoop]
    simp only [hget]
  | succ f ih =>
    intro pre rest pool out_L out_R hel hlen hren hL hR
    cases rest with
    | nil =>
      have hget : pool.elems[pre.length]? = none := by
        rw [hel]; simp
      refine ⟨pool, out_L, out_R, [], [], ?_, by simp, by simp, rfl, by simpa using hel,
        by simp⟩
      rw [renderLoop]
      simp only [hget]
    | cons v tail =>
      have hget : pool.elems[pre.length]? = some v := by
        rw [hel, List.getElem?_append_right (le_refl _)]
        simp
      obtain ⟨v1, added, done, hrender, hdone⟩ := hren v (List.mem_cons_self _ _)
      have hadd := Render_length sf v size sample_rate _ hrender
      simp only at hadd
      obtain ⟨oL1, haL, hlL⟩ := addOutput_some out_L (added.map Prod.fst)
        (by rw [List.length_map]; omega)
      obtain ⟨oR1, haR, hlR⟩ := addOutput_some out_R (added.map Prod.snd)
        (by rw [List.length_map]; omega)
      have hset : pool.elems.set pre.length v1 = pre ++ v1 :: tail := by
        rw [hel, List.set_append_right _ _ (le_refl _)]
        simp
      have htl : tail.length ≤ f := by
        simp only [List.length_cons] at hlen
        omega
      have hren' : ∀ u ∈ tail, ∃ v1 added done,
          u.Render sf size sample_rate = some (v1, added) ∧ v1.IsDone sf = some done :=
        fun u hu => hren u (List.mem_cons_of_mem _ hu)
      rw [renderLoop]
      simp only [hget, hrender, haL, haR, hdone, hset]
      cases done with
      | false =>
        obtain ⟨pool', oL, oR, rendered, kept, hloop, hperm, hall, hmix, hpel, hkept⟩ :=
          ih (pre ++ [v1]) tail { pool with elems := pre ++ v1 :: tail } oL1 oR1 (by simp) htl
            hren' (by omega) (by omega)
        have hidx : pre.length + 1 = (pre ++ [v1]).length := by simp
        refine ⟨pool', oL, oR, (v, v1, added) :: rendered, v1 :: kept, ?_, ?_, ?_, ?_, ?_, ?_⟩
        · simp only [Bool.false_eq_true, if_false, hidx]
          exact hloop
        · simpa using hperm
        · intro t ht
          rcases List.mem_cons.mp ht with rfl | ht
          · exact hrender
          · exact hall t ht
        · simp only [List.map_cons, mixOutputs, haL, haR]
          exact hmix
        · rw [hpel]; simp
        · have hnd : Voice.notDone sf v1 = true := by simp [Voice.notDone, hdone]
          simp only [List.map_cons, List.filter_cons, hnd, if_true]
          exact List.Perm.cons _ hkept
      | true =>
        obtain ⟨p', rest', herase, hpel', hperm', _, _⟩ := erase_spec
          { pool with elems := pre ++ v1 :: tail } pre tail v1 rfl
        obtain ⟨pool', oL, oR, rendered, kept, hloop, hperm, hall, hmix, hpel, hkept⟩ :=
          ih pre rest' p' oL1 oR1 hpel' (by rw [hperm'.length_eq]; exact htl)
            (fun u hu => hren' u (hperm'.subset hu)) (by omega) (by omega)
        refine ⟨pool', oL, oR, (v, v1, added) :: rendered, kept, ?_, ?_, ?_, ?_, hpel, ?_⟩
        · simp only [if_true, herase]
          exact hloop
        · simp only [List.map_cons]
          exact List.Perm.cons _ (hperm.trans hperm')
        · intro t ht
          rcases List.mem_cons.mp ht with rfl | ht
          · exact hrender
          · exact hall t ht
        · simp only [List.map_cons, mixOutputs, haL, haR]
          exact hmix
        · have hnd : Voice.notDone sf v1 = false := by simp [Voice.notDone, hdone]
          simp only [List.map_cons, List.filter_cons, hnd]
          simpa using hkept

/-- C11. For a channel with a bank, a pool in which every voice can be rendered (its
sample and split are there and its sample data covers the frames read), buffers that hold
`size` frames and enough rounds for the loop, `Channel.Render` returns; the voices it
rendered, each exactly once, are a permutation of the pool at entry; their frames were
added to the output buffers; and the pool at return is a permutation of the rendered voices
for which `IsDone` is false, so no remaining voice is done and no voice that is not done
was removed. -/
theorem Channel_Render_each_voice_once (ch : Channel) (sf : SoundFont2) (fuel size : Nat)
    (sample_rate : ℝ) (output_L output_R : List ℝ)
    (hsf : ch.sf = some sf) (hf : ch.voices.elems.length ≤ fuel)
    (hL : size ≤ output_L.length) (hR : size ≤ output_R.length)
    (hr : ∀ v ∈ ch.voices.elems, ∃ v1 added done,
      v.Render sf size sample_rate = some (v1, added) ∧ v1.IsDone sf = some done) :
    ∃ (ch' : Channel) (out_L out_R : List ℝ)
      (rendered : List (Voice × Voice × List (ℝ × ℝ))),
      ch.Render fuel output_L output_R size sample_rate = some (ch', out_L, out_R) ∧
      (rendered.map (fun t => t.1)).Perm ch.voices.elems ∧
      (∀ t ∈ rendered, t.1.Render sf size sample_rate = some (t.2.1, t.2.2)) ∧
      mixOutputs output_L output_R (rendered.map (fun t => t.2.2)) = some (out_L, out_R) ∧
      ch'.voices.elems.Perm ((rendered.map (fun t => t.2.1)).filter (Voice.notDone sf)) ∧
      (∀ v ∈ ch'.voices.elems, v.IsDone sf = some false) := by
  obtain ⟨pool', oL, oR, rendered, kept, hloop, hperm, hall, hmix, hpel, hkept⟩ :=
    renderLoop_spec sf size sample_rate fuel [] ch.voices.elems ch.voices output_L output_R
      rfl hf hr hL hR
  simp only [List.length_nil, List.nil_append] at hloop hpel
  refine ⟨{ ch with voices := pool' }, oL, oR, rendered, ?_, hperm, hall, hmix, ?_, ?_⟩
  · simp only [Channel.Render, hsf, Option.getD_some, hloop]
  · rw [hpel]; exact hkept
  · intro v hv
    simp only at hv
    rw [hpel] at hv
    have hm := hkept.subset hv
    rw [List.mem_filter] at hm
    have hnd := hm.2
    unfold Voice.notDone at hnd
    cases hd : v.IsDone sf with
    | none => simp [hd] at hnd
    | some d =>
      cases d with
      | false => rfl
      | true => simp [hd] at hnd

/-- C11 on `twoVoiceChannel` for buffers of two frames: both voices are at the end of
their sample, the released one is done and the held one is not. -/
theorem Channel_Render_each_voice_once_witness :
    ∃ (ch' : Channel) (out_L out_R : List ℝ)
      (rendered : List (Voice × Voice × List (ℝ × ℝ))),
      twoVoiceChannel.Render 2 [0, 0] [0, 0] 2 44100 = some (ch', out_L, out_R) ∧
      (rendered.map (fun t => t.1)).Perm twoVoiceChannel.voices.elems ∧
      (∀ t ∈ rendered, t.1.Render fourFrameBank 2 44100 = some (t.2.1, t.2.2)) ∧
      mixOutputs [0, 0] [0, 0] (rendered.map (fun t => t.2.2)) = some (out_L, out_R) ∧
      ch'.voices.elems.Perm
        ((rendered.map (fun t => t.2.1)).filter (Voice.notDone fourFrameBank)) ∧
      (∀ v ∈ ch'.voices.elems, v.IsDone fourFrameBank = some false) :=
  Channel_Render_each_voice_once twoVoiceChannel fourFrameBank 2 2 44100 [0, 0] [0, 0] rfl
    (by decide) (by decide) (by decide)
    (by
      have hs : fourFrameBank.samples[0]? = some
        { sample_rate := 44100, original_key := 60, size := 4, data := some [1, 1, 1, 1] } :=
        rfl
      intro v hv
      simp only [twoVoiceChannel, List.mem_cons, List.mem_singleton, List.not_mem_nil,
        or_false] at hv
      rcases hv with rfl | rfl
      · refine ⟨releasedVoiceAtEnd, [], true, ?_, ?_⟩
        · have h0 : releasedVoiceAtEnd.sample = some 0 := rfl
          have hp : ¬ releasedVoiceAtEnd.sample_pos < ((4 : Nat) : ℝ) := by
            norm_num [releasedVoiceAtEnd]
          simp only [Voice.Render, h0, hs, Voice.renderFrames, hp, if_false]
        · simp [Voice.IsDone, releasedVoiceAtEnd, hs]
      · refine ⟨heldVoiceAtEnd, [], false, ?_, ?_⟩
        · have h0 : heldVoiceAtEnd.sample = some 0 := rfl
          have hp : ¬ heldVoiceAtEnd.sample_pos < ((4 : Nat) : ℝ) := by
            norm_num [heldVoiceAtEnd]
          simp only [Voice.Render, h0, hs, Voice.renderFrames, hp, if_false]
        · simp [Voice.IsDone, heldVoiceAtEnd, hs])

/-! ## Theorems: decibels and gain -/

/-- The logarithm of 10 lies between 2.30249 and 2.30268. -/
theorem log_ten_bounds : 230249 / 100000 < Real.log 10 ∧ Real.log 10 < 230268 / 100000 := by
  have h2lo := Real.log_two_gt_d9
  have h2hi := Real.log_two_lt_d9
  have h1024 : Real.log 1024 = 10 * Real.log 2 := by
    have : (1024 : ℝ) = 2 ^ 10 := by norm_num
    rw [this, Real.log_pow]
    norm_num
  have h1000 : Real.log 1000 = 3 * Real.log 10 := by
    have : (1000 : ℝ) = 10 ^ 3 := by norm_num
    rw [this, Real.log_pow]
    norm_num
  have hq : Real.log (1024 / 1000) = Real.log 1024 - Real.log 1000 :=
    Real.log_div (by norm_num) (by norm_num)
  have hup : Real.log (1024 / 1000) ≤ 1024 / 1000 - 1 :=
    Real.log_le_sub_one_of_pos (by norm_num)
  have hlo : 1 - (1024 / 1000 : ℝ)⁻¹ ≤ Real.log (1024 / 1000) :=
    Real.one_sub_inv_le_log_of_pos (by norm_num)
  norm_num at hup hlo h2lo h2hi
  constructor <;> linarith

/-- The logarithm of `1 + f` for `f` in `[0, 1]` lies between `f · log 2` and
`(f + 1/8) · log 2`. -/
theorem log_one_add_bounds (f : ℝ) (h0 : 0 ≤ f) (h1 : f ≤ 1) :
    f * Real.log 2 ≤ Real.log (1 + f) ∧ Real.log (1 + f) ≤ (f + 1 / 8) * Real.log 2 := by
  have h2lo := Real.log_two_gt_d9
  norm_num at h2lo
  constructor
  · have hc := strictConcaveOn_log_Ioi.concaveOn.2 (show (2 : ℝ) ∈ Set.Ioi 0 by norm_num)
      (show (1 : ℝ) ∈ Set.Ioi 0 by norm_num) h0 (show 0 ≤ 1 - f by linarith) (by ring)
    simp only [smul_eq_mul, Real.log_one, mul_zero, add_zero, mul_one] at hc
    have he : f * 2 + (1 - f) = 1 + f := by ring
    rw [he] at hc
    exact hc
  · have hy0 : 0 ≤ (f + 1 / 8) * (6931 / 10000 : ℝ) := by positivity
    have hy : (f + 1 / 8) * (6931 / 10000 : ℝ) ≤ (f + 1 / 8) * Real.log 2 := by
      apply mul_le_mul_of_nonneg_left _ (by linarith)
      linarith
    have hexp := Real.quadratic_le_exp_of_nonneg hy0
    have hpoly : 1 + f ≤ 1 + (f + 1 / 8) * (6931 / 10000 : ℝ) +
        ((f + 1 / 8) * (6931 / 10000 : ℝ)) ^ 2 / 2 := by
      nlinarith [sq_nonneg (f - 1 / 2)]
    have hle : 1 + f ≤ Real.exp ((f + 1 / 8) * (6931 / 10000 : ℝ)) := le_trans hpoly hexp
    have hlog : Real.log (1 + f) ≤ (f + 1 / 8) * (6931 / 10000 : ℝ) := by
      have := Real.log_le_log (by linarith : (0 : ℝ) < 1 + f) hle
      rwa [Real.log_exp] at this
    linarith

/-- The logarithm of the `double` with the upper word `h` from the normal range lies
between `(h / 2^20 - 1023) · log 2` and that plus `log 2 / 8`. -/
theorem log_doubleOfUpperWord (h : Int) (h1 : 1048576 ≤ h) (h2 : h < 2147483648) :
    ((h : ℝ) / 1048576 - 1023) * Real.log 2 ≤ Real.log (doubleOfUpperWord h) ∧
    Real.log (doubleOfUpperWord h) ≤ ((h : ℝ) / 1048576 - 1023 + 1 / 8) * Real.log 2 := by
  unfold doubleOfUpperWord
  have hb : h % 2147483648 = h := Int.emod_eq_of_lt (by omega) h2
  simp only [hb]
  have he : h / 1048576 ≠ 0 := by omega
  rw [if_neg he, if_neg (by omega)]
  have hm0 : (0 : ℝ) ≤ ((h % 1048576 : Int) : ℝ) := by
    have : (0 : Int) ≤ h % 1048576 := Int.emod_nonneg _ (by norm_num)
    exact_mod_cast this
  have hm1 : ((h % 1048576 : Int) : ℝ) ≤ 1048576 := by
    have : h % 1048576 < 1048576 := Int.emod_lt_of_pos _ (by norm_num)
    exact_mod_cast this.le
  have hsplit : (h : ℝ) = ((h / 1048576 : Int) : ℝ) * 1048576 + ((h % 1048576 : Int) : ℝ) := by
    have : h = h / 1048576 * 1048576 + h % 1048576 := by omega
    exact_mod_cast this
  have hf0 : (0 : ℝ) ≤ ((h % 1048576 : Int) : ℝ) / 1048576 := by positivity
  have hf1 : ((h % 1048576 : Int) : ℝ) / 1048576 ≤ 1 := by
    rw [div_le_one (by norm_num)]
    exact hm1
  obtain ⟨hlo, hhi⟩ := log_one_add_bounds _ hf0 hf1
  have hz : (0 : ℝ) < (2 : ℝ) ^ (h / 1048576 - 1023) := zpow_pos (by norm_num) _
  have hlog : Real.log ((1 + ((h % 1048576 : Int) : ℝ) / 1048576) *
      (2 : ℝ) ^ (h / 1048576 - 1023)) =
      Real.log (1 + ((h % 1048576 : Int) : ℝ) / 1048576) +
        (((h / 1048576 - 1023 : Int)) : ℝ) * Real.log 2 := by
    rw [Real.log_mul (by positivity) hz.ne', Real.log_zpow]
  rw [hlog]
  have hu : (h : ℝ) / 1048576 - 1023 =
      ((h % 1048576 : Int) : ℝ) / 1048576 + (((h / 1048576 - 1023 : Int)) : ℝ) := by
    rw [hsplit]
    push_cast
    field_simp
    ring
  rw [hu]
  constructor
  · nlinarith
  · nlinarith

/-- The gain `decibels_to_gain` returns between -100 dB and 20 dB is the `double` with an
upper word `h` from the normal range, where `h` is within 1 below the linear expression
`db · 3468673 / 20 + 1072632447`. -/
theorem decibels_to_gain_word (db : ℝ) (h1 : -100 < db) (h2 : db ≤ 20) :
    ∃ h : Int, decibels_to_gain db = doubleOfUpperWord h ∧ 1048576 ≤ h ∧ h < 2147483648 ∧
      (h : ℝ) ≤ db * (3468673 / 20) + 1072632447 ∧
      db * (3468673 / 20) + 1072632447 < (h : ℝ) + 1 := by
  have hx : db * (5 / 100) * (((1076101120 : Int) : ℝ) - 1072632447) + 1072632447 =
      db * (3468673 / 20) + 1072632447 := by
    push_cast
    ring
  have hx0 : (0 : ℝ) ≤ db * (3468673 / 20) + 1072632447 := by linarith
  refine ⟨⌊db * (3468673 / 20) + 1072632447⌋, ?_, ?_, ?_, Int.floor_le _, Int.lt_floor_add_one _⟩
  · unfold decibels_to_gain fastPow truncToInt
    rw [if_pos h1, hx, if_pos hx0]
  · exact Int.le_floor.2 (by push_cast; linarith)
  · exact Int.floor_lt.2 (by push_cast; linarith)

/-- C21 as stated fails. At 0 dB `decibels_to_gain` returns 2036351/2097152, about 0.971,
and `gain_to_decibels` of that is below -0.25 dB: the round trip is off by more than a
quarter of a decibel, not by less than 0.001. -/
theorem decibel_round_trip_off_at_zero :
    decibels_to_gain 0 = 2036351 / 2097152 ∧
    gain_to_decibels (decibels_to_gain 0) < -(1 / 4) ∧
    ¬ |gain_to_decibels (decibels_to_gain 0) - 0| < 1 / 1000 := by
  have hg : decibels_to_gain 0 = 2036351 / 2097152 := by
    have hfl : truncToInt ((0 : ℝ) * (5 / 100) * (((1076101120 : Int) : ℝ) - 1072632447) +
        1072632447) = 1072632447 := by
      unfold truncToInt
      have : (0 : ℝ) * (5 / 100) * (((1076101120 : Int) : ℝ) - 1072632447) + 1072632447 =
          ((1072632447 : Int) : ℝ) := by
        push_cast
        ring
      rw [this, if_pos (by positivity), Int.floor_intCast]
    unfold decibels_to_gain fastPow
    rw [if_pos (by norm_num), hfl]
    unfold doubleOfUpperWord
    norm_num
  have hT := log_ten_bounds
  have hlog : Real.log (2036351 / 2097152) ≤ 2036351 / 2097152 - 1 :=
    Real.log_le_sub_one_of_pos (by norm_num)
  have hlt : gain_to_decibels (decibels_to_gain 0) < -(1 / 4) := by
    rw [hg]
    unfold gain_to_decibels
    rw [if_neg (by norm_num)]
    rw [← Real.log_div_log]
    have hTpos : 0 < Real.log 10 := by linarith [hT.1]
    have : Real.log (2036351 / 2097152) / Real.log 10 < -(1 / 80) := by
      rw [div_lt_iff₀ hTpos]
      nlinarith [hT.2]
    linarith
  refine ⟨hg, hlt, ?_⟩
  intro habs
  rw [abs_lt] at habs
  linarith [habs.1]

/-- C21, amended. For every `db` with -100 < db ≤ 20, the decibel value
`gain_to_decibels` returns for the gain `decibels_to_gain` computes (through `fastPow`)
differs from `db` by less than 1 dB. -/
theorem decibel_round_trip_within_one (db : ℝ) (h1 : -100 < db) (h2 : db ≤ 20) :
    |gain_to_decibels (decibels_to_gain db) - db| < 1 := by
  obtain ⟨h, hg, hh1, hh2, hle, hlt⟩ := decibels_to_gain_word db h1 h2
  obtain ⟨hlo, hhi⟩ := log_doubleOfUpperWord h hh1 hh2
  obtain ⟨hTlo, hThi⟩ := log_ten_bounds
  have hLlo := Real.log_two_gt_d9
  have hLhi := Real.log_two_lt_d9
  norm_num at hLlo hLhi
  have hTpos : 0 < Real.log 10 := by linarith
  have hLpos : 0 < Real.log 2 := by linarith
  rw [hg]
  -- bounds of `u = h / 2^20 - 1023`
  have hu_hi : (h : ℝ) / 1048576 - 1023 ≤ db * (3468673 / 20971520) - 60801 / 1048576 := by
    have : (h : ℝ) / 1048576 ≤ (db * (3468673 / 20) + 1072632447) / 1048576 :=
      div_le_div_of_nonneg_right hle (by norm_num)
    linarith
  have hu_lo : db * (3468673 / 20971520) - 60802 / 1048576 < (h : ℝ) / 1048576 - 1023 := by
    have : (db * (3468673 / 20) + 1072632447 - 1) / 1048576 < (h : ℝ) / 1048576 :=
      div_lt_div_of_pos_right (by linarith) (by norm_num)
    linarith
  -- the slope mismatch `A · log 2 - log 10`
  have hk_lo : -(98 / 10000) < 3468673 / 1048576 * Real.log 2 - Real.log 10 := by linarith
  have hk_hi : 3468673 / 1048576 * Real.log 2 - Real.log 10 < -(95 / 10000) := by linarith
  have hp1 : 20 * (3468673 / 1048576 * Real.log 2 - Real.log 10) ≤
      db * (3468673 / 1048576 * Real.log 2 - Real.log 10) := by nlinarith
  have hp2 : db * (3468673 / 1048576 * Real.log 2 - Real.log 10) <
      -100 * (3468673 / 1048576 * Real.log 2 - Real.log 10) := by nlinarith
  have hlow : (db * (3468673 / 20971520) - 60802 / 1048576) * Real.log 2 <
      Real.log (doubleOfUpperWord h) :=
    lt_of_lt_of_le (mul_lt_mul_of_pos_right hu_lo hLpos) hlo
  have hupp : Real.log (doubleOfUpperWord h) ≤
      (db * (3468673 / 20971520) - 60801 / 1048576 + 1 / 8) * Real.log 2 :=
    le_trans hhi (mul_le_mul_of_nonneg_right (by linarith) hLpos.le)
  -- the gain is above the threshold of `gain_to_decibels`
  have hpos : 0 < doubleOfUpperWord h := doubleOfUpperWord_pos h hh1 hh2
  have hthr : ¬ doubleOfUpperWord h ≤ 1 / 100000 := by
    intro hle5
    have hl := Real.log_le_log hpos hle5
    have h5 : Real.log (1 / 100000) = -(5 * Real.log 10) := by
      have : (1 / 100000 : ℝ) = (10 ^ 5)⁻¹ := by norm_num
      rw [this, Real.log_inv, Real.log_pow]
      norm_num
    rw [h5] at hl
    nlinarith
  unfold gain_to_decibels
  rw [if_neg hthr, ← Real.log_div_log]
  have e1 : 20 * (Real.log (doubleOfUpperWord h) / Real.log 10) - db =
      (20 * Real.log (doubleOfUpperWord h) - db * Real.log 10) / Real.log 10 := by
    field_simp
    ring
  rw [e1, abs_lt]
  constructor
  · rw [lt_div_iff₀ hTpos]
    linarith
  · rw [div_lt_iff₀ hTpos]
    linarith

/-- C21, amended, at 20 dB. -/
theorem decibel_round_trip_within_one_witness :
    |gain_to_decibels (decibels_to_gain 20) - 20| < 1 :=
  decibel_round_trip_within_one 20 (by norm_num) (le_refl 20)

/-! ## Theorems: panning -/

/-- C22 as stated fails. At the centre (pan 0) both factors are the constant `sqrt2_2`,
the binary32 value 11863283/2^24 of `0.70710678f`, and the sum of their squares is
11863283²/2^47 = 0.99999996577…, not 0.5. -/
theorem pan_power_at_centre_is_not_half :
    (constant_power_pan 0).1 = 11863283 / 16777216 ∧
    (constant_power_pan 0).2 = 11863283 / 16777216 ∧
    (constant_power_pan 0).1 ^ 2 + (constant_power_pan 0).2 ^ 2 ≠ 1 / 2 := by
  have h1 : (constant_power_pan 0).1 = 11863283 / 16777216 := by
    simp [constant_power_pan]
  have h2 : (constant_power_pan 0).2 = 11863283 / 16777216 := by
    simp [constant_power_pan]
  refine ⟨h1, h2, ?_⟩
  rw [h1, h2]
  norm_num

/-- C22, amended. For every real pan value the factors `(L, R)` of `constant_power_pan`
satisfy `L² + R² = 2 · (11863283/2^24)²`, where 11863283/2^24 is the binary32 value of the
constant `0.70710678f`; this sum is 140737483538089/2^47 = 0.99999996577…, which is below 1
by more than 3e-8 and less than 4e-8. -/
theorem constant_power_pan_power (pan : ℝ) :
    (constant_power_pan pan).1 ^ 2 + (constant_power_pan pan).2 ^ 2 =
      2 * (11863283 / 16777216) ^ 2 ∧
    (constant_power_pan pan).1 ^ 2 + (constant_power_pan pan).2 ^ 2 =
      140737483538089 / 140737488355328 ∧
    3 / 100000000 < 1 - ((constant_power_pan pan).1 ^ 2 + (constant_power_pan pan).2 ^ 2) ∧
    1 - ((constant_power_pan pan).1 ^ 2 + (constant_power_pan pan).2 ^ 2) < 4 / 100000000 := by
  have h : (constant_power_pan pan).1 ^ 2 + (constant_power_pan pan).2 ^ 2 =
      2 * (11863283 / 16777216) ^ 2 := by
    simp only [constant_power_pan]
    have hcs := Real.sin_sq_add_cos_sq (pan * (2 * Real.pi) * (125 / 1000))
    nlinarith
  refine ⟨h, ?_, ?_, ?_⟩
  · rw [h]; norm_num
  · rw [h]; norm_num
  · rw [h]; norm_num

/-- C23 (the code departs from the claim). The function `clamp_panning` maps -1.5 to 3.5,
-2 to 4 and -5 to 4, all outside [-1, 1]: below -1 it returns `-(-2 + pan) = 2 - pan`
where the fold back into [-1, 1] is `-2 - pan`. -/
theorem clamp_panning_below_minus_one :
    clamp_panning (-(3 / 2)) = 7 / 2 ∧ clamp_panning (-2) = 4 ∧ clamp_panning (-5) = 4 ∧
    ¬ (-1 ≤ clamp_panning (-(3 / 2)) ∧ clamp_panning (-(3 / 2)) ≤ 1) := by
  have h1 : clamp_panning (-(3 / 2)) = 7 / 2 := by
    unfold clamp_panning
    norm_num
  have h2 : clamp_panning (-2) = 4 := by
    unfold clamp_panning
    norm_num
  have h3 : clamp_panning (-5) = 4 := by
    unfold clamp_panning
    norm_num
  refine ⟨h1, h2, h3, ?_⟩
  rw [h1]
  norm_num

/-! ## Theorems: decoding of sample data -/

/-- The `int16_t` of two bytes lies between -32768 and 32767. -/
theorem toInt16_range (lo hi : Nat) : -32768 ≤ toInt16 lo hi ∧ toInt16 lo hi ≤ 32767 := by
  unfold toInt16
  dsimp only
  split_ifs <;> omega

/-- The shifted 24-bit value is the 16-bit value times 256 plus the `sm24` byte. -/
theorem shift24_eq (lo hi b : Nat) :
    shift24 lo hi b = toInt16 lo hi * 256 + ((b % 256 : Nat) : Int) := by
  unfold shift24 toInt16
  dsimp only
  split_ifs <;> omega

/-- C27 as stated fails. The 16-bit word 0x8000 (bytes 0x00, 0x80) is the value -32768;
the 16-bit path decodes it to -32768/32767 and the 24-bit path, with the low byte 0, to
-8388608/8388607, both below -1. -/
theorem most_negative_sample_below_minus_one :
    toInt16 0 128 = -32768 ∧
    sample16 0 128 = -32768 / 32767 ∧ sample16 0 128 < -1 ∧
    sample24 0 128 0 = -8388608 / 8388607 ∧ sample24 0 128 0 < -1 := by
  have h16 : toInt16 0 128 = -32768 := by decide
  have h24 : shift24 0 128 0 = -8388608 := by decide
  refine ⟨h16, ?_, ?_, ?_, ?_⟩
  · simp only [sample16, h16]; norm_num
  · simp only [sample16, h16]; norm_num
  · simp only [sample24, h24]; norm_num
  · simp only [sample24, h24]; norm_num

/-- C27, amended. For every 16-bit sample word (bytes `lo`, `hi`) with the signed value
`s`, the 16-bit path yields `s / 32767`, which lies in [-32768/32767, 1] and is in [-1, 1]
exactly when `s ≠ -32768`; for every such word and every `sm24` byte `b`, the 24-bit path
yields `(s · 256 + b) / 8388607`, which lies in [-8388608/8388607, 1] and is in [-1, 1]
exactly when the 24-bit value is not -8388608. -/
theorem decoded_sample_range (lo hi b : Nat) :
    sample16 lo hi = (toInt16 lo hi : ℚ) / 32767 ∧
    -32768 / 32767 ≤ sample16 lo hi ∧ sample16 lo hi ≤ 1 ∧
    ((-1 ≤ sample16 lo hi ∧ sample16 lo hi ≤ 1) ↔ toInt16 lo hi ≠ -32768) ∧
    sample24 lo hi b = ((toInt16 lo hi * 256 + ((b % 256 : Nat) : Int) : Int) : ℚ) / 8388607 ∧
    -8388608 / 8388607 ≤ sample24 lo hi b ∧ sample24 lo hi b ≤ 1 ∧
    ((-1 ≤ sample24 lo hi b ∧ sample24 lo hi b ≤ 1) ↔
      toInt16 lo hi * 256 + ((b % 256 : Nat) : Int) ≠ -8388608) := by
  obtain ⟨hlo, hhi⟩ := toInt16_range lo hi
  have hb : ((b % 256 : Nat) : Int) < 256 := by omega
  have hb0 : (0 : Int) ≤ ((b % 256 : Nat) : Int) := by omega
  have h24 := shift24_eq lo hi b
  have hlo24 : -8388608 ≤ shift24 lo hi b := by omega
  have hhi24 : shift24 lo hi b ≤ 8388607 := by omega
  have qlo : (-32768 : ℚ) ≤ (toInt16 lo hi : ℚ) := by exact_mod_cast hlo
  have qhi : (toInt16 lo hi : ℚ) ≤ 32767 := by exact_mod_cast hhi
  have qlo24 : (-8388608 : ℚ) ≤ (shift24 lo hi b : ℚ) := by exact_mod_cast hlo24
  have qhi24 : (shift24 lo hi b : ℚ) ≤ 8388607 := by exact_mod_cast hhi24
  refine ⟨rfl, ?_, ?_, ?_, ?_, ?_, ?_, ?_⟩
  · unfold sample16
    rw [div_le_div_iff_of_pos_right (by norm_num)]
    exact qlo
  · unfold sample16
    rw [div_le_one (by norm_num)]
    exact qhi
  · unfold sample16
    rw [le_div_iff₀ (by norm_num), div_le_one (by norm_num)]
    constructor
    · rintro ⟨h1, _⟩ heq
      rw [heq] at h1
      norm_num at h1
    · intro hne
      have : -32767 ≤ toInt16 lo hi := by omega
      have q : (-32767 : ℚ) ≤ (toInt16 lo hi : ℚ) := by exact_mod_cast this
      exact ⟨by linarith, qhi⟩
  · unfold sample24
    rw [h24]
  · unfold sample24
    rw [div_le_div_iff_of_pos_right (by norm_num)]
    exact qlo24
  · unfold sample24
    rw [div_le_one (by norm_num)]
    exact qhi24
  · unfold sample24
    rw [le_div_iff₀ (by norm_num), div_le_one (by norm_num), ← h24]
    constructor
    · rintro ⟨h1, _⟩ heq
      rw [heq] at h1
      norm_num at h1
    · intro hne
      have : -8388607 ≤ shift24 lo hi b := by omega
      have q : (-8388607 : ℚ) ≤ (shift24 lo hi b : ℚ) := by exact_mod_cast this
      exact ⟨by linarith, qhi24⟩

/-! ## Theorems: a layer without generators of its own -/

/-- Adding zero in `int16_t` keeps a value of `int16_t`. -/
theorem wrap16_zero_add (x : Int) (h : InInt16 x) : wrap16 (0 + x) = x := by
  unfold wrap16
  obtain ⟨h1, h2⟩ := h
  omega

/-- The layer built from the generator list that holds one `instrument` generator: the
instrument is set and every other member keeps its default. -/
theorem foldLayer_instrument (n : Nat) :
    foldLayer (mergeGenerators [] [⟨GenType.instrument, n⟩]) =
      { instrument := some (wAmount n) } := by
  simp [foldLayer, mergeGenerators, supersede, applyPresetGen]

/-- The sum of the all-zero envelope descriptor and a descriptor of `int16_t` values. -/
theorem Envelope_zero_add (e : Envelope) (h : e.InInt16) : Envelope.add {} e = e := by
  obtain ⟨h1, h2, h3, h4, h5, h6, h7, h8⟩ := h
  cases e
  simp only [Envelope.add] at *
  simp only [wrap16_zero_add _ h1, wrap16_zero_add _ h2, wrap16_zero_add _ h3,
    wrap16_zero_add _ h4, wrap16_zero_add _ h5, wrap16_zero_add _ h6, wrap16_zero_add _ h7,
    wrap16_zero_add _ h8]

/-- The sum of the all-zero LFO descriptor and a descriptor of `int16_t` values. -/
theorem LFO_zero_add (l : LFO) (h : l.InInt16) :
    LFO.add { delay := 0, frequency := 0 } l = l := by
  obtain ⟨h1, h2⟩ := h
  cases l
  simp only [LFO.add] at *
  simp only [wrap16_zero_add _ h1, wrap16_zero_add _ h2]

/-- C30. For the layer built from a generator list that holds only an `instrument`
generator, and every split whose envelope and LFO descriptors hold `int16_t` values,
every key, velocity, sample and pan: the voice `GenerateVoices` sets up is the voice
computed from the split's parameters alone. -/
theorem instrument_only_layer_is_identity (n : Nat) (sample_rate : ℝ)
    (split : Instrument.Zone) (key tmp_key tmp_vel sampleIdx : Nat) (sample : Sample)
    (pan : ℝ) (voice : Voice)
    (hv : split.volEnv.InInt16) (hm : split.modEnv.InInt16) (hl : split.modLFO.InInt16) :
    setupVoice sample_rate (foldLayer (mergeGenerators [] [⟨GenType.instrument, n⟩])) split
        key tmp_key tmp_vel sampleIdx sample pan voice =
      splitOnlyVoice sample_rate split key tmp_key tmp_vel sampleIdx sample pan voice := by
  rw [foldLayer_instrument]
  simp only [setupVoice, splitOnlyVoice, Env.ofEnvelopes, Env.ofEnvelope, VoiceLFO.ofLFOs,
    VoiceLFO.ofLFO, Envelope_zero_add _ hv, Envelope_zero_add _ hm, LFO_zero_add _ hl,
    voiceFreq, splitFreq]
  simp

/-- C30 for the split `plainSplit` at key 60 and velocity 100. -/
theorem instrument_only_layer_is_identity_witness :
    setupVoice 44100 (foldLayer (mergeGenerators [] [⟨GenType.instrument, 0⟩])) plainSplit
        60 60 100 0 sample44k 0 {} =
      splitOnlyVoice 44100 plainSplit 60 60 100 0 sample44k 0 {} :=
  instrument_only_layer_is_identity 0 44100 plainSplit 60 60 100 0 sample44k 0 {}
    (by unfold Envelope.InInt16 InInt16; decide)
    (by unfold Envelope.InInt16 InInt16; decide)
    (by unfold LFO.InInt16 InInt16; decide)

/-! ## Theorems: structural validation -/

/-- C25 (the code departs from the claim). On `chunksWithoutPdtaList`, which has no `LIST`
chunk of type `pdta`, the constructor finishes with `structurally_unsound = false`: the
index it calls `pdta_index` is looked up with the type `sdta`. On `chunksWithoutPhdr`,
where the sub-chunk `phdr` is missing, the constructor does not set the flag either: it
reads `pdta.phdr->size` through the null pointer, which has no defined result. -/
theorem pdta_validation_misses :
    (∀ c ∈ chunksWithoutPdtaList, ¬ (c.id = string_to_FOURCC 'L' 'I' 'S' 'T' ∧
      c.type = string_to_FOURCC 'p' 'd' 't' 'a')) ∧
    (RIFF_SoundFont2.ofRIFF chunksWithoutPdtaList).map (fun r => r.structurally_unsound) =
      some false ∧
    (∀ c ∈ chunksWithoutPhdr, c.id ≠ string_to_FOURCC 'p' 'h' 'd' 'r') ∧
    get_chunk_by_id chunksWithoutPhdr (string_to_FOURCC 'p' 'h' 'd' 'r') 3 = none ∧
    RIFF_SoundFont2.ofRIFF chunksWithoutPhdr = none := by
  refine ⟨by decide, by decide, by decide, by decide, by decide⟩

/-! ## Theorems: the sample pass -/

/-- C29 (the code departs from the claim). For the `shdr` array `shdrTypeThree` the sample
pass returns one sample whose `sample_type` is 3, which is none of the eight defined link
types, with the linked sample 0: `CheckSampleLinkType` accepts every value from 1 to 8 and
from 0x8001 to 0x8008. -/
theorem undefined_link_type_is_kept :
    CheckSampleLinkType 3 = true ∧ 3 ∉ definedLinkTypes ∧
    (loadSamples shdrTypeThree).map (fun l => l.map (fun s => (s.sample_type, s.linked_sample)))
      = some [(3, some 0)] := by
  refine ⟨by decide, by decide, by decide⟩

/-! ## Theorems: the version check -/

/-- C26 (the code departs from the claim). For the arrays `hydraTwoBanks` and the version
tag 1.0 the constructor returns a bank model, with the three banks 0, 1 and 255 and the
version tag 1.0 stored in it; and for every input the constructor returns what it returns
for the same input with `wMajor = 2`, apart from the stored tag. -/
theorem version_one_file_is_loaded :
    (SoundFont2.construct { wMajor := 1, wMinor := 0 } hydraTwoBanks [] 0 0).map
        (fun sf => (sf.ifil, sf.banks.map (fun b => (b.num, b.presets.map (fun p => p.num))))) =
      some ({ wMajor := 1, wMinor := 0 }, [(0, [2]), (1, [3, 5]), (255, [])]) ∧
    ∀ (ifil : sfVersionTag) (hydra : HYDRA) (stream : List Nat) (o16 o24 : Nat),
      (SoundFont2.construct ifil hydra stream o16 o24).map
          (fun sf => { sf with ifil := { wMajor := 2, wMinor := ifil.wMinor } }) =
        SoundFont2.construct { wMajor := 2, wMinor := ifil.wMinor } hydra stream o16 o24 := by
  constructor
  · decide
  · intro ifil hydra stream o16 o24
    simp only [SoundFont2.construct, ite_self]
    cases loadSamples hydra.shdr <;> cases loadInstruments hydra <;>
      cases loadPresets hydra (scanBanks hydra.phdr) <;> rfl

/-! ## Theorems: banks and presets after construction -/

/-- One step of the bank scan keeps the bank numbers distinct and the preset lists empty,
keeps the banks listed, and lists the bank of the record. -/
theorem scanBanks_step (l : List sfPresetHeader) :
    ∀ acc : List Bank, (acc.map (fun b => b.num)).Nodup → (∀ b ∈ acc, b.presets = []) →
      ((l.foldl (fun banks ph =>
          if banks.any (fun b => b.num == ph.wBank) then banks
          else banks ++ [{ num := ph.wBank }]) acc).map (fun b => b.num)).Nodup ∧
      (∀ b ∈ l.foldl (fun banks ph =>
          if banks.any (fun b => b.num == ph.wBank) then banks
          else banks ++ [{ num := ph.wBank }]) acc, b.presets = []) ∧
      (∀ k ∈ acc.map (fun b => b.num), k ∈ (l.foldl (fun banks ph =>
          if banks.any (fun b => b.num == ph.wBank) then banks
          else banks ++ [{ num := ph.wBank }]) acc).map (fun b => b.num)) ∧
      (∀ ph ∈ l, ph.wBank ∈ (l.foldl (fun banks ph =>
          if banks.any (fun b => b.num == ph.wBank) then banks
          else banks ++ [{ num := ph.wBank }]) acc).map (fun b => b.num)) := by
  induction l with
  | nil =>
    intro acc hn he
    exact ⟨hn, he, fun k hk => hk, by simp⟩
  | cons ph rest ih =>
    intro acc hn he
    simp only [List.foldl_cons]
    by_cases hany : acc.any (fun b => b.num == ph.wBank) = true
    · simp only [hany, if_true]
      obtain ⟨h1, h2, h3, h4⟩ := ih acc hn he
      refine ⟨h1, h2, h3, ?_⟩
      intro q hq
      rcases List.mem_cons.mp hq with rfl | hq
      · apply h3
        rw [List.any_eq_true] at hany
        obtain ⟨b, hb, hbe⟩ := hany
        rw [List.mem_map]
        exact ⟨b, hb, by simpa using hbe⟩
      · exact h4 q hq
    · simp only [hany, if_false, Bool.false_eq_true]
      have hnot : ph.wBank ∉ acc.map (fun b => b.num) := by
        intro hmem
        apply hany
        rw [List.any_eq_true]
        rw [List.mem_map] at hmem
        obtain ⟨b, hb, hbe⟩ := hmem
        exact ⟨b, hb, by simpa using hbe⟩
      have hn1 : ((acc ++ [({ num := ph.wBank } : Bank)]).map (fun b => b.num)).Nodup := by
        rw [List.map_append, List.nodup_append]
        refine ⟨hn, by simp, ?_⟩
        intro k hk hk2
        simp only [List.map_cons, List.map_nil, List.mem_singleton] at hk2
        subst hk2
        exact hnot hk
      have he1 : ∀ b ∈ acc ++ [({ num := ph.wBank } : Bank)], b.presets = [] := by
        intro b hb
        rcases List.mem_append.mp hb with hb | hb
        · exact he b hb
        · simp only [List.mem_singleton] at hb
          subst hb
          rfl
      obtain ⟨h1, h2, h3, h4⟩ := ih _ hn1 he1
      refine ⟨h1, h2, ?_, ?_⟩
      · intro k hk
        apply h3
        rw [List.map_append]
        exact List.mem_append_left _ hk
      · intro q hq
        rcases List.mem_cons.mp hq with rfl | hq
        · apply h3
          simp
        · exact h4 q hq

/-- The bank scan gives banks with distinct numbers and no presets, one for the `wBank` of
every record. -/
theorem scanBanks_spec (phdr : List sfPresetHeader) :
    ((scanBanks phdr).map (fun b => b.num)).Nodup ∧
    (∀ b ∈ scanBanks phdr, b.presets = []) ∧
    (∀ ph ∈ phdr, ph.wBank ∈ (scanBanks phdr).map (fun b => b.num)) := by
  obtain ⟨h1, h2, _, h4⟩ := scanBanks_step phdr [] (by simp) (by simp)
  exact ⟨h1, h2, h4⟩

/-- Among banks with distinct numbers, pushing a preset to the first bank with the number
`k` is pushing it to every bank with the number `k`. -/
theorem addPreset_eq_map (p : Preset) (k : Nat) (banks : List Bank)
    (hn : (banks.map (fun b => b.num)).Nodup) :
    addPreset banks k p =
      banks.map (fun b => { b with presets := b.presets ++ if b.num = k then [p] else [] }) := by
  induction banks with
  | nil => rfl
  | cons b rest ih =>
    simp only [List.map_cons, List.nodup_cons] at hn
    obtain ⟨hb, hrest⟩ := hn
    by_cases hk : b.num = k
    · simp only [addPreset, hk, if_true, List.map_cons]
      congr 1
      symm
      have : ∀ c ∈ rest, ({ c with presets := c.presets ++ if c.num = k then [p] else [] } : Bank)
          = c := by
        intro c hc
        have hne : c.num ≠ k := by
          intro h
          apply hb
          rw [hk, ← h]
          exact List.mem_map_of_mem _ hc
        simp [hne]
      rw [List.map_congr_left this, List.map_id']
    · simp only [addPreset, hk, if_false, List.map_cons, List.append_nil]
      rw [ih hrest]

/-- The preset loop over banks with distinct numbers: every record in the range is loaded,
and every bank receives the presets of its number, in the order of the records. -/
theorem loadPresetList_spec (hydra : HYDRA) (n : Nat) :
    ∀ (i : Nat) (banks banks1 : List Bank), (banks.map (fun b => b.num)).Nodup →
      loadPresetList hydra i n banks = some banks1 →
      banks1 = banks.map
        (fun b => { b with presets := b.presets ++ bankPresets hydra b.num i n }) ∧
      ∀ j, i ≤ j → j < i + n →
        ∃ ph p, hydra.phdr[j]? = some ph ∧ loadPreset hydra j = some p := by
  induction n with
  | zero =>
    intro i banks banks1 _ h
    simp only [loadPresetList, Option.some.injEq] at h
    subst h
    refine ⟨?_, fun j h1 h2 => by omega⟩
    simp [bankPresets]
  | succ n ih =>
    intro i banks banks1 hn h
    cases hph : hydra.phdr[i]? with
    | none => simp [loadPresetList, hph] at h
    | some ph =>
      cases hp : loadPreset hydra i with
      | none => simp [loadPresetList, hph, hp] at h
      | some p =>
        simp only [loadPresetList, hph, hp] at h
        rw [addPreset_eq_map p ph.wBank banks hn] at h
        have hn1 : ((banks.map (fun b => ({ b with presets := b.presets ++
            if b.num = ph.wBank then [p] else [] } : Bank))).map (fun b => b.num)).Nodup := by
          rw [List.map_map]
          exact hn
        obtain ⟨h1, h2⟩ := ih (i + 1) _ banks1 hn1 h
        constructor
        · rw [h1, List.map_map]
          apply List.map_congr_left
          intro b _
          simp only [Function.comp, bankPresets, hph, hp, List.append_assoc]
        · intro j hj1 hj2
          by_cases hji : j = i
          · subst hji
            exact ⟨ph, p, hph, hp⟩
          · exact h2 j (by omega) (by omega)

/-- Among banks with distinct numbers exactly one has a given number that is listed. -/
theorem sum_indicator (k : Nat) (banks : List Bank)
    (hn : (banks.map (fun b => b.num)).Nodup) (hk : k ∈ banks.map (fun b => b.num)) :
    (banks.map (fun b => if b.num = k then 1 else 0)).sum = 1 := by
  induction banks with
  | nil => simp at hk
  | cons b rest ih =>
    simp only [List.map_cons, List.nodup_cons] at hn
    obtain ⟨hb, hrest⟩ := hn
    simp only [List.map_cons, List.sum_cons]
    by_cases hbk : b.num = k
    · have hzero : (rest.map (fun b => if b.num = k then 1 else 0)).sum = 0 := by
        apply List.sum_eq_zero
        intro x hx
        rw [List.mem_map] at hx
        obtain ⟨c, hc, rfl⟩ := hx
        have hne : c.num ≠ k := by
          intro h
          apply hb
          rw [hbk, ← h]
          exact List.mem_map_of_mem _ hc
        simp [hne]
      simp [hbk, hzero]
    · have hk1 : k ∈ rest.map (fun b => b.num) := by
        simp only [List.map_cons, List.mem_cons] at hk
        rcases hk with hk | hk
        · exact absurd hk.symm hbk
        · exact hk
      simp [hbk, ih hrest hk1]

/-- Over banks with distinct numbers that list the bank of every record in the range, the
presets of the range are shared out one to one. -/
theorem sum_bankPresets (hydra : HYDRA) (banks : List Bank)
    (hn : (banks.map (fun b => b.num)).Nodup) (n : Nat) :
    ∀ i, (∀ j, i ≤ j → j < i + n → ∃ ph p, hydra.phdr[j]? = some ph ∧
        loadPreset hydra j = some p ∧ ph.wBank ∈ banks.map (fun b => b.num)) →
      (banks.map (fun b => (bankPresets hydra b.num i n).length)).sum = n := by
  induction n with
  | zero => intro i _; simp [bankPresets]
  | succ n ih =>
    intro i h
    obtain ⟨ph, p, hph, hp, hmem⟩ := h i (le_refl _) (by omega)
    have hrest := ih (i + 1) (fun j h1 h2 => h j (by omega) (by omega))
    have hind := sum_indicator ph.wBank banks hn hmem
    have heq : banks.map (fun b => (bankPresets hydra b.num i (n + 1)).length) =
        banks.map (fun b => (if b.num = ph.wBank then 1 else 0) +
          (bankPresets hydra b.num (i + 1) n).length) := by
      apply List.map_congr_left
      intro b _
      simp only [bankPresets, hph, hp, List.length_append]
      split_ifs <;> rfl
    rw [heq, List.sum_map_add, hind, hrest]
    omega

/-- A preset loaded from a record of the range is among the presets of its bank. -/
theorem mem_bankPresets (hydra : HYDRA) (n : Nat) :
    ∀ (i j : Nat) (ph : sfPresetHeader) (p : Preset), i ≤ j → j < i + n →
      hydra.phdr[j]? = some ph → loadPreset hydra j = some p →
      p ∈ bankPresets hydra ph.wBank i n := by
  induction n with
  | zero => intro i j ph p h1 h2; omega
  | succ n ih =>
    intro i j ph p h1 h2 hph hp
    simp only [bankPresets, List.mem_append]
    by_cases hji : j = i
    · subst hji
      left
      simp [hph, hp]
    · right
      exact ih (i + 1) j ph p (by omega) (by omega) hph hp

/-- The preset a record is loaded to has the program number of the record. -/
theorem loadPreset_num (hydra : HYDRA) (i : Nat) (ph : sfPresetHeader) (p : Preset)
    (hph : hydra.phdr[i]? = some ph) (hp : loadPreset hydra i = some p) :
    p.num = ph.wPreset := by
  unfold loadPreset at hp
  rw [hph] at hp
  cases h1 : hydra.phdr[i + 1]? with
  | none => simp [h1] at hp
  | some ph1 =>
    cases h2 : presetGlobalRange hydra i with
    | none => simp [h1, h2] at hp
    | some r =>
      obtain ⟨gb, ge⟩ := r
      simp only [h1, h2] at hp
      split_ifs at hp
      cases h3 : presetZoneLoop hydra gb ge ph.wPresetBagNdx
          (ph1.wPresetBagNdx - ph.wPresetBagNdx) with
      | none => simp [h3] at hp
      | some layers =>
        simp only [h3, Option.some.injEq] at hp
        rw [← hp]

/-- C28. When the constructor returns a bank model: the bank numbers are strictly
increasing; the program numbers of every bank are non-decreasing; the presets of every
bank are, up to order, the presets loaded from the non-terminal `phdr` records whose
`wBank` is the number of the bank; every non-terminal record is loaded to a preset with
its program number that is in the bank with its bank number; and the banks hold as many
presets as there are non-terminal records. -/
theorem construct_banks_sorted (ifil : sfVersionTag) (hydra : HYDRA) (stream : List Nat)
    (o16 o24 : Nat) (sf : SoundFont2)
    (h : SoundFont2.construct ifil hydra stream o16 o24 = some sf) :
    (sf.banks.map (fun b => b.num)).Sorted (fun x y => x < y) ∧
    (∀ b ∈ sf.banks, (b.presets.map (fun p => p.num)).Sorted (fun x y => x ≤ y)) ∧
    (∀ b ∈ sf.banks,
      b.presets.Perm (bankPresets hydra b.num 0 (hydra.phdr.length - 1))) ∧
    (∀ i, i + 1 < hydra.phdr.length →
      ∃ ph p b, hydra.phdr[i]? = some ph ∧ loadPreset hydra i = some p ∧
        p.num = ph.wPreset ∧ b ∈ sf.banks ∧ b.num = ph.wBank ∧ p ∈ b.presets) ∧
    (sf.banks.map (fun b => b.presets.length)).sum = hydra.phdr.length - 1 := by
  haveI : IsTotal Bank (fun a b => a.num ≤ b.num) := ⟨fun a b => Nat.le_total _ _⟩
  haveI : IsTrans Bank (fun a b => a.num ≤ b.num) := ⟨fun a b c h1 h2 => Nat.le_trans h1 h2⟩
  haveI : IsTotal Preset (fun a b => a.num ≤ b.num) := ⟨fun a b => Nat.le_total _ _⟩
  haveI : IsTrans Preset (fun a b => a.num ≤ b.num) := ⟨fun a b c h1 h2 => Nat.le_trans h1 h2⟩
  -- the banks before sorting
  simp only [SoundFont2.construct, ite_self] at h
  cases hs : loadSamples hydra.shdr with
  | none => simp [hs] at h
  | some samples =>
  cases hi : loadInstruments hydra with
  | none => simp [hs, hi] at h
  | some instruments =>
  cases hp : loadPresets hydra (scanBanks hydra.phdr) with
  | none => simp [hs, hi, hp] at h
  | some banks1 =>
  simp only [hs, hi, hp, Option.some.injEq] at h
  have hbanks : sf.banks = sortBanks banks1 := by rw [← h]
  obtain ⟨hnod, hempty, hlisted⟩ := scanBanks_spec hydra.phdr
  unfold loadPresets at hp
  split_ifs at hp with hne
  obtain ⟨hb1, hrec⟩ := loadPresetList_spec hydra (hydra.phdr.length - 1) 0
    (scanBanks hydra.phdr) banks1 hnod hp
  have hnum1 : banks1.map (fun b => b.num) = (scanBanks hydra.phdr).map (fun b => b.num) := by
    rw [hb1, List.map_map]
    rfl
  have hpermS := List.perm_insertionSort (fun a b : Bank => a.num ≤ b.num) banks1
  have hsortS := List.sorted_insertionSort (fun a b : Bank => a.num ≤ b.num) banks1
  have hnumS : sf.banks.map (fun b => b.num) =
      (banks1.insertionSort (fun a b => a.num ≤ b.num)).map (fun b => b.num) := by
    rw [hbanks, sortBanks, List.map_map]
    rfl
  -- every bank of the result comes from a scanned bank
  have horigin : ∀ b ∈ sf.banks, ∃ c ∈ scanBanks hydra.phdr, b.num = c.num ∧
      b.presets = (bankPresets hydra c.num 0 (hydra.phdr.length - 1)).insertionSort
        (fun a b => a.num ≤ b.num) := by
    intro b hb
    rw [hbanks, sortBanks, List.mem_map] at hb
    obtain ⟨b0, hb0, rfl⟩ := hb
    have hb0' : b0 ∈ banks1 := hpermS.mem_iff.mp hb0
    rw [hb1, List.mem_map] at hb0'
    obtain ⟨c, hc, rfl⟩ := hb0'
    refine ⟨c, hc, rfl, ?_⟩
    simp only [hempty c hc, List.nil_append]
  have hrecord : ∀ j, j + 1 < hydra.phdr.length →
      ∃ ph p, hydra.phdr[j]? = some ph ∧ loadPreset hydra j = some p := by
    intro j hj
    exact hrec j (Nat.zero_le _) (by omega)
  refine ⟨?_, ?_, ?_, ?_, ?_⟩
  · rw [hnumS]
    apply List.Sorted.lt_of_le
    · exact List.pairwise_map.mpr hsortS
    · rw [(hpermS.map (fun b => b.num)).nodup_iff, hnum1]
      exact hnod
  · intro b hb
    obtain ⟨c, _, _, hpr⟩ := horigin b hb
    rw [hpr]
    exact List.pairwise_map.mpr (List.sorted_insertionSort _ _)
  · intro b hb
    obtain ⟨c, _, hnum, hpr⟩ := horigin b hb
    rw [hpr, hnum]
    exact List.perm_insertionSort _ _
  · intro i hi2
    obtain ⟨ph, p, hph, hpl⟩ := hrecord i hi2
    have hmem : ph.wBank ∈ (scanBanks hydra.phdr).map (fun b => b.num) := by
      apply hlisted
      exact List.getElem?_mem hph
    have hmem2 : ph.wBank ∈ sf.banks.map (fun b => b.num) := by
      rw [hnumS, (hpermS.map (fun b => b.num)).mem_iff, hnum1]
      exact hmem
    rw [List.mem_map] at hmem2
    obtain ⟨b, hb, hbn⟩ := hmem2
    refine ⟨ph, p, b, hph, hpl, loadPreset_num hydra i ph p hph hpl, hb, hbn, ?_⟩
    obtain ⟨c, _, hnum, hpr⟩ := horigin b hb
    rw [hpr, (List.perm_insertionSort _ _).mem_iff, ← hnum, hbn]
    exact mem_bankPresets hydra _ 0 i ph p (Nat.zero_le _) (by omega) hph hpl
  · have hlen : sf.banks.map (fun b => b.presets.length) =
        (banks1.insertionSort (fun a b => a.num ≤ b.num)).map
          (fun b => b.presets.length) := by
      rw [hbanks, sortBanks, List.map_map]
      apply List.map_congr_left
      intro b _
      simp only [Function.comp]
      exact (List.perm_insertionSort _ _).length_eq
    rw [hlen, (hpermS.map (fun b => b.presets.length)).sum_eq, hb1, List.map_map]
    have hcongr : ∀ (f : Bank → Bank),
        (∀ b ∈ scanBanks hydra.phdr, (f b).presets.length =
          (bankPresets hydra b.num 0 (hydra.phdr.length - 1)).length) →
        ((scanBanks hydra.phdr).map ((fun b : Bank => b.presets.length) ∘ f)).sum =
        ((scanBanks hydra.phdr).map
          (fun b => (bankPresets hydra b.num 0 (hydra.phdr.length - 1)).length)).sum := by
      intro f hf
      congr 1
      apply List.map_congr_left
      intro b hb
      exact hf b hb
    rw [hcongr _ (fun b hb => by simp only [hempty b hb, List.nil_append])]
    apply sum_bankPresets hydra _ hnod
    intro j _ hj
    obtain ⟨ph, p, hph, hpl⟩ := hrecord j (by omega)
    exact ⟨ph, p, hph, hpl, hlisted ph (List.getElem?_mem hph)⟩

/-- C28 on the arrays `hydraTwoBanks`, for which the constructor returns `twoBanksFont`. -/
theorem construct_banks_sorted_witness :
    (twoBanksFont.banks.map (fun b => b.num)).Sorted (fun x y => x < y) ∧
    (∀ b ∈ twoBanksFont.banks, (b.presets.map (fun p => p.num)).Sorted (fun x y => x ≤ y)) ∧
    (∀ b ∈ twoBanksFont.banks,
      b.presets.Perm (bankPresets hydraTwoBanks b.num 0 (hydraTwoBanks.phdr.length - 1))) ∧
    (∀ i, i + 1 < hydraTwoBanks.phdr.length →
      ∃ ph p b, hydraTwoBanks.phdr[i]? = some ph ∧ loadPreset hydraTwoBanks i = some p ∧
        p.num = ph.wPreset ∧ b ∈ twoBanksFont.banks ∧ b.num = ph.wBank ∧ p ∈ b.presets) ∧
    (twoBanksFont.banks.map (fun b => b.presets.length)).sum =
      hydraTwoBanks.phdr.length - 1 :=
  construct_banks_sorted { wMajor := 2, wMinor := 1 } hydraTwoBanks [] 0 0 twoBanksFont rfl

/-! ## Theorems: selecting a preset -/

/-- C24 (the code departs from the claim). The constructor returns `noBankZeroFont` for the
arrays `hydraNoBankZero`; its banks are numbered 1 and 2, so there is no bank 0 and no
bank 7. On a fresh channel of this bank model `SetPreset(5, 7)`, whose bank does not exist,
and `SetPreset(5, 2)`, whose bank has no program 5, both select program 5 of bank 1, the
first bank of the vector, which is neither the requested bank nor a bank numbered 0. -/
theorem SetPreset_falls_back_to_first_bank :
    SoundFont2.construct { wMajor := 2, wMinor := 1 } hydraNoBankZero [] 0 0 =
      some noBankZeroFont ∧
    noBankZeroFont.banks.map (fun b => (b.num, b.presets.map (fun p => p.num))) =
      [(1, [5]), (2, [9])] ∧
    (Channel.SetPreset { sf := some noBankZeroFont } 5 7).map Channel.selection =
      some (some 1, some 5) ∧
    (Channel.SetPreset { sf := some noBankZeroFont } 5 2).map Channel.selection =
      some (some 1, some 5) := by
  refine ⟨rfl, by decide, by decide, by decide⟩

/-! ## Theorems: erasing from the pool -/

/-- The list that `erase` leaves when the last element `last` is written over slot `i` of
`L ++ [last]` and the last slot is dropped. -/
theorem set_last_dropLast {T : Type} (L : List T) (last : T) (i : Nat) :
    ((L ++ [last]).set i last).dropLast = L.set i last := by
  rcases Nat.lt_or_ge i L.length with h | h
  · rw [List.set_append_left _ _ h]
    exact List.dropLast_concat
  · rw [List.set_append_right _ _ h, List.set_eq_of_length_le (by omega : L.length ≤ i)]
    have : [last].set (i - L.length) last = [last] := by
      cases i - L.length <;> simp
    rw [this]
    exact List.dropLast_concat

/-- C31. For every pool of size n ≥ 1 and every index i < n, `erase` at position i returns
a pool of size n - 1, with the capacity and the growth step unchanged, in which slot i
holds the element that was last (when i < n - 1), every other slot below n - 1 holds the
element it held before, and the elements are, up to order, the old elements without the
one at position i. When i = n - 1 the copy has the same source and destination and leaves
the slot as it is. -/
theorem erase_moves_last {T : Type} (p : DynamicPool T) (i : Nat) (hn : 1 ≤ p.size)
    (hi : i < p.size) :
    ∃ p1 last, p.erase i = some p1 ∧ p.elems.getLast? = some last ∧
      p1.size = p.size - 1 ∧
      (i < p.size - 1 → p1.elems[i]? = some last) ∧
      (∀ j, j < p.size - 1 → j ≠ i → p1.elems[j]? = p.elems[j]?) ∧
      p1.elems.Perm (p.elems.eraseIdx i) ∧
      p1.capacity = p.capacity ∧ p1.resize_len = p.resize_len := by
  rcases List.eq_nil_or_concat p.elems with h | ⟨L, last, h⟩
  · simp [DynamicPool.size, h] at hn
  · rw [List.concat_eq_append] at h
    have hsz : p.size = L.length + 1 := by simp [DynamicPool.size, h]
    have hl : p.elems.getLast? = some last := by rw [h]; exact List.getLast?_concat _
    refine ⟨{ p with elems := L.set i last }, last, ?_, hl, ?_, ?_, ?_, ?_, rfl, rfl⟩
    · unfold DynamicPool.erase
      rw [hl]
      simp only [hi, if_true]
      rw [h, set_last_dropLast]
    · simp [DynamicPool.size, h]
    · intro hlt
      rw [hsz] at hlt
      simp only [Nat.add_sub_cancel] at hlt
      simp [List.getElem?_set, hlt]
    · intro j hj hji
      rw [hsz] at hj
      simp only [Nat.add_sub_cancel] at hj
      rw [h]
      simp only
      rw [List.getElem?_set_ne (Ne.symm hji), List.getElem?_append_left hj]
    · simp only
      rw [h]
      rcases Nat.lt_or_ge i L.length with hlt | hge
      · rw [List.eraseIdx_append_of_lt_length hlt, List.set_eq_take_append_cons_drop,
          if_pos hlt, List.eraseIdx_eq_take_drop_succ]
        have h1 : (List.take i L ++ last :: List.drop (i + 1) L).Perm
            (last :: (List.take i L ++ List.drop (i + 1) L)) := List.perm_middle
        exact h1.trans (List.perm_append_singleton _ _).symm
      · have hieq : i = L.length := by omega
        subst hieq
        rw [List.set_eq_of_length_le (le_refl _)]
        rw [List.eraseIdx_append_of_length_le (le_refl _)]
        simp

/-- C31 on the pool `threePool` and the index 0. -/
theorem erase_moves_last_witness :
    ∃ p1 last, threePool.erase 0 = some p1 ∧ threePool.elems.getLast? = some last ∧
      p1.size = threePool.size - 1 ∧
      (0 < threePool.size - 1 → p1.elems[0]? = some last) ∧
      (∀ j, j < threePool.size - 1 → j ≠ 0 → p1.elems[j]? = threePool.elems[j]?) ∧
      p1.elems.Perm (threePool.elems.eraseIdx 0) ∧
      p1.capacity = threePool.capacity ∧ p1.resize_len = threePool.resize_len :=
  erase_moves_last threePool 0 (by decide) (by decide)

/-! ## Theorems: the sum of the envelope descriptors -/

/-- The narrowing to 16 bits keeps exactly the values of `int16_t`. -/
theorem wrap16_eq_iff (x : Int) : wrap16 x = x ↔ InInt16 x := by
  unfold wrap16 InInt16
  omega

/-- The sum `operator+` of two envelope descriptors is the component-wise integer sum when
every component of that sum is a value of `int16_t`. -/
theorem Envelope_add_eq_sum (a b : Envelope) (h : (Envelope.sum a b).InInt16) :
    Envelope.add a b = Envelope.sum a b := by
  obtain ⟨h1, h2, h3, h4, h5, h6, h7, h8⟩ := h
  simp only [Envelope.sum] at h1 h2 h3 h4 h5 h6 h7 h8
  simp only [Envelope.add, Envelope.sum, (wrap16_eq_iff _).2 h1, (wrap16_eq_iff _).2 h2,
    (wrap16_eq_iff _).2 h3, (wrap16_eq_iff _).2 h4, (wrap16_eq_iff _).2 h5,
    (wrap16_eq_iff _).2 h6, (wrap16_eq_iff _).2 h7, (wrap16_eq_iff _).2 h8]

/-- C32 as stated fails. The attack values 20000 of `longAttackLayer` and of
`longAttackSplit` are 16-bit values; their sum in the envelope the voice is built from is
-25536 and not 40000, and the attack time of the voice is the minimum 0.001 s. -/
theorem envelope_sum_wraps_around :
    longAttackLayer.volEnv.InInt16 ∧ longAttackSplit.volEnv.InInt16 ∧
    (Envelope.add longAttackLayer.volEnv longAttackSplit.volEnv).attack = -25536 ∧
    (Envelope.add longAttackLayer.volEnv longAttackSplit.volEnv).attack ≠
      longAttackLayer.volEnv.attack + longAttackSplit.volEnv.attack ∧
    (setupVoice 44100 longAttackLayer longAttackSplit 60 60 100 0 sample44k 0 {}).volenv.attack
      = 1 / 1000 := by
  refine ⟨by unfold Envelope.InInt16 InInt16; decide, by unfold Envelope.InInt16 InInt16; decide,
    by decide, by decide, ?_⟩
  have hw : (Envelope.add longAttackLayer.volEnv longAttackSplit.volEnv).attack = -25536 := by
    decide
  simp only [setupVoice, Env.ofEnvelopes, hw, timecents_to_seconds]
  norm_num

/-- C32, amended. For every layer and split for which every component of the integer sums
of the two volume envelopes and of the two modulation envelopes is a value of `int16_t`:
the descriptors the voice is built from are these component-wise sums, without
wrap-around, and the envelopes of the voice are the ones computed from the sums. A single
component `a + b` is kept by the 16-bit store exactly when it is a value of `int16_t`. -/
theorem envelope_sum_exact (sample_rate : ℝ) (layer : Preset.Zone) (split : Instrument.Zone)
    (key tmp_key tmp_vel sampleIdx : Nat) (sample : Sample) (pan : ℝ) (voice : Voice)
    (hv : (Envelope.sum layer.volEnv split.volEnv).InInt16)
    (hm : (Envelope.sum layer.modEnv split.modEnv).InInt16) :
    Envelope.add layer.volEnv split.volEnv = Envelope.sum layer.volEnv split.volEnv ∧
    Envelope.add layer.modEnv split.modEnv = Envelope.sum layer.modEnv split.modEnv ∧
    (setupVoice sample_rate layer split key tmp_key tmp_vel sampleIdx sample pan voice).volenv =
      Env.ofEnvelope true (Envelope.sum layer.volEnv split.volEnv) key ∧
    (setupVoice sample_rate layer split key tmp_key tmp_vel sampleIdx sample pan voice).modenv =
      Env.ofEnvelope false (Envelope.sum layer.modEnv split.modEnv) key ∧
    ∀ a b : Int, wrap16 (a + b) = a + b ↔ InInt16 (a + b) := by
  have h1 := Envelope_add_eq_sum _ _ hv
  have h2 := Envelope_add_eq_sum _ _ hm
  refine ⟨h1, h2, ?_, ?_, fun a b => wrap16_eq_iff _⟩
  · simp only [setupVoice, Env.ofEnvelopes, Env.ofEnvelope, h1]
  · simp only [setupVoice, Env.ofEnvelopes, Env.ofEnvelope, h2]

/-- C32, amended, on the layer `plainLayer` and the split `plainSplit` at key 60. -/
theorem envelope_sum_exact_witness :
    Envelope.add plainLayer.volEnv plainSplit.volEnv =
      Envelope.sum plainLayer.volEnv plainSplit.volEnv ∧
    Envelope.add plainLayer.modEnv plainSplit.modEnv =
      Envelope.sum plainLayer.modEnv plainSplit.modEnv ∧
    (setupVoice 44100 plainLayer plainSplit 60 60 100 0 sample44k 0 {}).volenv =
      Env.ofEnvelope true (Envelope.sum plainLayer.volEnv plainSplit.volEnv) 60 ∧
    (setupVoice 44100 plainLayer plainSplit 60 60 100 0 sample44k 0 {}).modenv =
      Env.ofEnvelope false (Envelope.sum plainLayer.modEnv plainSplit.modEnv) 60 ∧
    ∀ a b : Int, wrap16 (a + b) = a + b ↔ InInt16 (a + b) :=
  envelope_sum_exact 44100 plainLayer plainSplit 60 60 100 0 sample44k 0 {}
    (by unfold Envelope.InInt16 InInt16; decide)
    (by unfold Envelope.InInt16 InInt16; decide)

/-! ## Theorems: indices read by `Voice::Render` -/

/-- The index `pos_next` lies in the sample when `pos` does and, for a looping voice, the
loop start does. -/
theorem nextPos_in_range (pos ls le size : Nat) (is_looping : Bool) (hpos : pos < size)
    (hls : is_looping = true → ls < size) :
    nextPos pos ls le size is_looping < size := by
  unfold nextPos
  cases is_looping
  · simp only [Bool.and_false, Bool.false_or, decide_eq_true_eq, Bool.false_eq_true,
      ↓reduceIte]
    split_ifs <;> omega
  · have := hls rfl
    simp only [Bool.and_true, Bool.or_eq_true, decide_eq_true_eq, ↓reduceIte]
    split_ifs <;> omega

/-- One frame of a looping voice whose position is before the loop end and before the last
frame of the sample: the frame is rendered, the step is kept, and the position advances by
the step, less the loop length when it reaches the loop end. -/
theorem renderFrame_looping_inside (sample : Sample) (data : List ℚ)
    (sample_rate step_ step : ℝ) (ls le : Nat) (v : Voice)
    (hd : sample.data = some data) (hlen : sample.size ≤ data.length)
    (hL : v.Looping ls le) (hle : ls ≤ le) (h32 : le < 4294967296)
    (h0 : 0 ≤ v.sample_pos) (h1 : v.sample_pos < (le : ℝ))
    (h2 : v.sample_pos + 1 < (sample.size : ℝ)) :
    ∃ res, v.renderFrame sample sample_rate step_ step = some res ∧ res.2.1 = step ∧
      res.1.Looping ls le ∧
      res.1.sample_pos =
        if v.sample_pos + step ≥ (le : ℝ) then v.sample_pos + step - ((le : ℝ) - (ls : ℝ))
        else v.sample_pos + step := by
  obtain ⟨⟨zone, hz, hcont⟩, hls, hle', hm1, hm2, hm3⟩ := hL
  have hloop : v.isLooping zone = true := by simp [Voice.isLooping, hcont]
  have hpos : ⌊v.sample_pos⌋₊ < le := (Nat.floor_lt h0).2 h1
  have hpos2 : ⌊v.sample_pos⌋₊ + 1 < sample.size := by
    have hf : (⌊v.sample_pos⌋₊ : ℝ) ≤ v.sample_pos := Nat.floor_le h0
    have : ((⌊v.sample_pos⌋₊ + 1 : Nat) : ℝ) < (sample.size : ℝ) := by
      push_cast
      linarith
    exact_mod_cast this
  have hnext : nextPos ⌊v.sample_pos⌋₊ ls le sample.size true = ⌊v.sample_pos⌋₊ + 1 := by
    unfold nextPos
    simp only [Bool.and_true, Bool.or_eq_true, decide_eq_true_eq, ↓reduceIte]
    rw [if_neg (by omega)]
  obtain ⟨d0, hd0⟩ : ∃ d, data[⌊v.sample_pos⌋₊]? = some d :=
    ⟨data.get ⟨⌊v.sample_pos⌋₊, by omega⟩, List.getElem?_eq_getElem _⟩
  obtain ⟨d1, hd1⟩ : ∃ d, data[⌊v.sample_pos⌋₊ + 1]? = some d :=
    ⟨data.get ⟨⌊v.sample_pos⌋₊ + 1, by omega⟩, List.getElem?_eq_getElem _⟩
  have hneg : ¬ v.sample_pos ≤ -1 := by linarith
  have hu : (toUInt32 ((le : Int) - (ls : Int)) : ℝ) = (le : ℝ) - (ls : ℝ) := by
    have : toUInt32 ((le : Int) - (ls : Int)) = le - ls := by
      unfold toUInt32
      omega
    rw [this, Nat.cast_sub hle]
  simp only [Voice.renderFrame, hz, hd, hneg, if_false, hloop, hls, hle', hnext, hd0, hd1]
  refine ⟨_, rfl, ?_, ⟨⟨zone, rfl, hcont⟩, rfl, rfl, hm1, hm2, hm3⟩, ?_⟩
  · simp [frameStep, hm1, hm2, hm3]
  · simp only [advancePos, hu, and_true]

/-- One frame of a looping voice at the last frame of a sample whose loop start is not
inside the buffer: `data[pos_next]` is `data[loop_start]`, outside the buffer. -/
theorem renderFrame_looping_outside (sample : Sample) (data : List ℚ)
    (sample_rate step_ step : ℝ) (ls le : Nat) (v : Voice)
    (hd : sample.data = some data) (hlen : data.length ≤ ls)
    (hL : v.Looping ls le) (h0 : 0 ≤ v.sample_pos)
    (hlast : (sample.size : ℝ) ≤ v.sample_pos + 1) :
    v.renderFrame sample sample_rate step_ step = none := by
  obtain ⟨⟨zone, hz, hcont⟩, hls, hle', hm1, hm2, hm3⟩ := hL
  have hloop : v.isLooping zone = true := by simp [Voice.isLooping, hcont]
  have hpos : sample.size ≤ ⌊v.sample_pos⌋₊ + 1 := by
    rcases Nat.eq_zero_or_pos sample.size with hz0 | hpos0
    · omega
    · have : ((sample.size - 1 : Nat) : ℝ) ≤ v.sample_pos := by
        rw [Nat.cast_sub hpos0]
        push_cast
        linarith
      have := Nat.le_floor this
      omega
  have hnext : nextPos ⌊v.sample_pos⌋₊ ls le sample.size true = ls := by
    unfold nextPos
    simp only [Bool.and_true, Bool.or_eq_true, decide_eq_true_eq, ↓reduceIte]
    rw [if_pos (Or.inr hpos)]
  have hnone : data[ls]? = none := List.getElem?_eq_none hlen
  have hneg : ¬ v.sample_pos ≤ -1 := by linarith
  simp only [Voice.renderFrame, hz, hd, hneg, if_false, hloop, hls, hle', hnext, hnone]
  cases data[⌊v.sample_pos⌋₊]? <;> rfl

/-- C33 (the code departs from the claim). The sample of `endLoopBank` has 4 frames and
the loop points `loop_start = loop_end = 4`, so `loop_start ≤ loop_end ≤ length`. The voice
`loopVoice 4 4 44100` plays it with these loop points (its split has zero address
offsets), looping continuously from position 0 at step 1. It renders three frames and is
then at position 3; there `pos_next` is `loop_start = 4`, and the fourth frame reads
`data[4]`, outside the buffer of 4 values: `Render` of 4 frames has no defined result. -/
theorem render_reads_loop_start_past_buffer :
    (endLoopBank.samples[0]?.map
      (fun s => (s.loop_start, s.loop_end, s.size, s.data.map List.length))) =
      some (4, 4, 4, some 4) ∧
    (loopVoice 4 4 44100).zone.map (fun z => (z.start_offset, z.end_offset,
      z.loop_start_offset, z.loop_end_offset)) = some (0, 0, 0, 0) ∧
    (loopVoice 4 4 44100).loop_start = endLoopSample.loop_start ∧
    (loopVoice 4 4 44100).loop_end = endLoopSample.loop_end ∧
    nextPos 3 4 4 4 true = 4 ∧
    (∃ v out, (loopVoice 4 4 44100).Render endLoopBank 3 44100 = some (v, out) ∧
      v.sample_pos = 3) ∧
    (loopVoice 4 4 44100).Render endLoopBank 4 44100 = none := by
  have hstep : (loopVoice 4 4 44100).freq / 44100 = 1 := by norm_num [loopVoice]
  have hi : (loopVoice 4 4 44100).sample = some 0 := rfl
  have hs : endLoopBank.samples[0]? = some endLoopSample := rfl
  have hL0 : (loopVoice 4 4 44100).Looping 4 4 := ⟨⟨_, rfl, rfl⟩, rfl, rfl, rfl, rfl, rfl⟩
  have hp0 : (loopVoice 4 4 44100).sample_pos = 0 := rfl
  have hsz : endLoopSample.size = 4 := rfl
  obtain ⟨⟨v1, s1, l1, r1⟩, hrf1, hst1, hL1, hp1⟩ := renderFrame_looping_inside
    endLoopSample
    [1, 1, 1, 1] 44100 1 1 4 4 (loopVoice 4 4 44100) rfl (by decide) hL0 (le_refl _)
    (by decide) (by rw [hp0]) (by rw [hp0]; norm_num) (by rw [hp0, hsz]; norm_num)
  simp only at hst1 hL1 hp1
  rw [hp0] at hp1
  norm_num at hp1
  subst hst1
  obtain ⟨⟨v2, s2, l2, r2⟩, hrf2, hst2, hL2, hp2⟩ := renderFrame_looping_inside
    endLoopSample
    [1, 1, 1, 1] 44100 1 1 4 4 v1 rfl (by decide) hL1 (le_refl _)
    (by decide) (by rw [hp1]; norm_num) (by rw [hp1]; norm_num) (by rw [hp1, hsz]; norm_num)
  simp only at hst2 hL2 hp2
  rw [hp1] at hp2
  norm_num at hp2
  subst hst2
  obtain ⟨⟨v3, s3, l3, r3⟩, hrf3, hst3, hL3, hp3⟩ := renderFrame_looping_inside
    endLoopSample
    [1, 1, 1, 1] 44100 1 1 4 4 v2 rfl (by decide) hL2 (le_refl _)
    (by decide) (by rw [hp2]; norm_num) (by rw [hp2]; norm_num) (by rw [hp2, hsz]; norm_num)
  simp only at hst3 hL3 hp3
  rw [hp2] at hp3
  norm_num at hp3
  subst hst3
  have hrf4 := renderFrame_looping_outside
    endLoopSample
    [1, 1, 1, 1] 44100 1 1 4 4 v3 rfl (by decide) hL3 (by rw [hp3]; norm_num)
    (by rw [hp3, hsz]; norm_num)
  have hlt0 : (loopVoice 4 4 44100).sample_pos < (endLoopSample.size : ℝ) := by
    rw [hp0, hsz]; norm_num
  have hlt1 : v1.sample_pos < (endLoopSample.size : ℝ) := by rw [hp1, hsz]; norm_num
  have hlt2 : v2.sample_pos < (endLoopSample.size : ℝ) := by rw [hp2, hsz]; norm_num
  have hlt3 : v3.sample_pos < (endLoopSample.size : ℝ) := by rw [hp3, hsz]; norm_num
  refine ⟨rfl, rfl, rfl, rfl, by decide, ⟨v3, [(l1, r1), (l2, r2), (l3, r3)], ?_, hp3⟩, ?_⟩
  · simp only [Voice.Render, hi, hs, hstep, Voice.renderFrames, hlt0, hlt1, hlt2, if_true,
      hrf1, hrf2, hrf3]
  · simp only [Voice.Render, hi, hs, hstep, Voice.renderFrames, hlt0, hlt1, hlt2, hlt3,
      if_true, hrf1, hrf2, hrf3, hrf4]

/-! ## Theorems: the next-sample index -/

/-- C34 as stated fails. At the last position 3 of a sample of 4 frames whose loop runs
from 0 to the end of the sample, a looping voice takes the next sample at `loop_start = 0`,
where the specified index is `min(4, 3) = 3`. -/
theorem next_index_at_last_frame_of_loop :
    3 < 4 ∧ nextPos 3 0 4 4 true = 0 ∧ specNextPos 3 0 4 4 true = 3 ∧
    nextPos 3 0 4 4 true ≠ specNextPos 3 0 4 4 true := by
  decide

/-- C34, amended. For every position `pos` below the sample length, every loop bounds and
every looping state, the next-sample index of `Voice::Render` is `loop_start` when the
voice is looping and `pos ≥ loop_end` or `pos` is the last position of the sample, and
`min(pos+1, length−1)` otherwise. It is the specified index except when a looping voice
is at the last position of the sample, before `loop_end`, with a loop start elsewhere. -/
theorem nextPos_eq (pos loop_start loop_end length : Nat) (is_looping : Bool)
    (h : pos < length) :
    nextPos pos loop_start loop_end length is_looping =
      (if is_looping = true ∧ (pos ≥ loop_end ∨ pos + 1 = length) then loop_start
       else min (pos + 1) (length - 1)) ∧
    (nextPos pos loop_start loop_end length is_looping =
        specNextPos pos loop_start loop_end length is_looping ↔
      ¬ (is_looping = true ∧ pos < loop_end ∧ pos + 1 = length ∧ loop_start ≠ pos)) := by
  unfold nextPos specNextPos
  cases is_looping
  · simp only [Bool.and_false, Bool.false_or, decide_eq_true_eq, Bool.false_eq_true,
      ↓reduceIte, false_and, and_false, not_false_eq_true, iff_true]
    constructor <;> split_ifs <;> omega
  · simp only [Bool.and_true, Bool.or_eq_true, decide_eq_true_eq, ↓reduceIte, true_and,
      and_true]
    constructor
    · split_ifs <;> omega
    · split_ifs <;> omega

/-- C34, amended, at position 1 of a sample of 4 frames with the loop from 0 to 2, for a
looping voice. -/
theorem nextPos_eq_witness :
    nextPos 1 0 2 4 true =
      (if true = true ∧ (1 ≥ 2 ∨ 1 + 1 = 4) then 0 else min (1 + 1) (4 - 1)) ∧
    (nextPos 1 0 2 4 true = specNextPos 1 0 2 4 true ↔
      ¬ (true = true ∧ 1 < 2 ∧ 1 + 1 = 4 ∧ 0 ≠ 1)) :=
  nextPos_eq 1 0 2 4 true (by decide)

/-! ## Theorems: release from the Sustain phase -/

/-- C35 (the code departs from the claim). `Release()` sets the phase, the time 0 and the
slope `1/release` and leaves the member `value` as it is, and the first `Get` after it
returns that `value`, in both modes and whatever the sustain level is. `Get` stores
`value` in the Attack, Hold and Decay phases; in the Sustain phase it leaves the envelope
as it is. On the envelope
built from `quietSustain`, with time steps of 1 ms, the fifth `Get` is in the Sustain
phase and returns -10 dB (linear mode: 0.9); after `Release()` the next `Get` returns
0 dB (linear mode: 1), the value of the last `Get` of the Decay phase. -/
theorem release_from_sustain_starts_at_stale_value :
    (∀ (is_decibels : Bool) (e : Env) (dt : ℝ),
      e.Release.phase = EnvPhase.Release ∧ e.Release.time = 0 ∧
      e.Release.slope_factor = 1 / e.release ∧ e.Release.value = e.value ∧
      (Env.Get is_decibels e.Release dt).1 = e.value) ∧
    (∀ (is_decibels : Bool) (e : Env) (dt : ℝ),
      (Env.Get is_decibels { e with phase := EnvPhase.Sustain } dt).2 =
        { e with phase := EnvPhase.Sustain }) ∧
    Env.phaseTrace true (Env.ofEnvelopes true quietSustain {} 60)
      [1 / 1000, 1 / 1000, 1 / 1000, 1 / 1000, 1 / 1000] =
      [EnvPhase.Delay, EnvPhase.Attack, EnvPhase.Hold, EnvPhase.Decay, EnvPhase.Sustain,
       EnvPhase.Sustain] ∧
    Env.run true (Env.ofEnvelopes true quietSustain {} 60)
      [EnvCall.get (1 / 1000), EnvCall.get (1 / 1000), EnvCall.get (1 / 1000),
       EnvCall.get (1 / 1000), EnvCall.get (1 / 1000), EnvCall.release,
       EnvCall.get (1 / 1000)] = [-96, -100, 0, 0, -10, 0] ∧
    Env.run false (Env.ofEnvelopes false quietSustain {} 60)
      [EnvCall.get (1 / 1000), EnvCall.get (1 / 1000), EnvCall.get (1 / 1000),
       EnvCall.get (1 / 1000), EnvCall.get (1 / 1000), EnvCall.release,
       EnvCall.get (1 / 1000)] = [0, 0, 1, 1, 9 / 10, 1] := by
  have hw : wrap16 (-12000 + 0) = -12000 := by decide
  have hw0 : wrap16 (0 + 0) = 0 := by decide
  have hw1 : wrap16 (100 + 0) = 100 := by decide
  have ht : timecents_to_seconds ((-12000 : Int) : ℝ) = 1 / 1000 := by
    simp [timecents_to_seconds]
  have ht0 : timecents_to_seconds (((0 : Int) * (60 - ((60 : Nat) : Int)) : Int) : ℝ) = 1 := by
    simp [timecents_to_seconds]
  refine ⟨?_, ?_, ?_, ?_, ?_⟩
  · intro is_decibels e dt
    refine ⟨rfl, rfl, rfl, rfl, ?_⟩
    cases is_decibels <;> simp [Env.Get, Env.Release, fast_lerp]
  · intro is_decibels e dt
    simp only [Env.Get]
  · simp only [Env.phaseTrace, Env.ofEnvelopes, Envelope.add, Envelope.SetToDefault,
      quietSustain, hw, hw0, hw1, ht, ht0, Env.Get, if_true]
    norm_num
  · simp only [Env.run, Env.Release, Env.ofEnvelopes, Envelope.add, Envelope.SetToDefault,
      quietSustain, hw, hw0, hw1, ht, ht0, Env.Get, if_true]
    norm_num [gain_to_decibels]
  · simp only [Env.run, Env.Release, Env.ofEnvelopes, Envelope.add, Envelope.SetToDefault,
      quietSustain, hw, hw0, hw1, ht, ht0, Env.Get]
    norm_num [fast_lerp]

/-! ## Theorems: key scaling of the hold and decay times -/

/-- The key-scaling factor for 100 timecents per key halves from key `k` to key `k + 12`,
and is 1 at key 60 for every scaling value. -/
theorem keynum_factor_octave (k : Nat) (hk : k ≤ 115) (x : Int) :
    timecents_to_seconds (((100 : Int) * (60 - ((k + 12 : Nat) : Int)) : Int) : ℝ) =
      timecents_to_seconds (((100 : Int) * (60 - (k : Int)) : Int) : ℝ) / 2 ∧
    timecents_to_seconds ((x * (60 - ((60 : Nat) : Int)) : Int) : ℝ) = 1 := by
  constructor
  · have h1 : ¬ ((((100 : Int) * (60 - ((k + 12 : Nat) : Int)) : Int) : ℝ) ≤ -12000) := by
      have : (-12000 : Int) < (100 : Int) * (60 - ((k + 12 : Nat) : Int)) := by
        push_cast
        omega
      have h := (Int.cast_lt (R := ℝ)).2 this
      push_cast at h ⊢
      linarith
    have h2 : ¬ ((((100 : Int) * (60 - (k : Int)) : Int) : ℝ) ≤ -12000) := by
      have : (-12000 : Int) < (100 : Int) * (60 - (k : Int)) := by omega
      have h := (Int.cast_lt (R := ℝ)).2 this
      push_cast at h ⊢
      linarith
    unfold timecents_to_seconds
    rw [if_neg h1, if_neg h2]
    have he : ((((100 : Int) * (60 - ((k + 12 : Nat) : Int)) : Int) : ℝ)) / 1200 =
        ((((100 : Int) * (60 - (k : Int)) : Int) : ℝ)) / 1200 - 1 := by
      push_cast
      ring
    rw [he, Real.rpow_sub (by norm_num : (0 : ℝ) < 2), Real.rpow_one]
  · simp [timecents_to_seconds]

/-- C36. For every layer and split, every key k with 0 ≤ k ≤ 115 and both envelopes of
the voice: when the summed `keynumToHold` is 100, the hold time of the voice built for key
k + 12 is half the hold time of the voice built for key k, and at key 60 the hold time is
`timecents_to_seconds` of the summed hold value; likewise for `keynumToDecay` and the
decay time. -/
theorem key_scaling_halves_per_octave (sample_rate : ℝ) (layer : Preset.Zone)
    (split : Instrument.Zone) (k tmp_key tmp_vel sampleIdx : Nat) (sample : Sample) (pan : ℝ)
    (voice : Voice) (hk : k ≤ 115) :
    ((Envelope.add layer.volEnv split.volEnv).keynumToHold = 100 →
      (setupVoice sample_rate layer split (k + 12) tmp_key tmp_vel sampleIdx sample pan
          voice).volenv.hold =
        (setupVoice sample_rate layer split k tmp_key tmp_vel sampleIdx sample pan
          voice).volenv.hold / 2 ∧
      (setupVoice sample_rate layer split 60 tmp_key tmp_vel sampleIdx sample pan
          voice).volenv.hold =
        timecents_to_seconds (Envelope.add layer.volEnv split.volEnv).hold) ∧
    ((Envelope.add layer.volEnv split.volEnv).keynumToDecay = 100 →
      (setupVoice sample_rate layer split (k + 12) tmp_key tmp_vel sampleIdx sample pan
          voice).volenv.decay =
        (setupVoice sample_rate layer split k tmp_key tmp_vel sampleIdx sample pan
          voice).volenv.decay / 2 ∧
      (setupVoice sample_rate layer split 60 tmp_key tmp_vel sampleIdx sample pan
          voice).volenv.decay =
        timecents_to_seconds (Envelope.add layer.volEnv split.volEnv).decay) ∧
    ((Envelope.add layer.modEnv split.modEnv).keynumToHold = 100 →
      (setupVoice sample_rate layer split (k + 12) tmp_key tmp_vel sampleIdx sample pan
          voice).modenv.hold =
        (setupVoice sample_rate layer split k tmp_key tmp_vel sampleIdx sample pan
          voice).modenv.hold / 2 ∧
      (setupVoice sample_rate layer split 60 tmp_key tmp_vel sampleIdx sample pan
          voice).modenv.hold =
        timecents_to_seconds (Envelope.add layer.modEnv split.modEnv).hold) ∧
    ((Envelope.add layer.modEnv split.modEnv).keynumToDecay = 100 →
      (setupVoice sample_rate layer split (k + 12) tmp_key tmp_vel sampleIdx sample pan
          voice).modenv.decay =
        (setupVoice sample_rate layer split k tmp_key tmp_vel sampleIdx sample pan
          voice).modenv.decay / 2 ∧
      (setupVoice sample_rate layer split 60 tmp_key tmp_vel sampleIdx sample pan
          voice).modenv.decay =
        timecents_to_seconds (Envelope.add layer.modEnv split.modEnv).decay) := by
  have hoct := (keynum_factor_octave k hk 0).1
  refine ⟨?_, ?_, ?_, ?_⟩ <;> intro h <;> constructor
  all_goals simp only [setupVoice, Env.ofEnvelopes, h]
  all_goals first
    | (rw [hoct]; ring)
    | (rw [(keynum_factor_octave 0 (by decide) 100).2, mul_one])

/-- C36 on the layer `plainLayer` and the split `keyTrackedSplit`, whose summed
`keynumToHold` and `keynumToDecay` are 100 in both envelopes, for the keys 48 and 60. -/
theorem key_scaling_halves_per_octave_witness :
    48 ≤ 115 ∧
    (Envelope.add plainLayer.volEnv keyTrackedSplit.volEnv).keynumToHold = 100 ∧
    (Envelope.add plainLayer.volEnv keyTrackedSplit.volEnv).keynumToDecay = 100 ∧
    (Envelope.add plainLayer.modEnv keyTrackedSplit.modEnv).keynumToHold = 100 ∧
    (Envelope.add plainLayer.modEnv keyTrackedSplit.modEnv).keynumToDecay = 100 ∧
    ((setupVoice 44100 plainLayer keyTrackedSplit (48 + 12) 60 100 0 sample44k 0
          {}).volenv.hold =
        (setupVoice 44100 plainLayer keyTrackedSplit 48 60 100 0 sample44k 0 {}).volenv.hold / 2 ∧
      (setupVoice 44100 plainLayer keyTrackedSplit 60 60 100 0 sample44k 0 {}).volenv.hold =
        timecents_to_seconds (Envelope.add plainLayer.volEnv keyTrackedSplit.volEnv).hold) ∧
    ((setupVoice 44100 plainLayer keyTrackedSplit (48 + 12) 60 100 0 sample44k 0
          {}).volenv.decay =
        (setupVoice 44100 plainLayer keyTrackedSplit 48 60 100 0 sample44k 0 {}).volenv.decay / 2 ∧
      (setupVoice 44100 plainLayer keyTrackedSplit 60 60 100 0 sample44k 0 {}).volenv.decay =
        timecents_to_seconds (Envelope.add plainLayer.volEnv keyTrackedSplit.volEnv).decay) ∧
    ((setupVoice 44100 plainLayer keyTrackedSplit (48 + 12) 60 100 0 sample44k 0
          {}).modenv.hold =
        (setupVoice 44100 plainLayer keyTrackedSplit 48 60 100 0 sample44k 0 {}).modenv.hold / 2 ∧
      (setupVoice 44100 plainLayer keyTrackedSplit 60 60 100 0 sample44k 0 {}).modenv.hold =
        timecents_to_seconds (Envelope.add plainLayer.modEnv keyTrackedSplit.modEnv).hold) ∧
    ((setupVoice 44100 plainLayer keyTrackedSplit (48 + 12) 60 100 0 sample44k 0
          {}).modenv.decay =
        (setupVoice 44100 plainLayer keyTrackedSplit 48 60 100 0 sample44k 0 {}).modenv.decay / 2 ∧
      (setupVoice 44100 plainLayer keyTrackedSplit 60 60 100 0 sample44k 0 {}).modenv.decay =
        timecents_to_seconds (Envelope.add plainLayer.modEnv keyTrackedSplit.modEnv).decay) :=
  ⟨by decide, by decide, by decide, by decide, by decide,
   (key_scaling_halves_per_octave 44100 plainLayer keyTrackedSplit 48 60 100 0 sample44k 0 {}
      (by decide)).1 (by decide),
   (key_scaling_halves_per_octave 44100 plainLayer keyTrackedSplit 48 60 100 0 sample44k 0 {}
      (by decide)).2.1 (by decide),
   (key_scaling_halves_per_octave 44100 plainLayer keyTrackedSplit 48 60 100 0 sample44k 0 {}
      (by decide)).2.2.1 (by decide),
   (key_scaling_halves_per_octave 44100 plainLayer keyTrackedSplit 48 60 100 0 sample44k 0 {}
      (by decide)).2.2.2 (by decide)⟩

/-! ## Theorems: note off for a split with a fixed key -/

/-- The note 72 on `fixedKeyChannel`. -/
theorem fixedKey_noteOn :
    fixedKeyChannel.NoteOn 1 72 100 44100 = some fixedKeyChannel1 := by
  have hrom : Nat.land SFSampleLink.monoSample 65520 = 0 := by decide
  have hk : toUInt8 60 = 60 := by decide
  simp [hrom, hk, Channel.NoteOn, fixedKeyChannel, fixedKeyChannel1, GenerateVoices, layersLoop,
    layerVoices, plainPreset, plainLayer, outOfRange, fixedKeyBank, splitsLoop, splitVoices,
    fixedKeySplit, newSplit, sample44k, IsSampleROM, createVoices, DynamicPool.emplace_back,
    DynamicPool.size, DynamicPool.modifyBack, samplePan, tmpKey, tmpVel, releaseExclusiveAll,
    releaseExclusive, setupVoice_zone, fixedKeyVoice]

/-- C37 (the code departs from the claim). On `fixedKeyChannel`, whose only split has the
fixed key 60 and whose sustain flag is off, `NoteOn(72, 100)` creates one voice, with
`key = 60` and `hold = true`; the following `NoteOff(72)` returns a channel whose pool still
holds that voice with `hold = true`: the voice stores the overriding key and `NoteOff`
releases the voices whose stored key is 72. -/
theorem noteOff_misses_fixed_key_voice :
    fixedKeyChannel.sustain = false ∧ fixedKeySplit.keynum = 60 ∧
    fixedKeyChannel.voices.elems.length = 0 ∧
    fixedKeyChannel.NoteOn 1 72 100 44100 = some fixedKeyChannel1 ∧
    fixedKeyChannel1.voices.elems.map (fun v => (v.key, v.hold)) = [(60, true)] ∧
    (fixedKeyChannel1.NoteOff 72).map
        (fun ch => (ch.key_states[72]?, ch.voices.elems.map (fun v => (v.key, v.hold)))) =
      some (some false, [(60, true)]) := by
  refine ⟨rfl, rfl, rfl, fixedKey_noteOn, ?_, ?_⟩
  · simp [fixedKeyChannel1, fixedKeyVoice, setupVoice]
  · simp [Channel.NoteOff, fixedKeyChannel1, fixedKeyChannel, fixedKeyVoice, setupVoice]

/-! ## Theorems: banks without presets -/

/-- C38 (the code departs from the claim). In the arrays `hydraTwoBanks` the terminal
`phdr` record has the bank number 255 and no other record has it. The constructor returns
a bank model with the banks 0, 1 and 255, in which bank 255 has no preset: the bank scan
runs over every record of `phdr`, the terminal one included. -/
theorem terminal_record_creates_empty_bank :
    hydraTwoBanks.phdr.getLast?.map (fun ph => ph.wBank) = some 255 ∧
    (∀ ph ∈ hydraTwoBanks.phdr.dropLast, ph.wBank ≠ 255) ∧
    (scanBanks hydraTwoBanks.phdr).map (fun b => b.num) = [1, 0, 255] ∧
    (SoundFont2.construct { wMajor := 2, wMinor := 1 } hydraTwoBanks [] 0 0).map
        (fun sf => sf.banks.map (fun b => (b.num, b.presets.length))) =
      some [(0, 1), (1, 2), (255, 0)] := by
  refine ⟨by decide, by decide, by decide, by decide⟩

/-! ## Theorems: gain of the low-pass filter at DC -/

/-- C39. For every filter whose `inv_Q` is not negative and every normalised cutoff `Fc`
with 0 < Fc < 0.5, the coefficients `set_frequency` stores satisfy
`a0 + a1 + a0 = 1 + b1 + b2`, and this sum is positive. For a constant input `c` the state
`z1 = c (1 - a0)`, `z2 = c (a0 - b2)` is kept by `process`, which then returns `c`; and
whenever `process` with the input `c` keeps the state, the value it returns is `c`. -/
theorem set_frequency_unity_gain_at_dc (f : BiQuadLowpass) (Fc : ℝ) (h0 : 0 < Fc)
    (h1 : Fc < 1 / 2) (hq : 0 ≤ f.inv_Q) :
    (f.set_frequency Fc).a0 + (f.set_frequency Fc).a1 + (f.set_frequency Fc).a0 =
      1 + (f.set_frequency Fc).b1 + (f.set_frequency Fc).b2 ∧
    0 < 1 + (f.set_frequency Fc).b1 + (f.set_frequency Fc).b2 ∧
    (∀ c : ℝ,
      BiQuadLowpass.process
          { f.set_frequency Fc with z1 := c * (1 - (f.set_frequency Fc).a0),
                                    z2 := c * ((f.set_frequency Fc).a0 - (f.set_frequency Fc).b2) }
          c =
        (c, { f.set_frequency Fc with z1 := c * (1 - (f.set_frequency Fc).a0),
                                      z2 := c * ((f.set_frequency Fc).a0 -
                                        (f.set_frequency Fc).b2) })) ∧
    (∀ c z1 z2 : ℝ,
      (BiQuadLowpass.process { f.set_frequency Fc with z1 := z1, z2 := z2 } c).2 =
          { f.set_frequency Fc with z1 := z1, z2 := z2 } →
        (BiQuadLowpass.process { f.set_frequency Fc with z1 := z1, z2 := z2 } c).1 = c) := by
  have hK : 0 < Real.tan (Real.pi * Fc) := by
    apply Real.tan_pos_of_pos_of_lt_pi_div_two
    · exact mul_pos Real.pi_pos h0
    · have := Real.pi_pos
      nlinarith
  have hden : 0 < 1 + Real.tan (Real.pi * Fc) * f.inv_Q +
      Real.tan (Real.pi * Fc) * Real.tan (Real.pi * Fc) := by
    have := mul_nonneg hK.le hq
    have := mul_pos hK hK
    linarith
  have hsum : (f.set_frequency Fc).a0 + (f.set_frequency Fc).a1 + (f.set_frequency Fc).a0 =
      1 + (f.set_frequency Fc).b1 + (f.set_frequency Fc).b2 := by
    simp only [BiQuadLowpass.set_frequency]
    field_simp
    ring
  have hpos : 0 < 1 + (f.set_frequency Fc).b1 + (f.set_frequency Fc).b2 := by
    rw [← hsum]
    simp only [BiQuadLowpass.set_frequency]
    have := mul_pos (mul_pos hK hK) (one_div_pos.2 hden)
    linarith
  refine ⟨hsum, hpos, ?_, ?_⟩
  · intro c
    simp only [BiQuadLowpass.process, Prod.mk.injEq, BiQuadLowpass.mk.injEq, true_and,
      and_true]
    refine ⟨by ring, ?_, by ring⟩
    linear_combination c * hsum
  · intro c z1 z2 hfix
    have e1 := congrArg BiQuadLowpass.z1 hfix
    have e2 := congrArg BiQuadLowpass.z2 hfix
    simp only [BiQuadLowpass.process] at e1 e2 ⊢
    have hne : 1 + (f.set_frequency Fc).b1 + (f.set_frequency Fc).b2 ≠ 0 := ne_of_gt hpos
    have key : (c * (f.set_frequency Fc).a0 + z1 - c) *
        (1 + (f.set_frequency Fc).b1 + (f.set_frequency Fc).b2) = 0 := by
      linear_combination -e1 - e2 + c * hsum
    rcases mul_eq_zero.mp key with h | h
    · linarith
    · exact absurd h hne

/-- C39 on the filter `quarterFilter`, which has `inv_Q = 0` and the cutoff `Fc = 1/4`. -/
theorem set_frequency_unity_gain_at_dc_witness :
    quarterFilter.a0 + quarterFilter.a1 + quarterFilter.a0 =
      1 + quarterFilter.b1 + quarterFilter.b2 ∧
    0 < 1 + quarterFilter.b1 + quarterFilter.b2 ∧
    (∀ c : ℝ,
      BiQuadLowpass.process
          { quarterFilter with z1 := c * (1 - quarterFilter.a0),
                               z2 := c * (quarterFilter.a0 - quarterFilter.b2) }
          c =
        (c, { quarterFilter with z1 := c * (1 - quarterFilter.a0),
                                 z2 := c * (quarterFilter.a0 - quarterFilter.b2) })) ∧
    (∀ c z1 z2 : ℝ,
      (BiQuadLowpass.process { quarterFilter with z1 := z1, z2 := z2 } c).2 =
          { quarterFilter with z1 := z1, z2 := z2 } →
        (BiQuadLowpass.process { quarterFilter with z1 := z1, z2 := z2 } c).1 = c) :=
  set_frequency_unity_gain_at_dc {} (1 / 4) (by norm_num) (by norm_num) (le_refl _)

/-! ## Theorems: copy assignment of the pool -/

/-- The copy assignment into a block that is large enough gives the size and the elements
of the source. -/
theorem assign_reuses_block {T : Type} (pool other : DynamicPool T)
    (hc : other.capacity ≤ pool.capacity) (hs : other.size ≤ other.capacity) :
    ∃ p, pool.assign other = some p ∧ p.size = other.size ∧
      ∀ i, i < other.size → p.elems[i]? = some other.elems[i]? := by
  have h2 : other.size ≤ pool.capacity := le_trans hs hc
  refine ⟨{ elems := other.elems.map some, capacity := pool.capacity,
            resize_len := other.resize_len },
    by simp only [DynamicPool.assign, ge_iff_le, hc, h2, if_true], ?_, ?_⟩
  · simp [DynamicPool.size]
  · intro i hi
    simp only [DynamicPool.size] at hi
    simp [List.getElem?_map, List.getElem?_eq_getElem hi]

/-- C40 (the code departs from the claim). The pool `onePool` has capacity 1 and holds 7,
the pool `twoPool` has capacity 2 and holds 9 and 8. After the assignment of `twoPool` to
`onePool` the pool has the size 2 and the capacity 2 of `twoPool`, but slot 0 still holds 7
and slot 1 holds nothing that was copied: the branch for the smaller capacity reallocates
the block and copies no element. The assignment of `onePool` to `twoPool`, into the larger
block, gives the size and the element of `onePool`. -/
theorem assignment_to_smaller_pool_copies_nothing :
    onePool.capacity < twoPool.capacity ∧
    twoPool.elems.map some = [some 9, some 8] ∧
    (onePool.assign twoPool).map (fun p => (p.size, p.capacity, p.elems)) =
      some (2, 2, [some 7, none]) ∧
    (twoPool.assign onePool).map (fun p => (p.size, p.capacity, p.elems)) =
      some (1, 2, [some 7]) := by
  decide

/-! ## Theorems: the global preset zone as the baseline of the layers -/

/-- The search for one local generator keeps every slot of the list or puts the local
generator, which then has the same operator, in its place. -/
theorem supersede_getElem (pg : sfGenList) :
    ∀ (gens : List sfGenList) (k : Nat) (g : sfGenList), gens[k]? = some g →
      ∃ g1, (supersede gens pg)[k]? = some g1 ∧ g1.sfGenOper = g.sfGenOper ∧
        (g1 = g ∨ g1 = pg) := by
  intro gens
  induction gens with
  | nil => intro k g h; simp at h
  | cons gen rest ih =>
    intro k g h
    unfold supersede
    by_cases hop : gen.sfGenOper = pg.sfGenOper
    · rw [if_pos hop]
      cases k with
      | zero =>
        simp only [List.getElem?_cons_zero, Option.some.injEq] at h
        subst h
        exact ⟨pg, by simp, hop.symm, Or.inr rfl⟩
      | succ k =>
        simp only [List.getElem?_cons_succ] at h
        exact ⟨g, by simpa using h, rfl, Or.inl rfl⟩
    · rw [if_neg hop]
      cases k with
      | zero =>
        simp only [List.getElem?_cons_zero, Option.some.injEq] at h
        subst h
        exact ⟨gen, by simp, rfl, Or.inl rfl⟩
      | succ k =>
        simp only [List.getElem?_cons_succ] at h
        obtain ⟨g1, h1, h2, h3⟩ := ih k g h
        exact ⟨g1, by simpa using h1, h2, h3⟩

/-- The local generator is in the list after the search for it. -/
theorem mem_supersede_self (pg : sfGenList) :
    ∀ gens : List sfGenList, pg ∈ supersede gens pg := by
  intro gens
  induction gens with
  | nil => simp [supersede]
  | cons gen rest ih =>
    unfold supersede
    split
    · exact List.mem_cons_self _ _
    · exact List.mem_cons_of_mem _ ih

/-- Every entry of the list is represented after the search, by itself or by the local
generator with the same operator. -/
theorem supersede_mem_op (gens : List sfGenList) (pg g : sfGenList) (h : g ∈ gens) :
    ∃ g1 ∈ supersede gens pg, g1.sfGenOper = g.sfGenOper ∧ (g1 = g ∨ g1 = pg) := by
  obtain ⟨k, hk⟩ := List.mem_iff_getElem?.mp h
  obtain ⟨g1, h1, h2, h3⟩ := supersede_getElem pg gens k g hk
  exact ⟨g1, List.getElem?_mem h1, h2, h3⟩

/-- The merge loop keeps the relation `BaselineMerge` between the global generators, the
local generators merged so far, and the list under construction. -/
theorem foldl_supersede_baseline (baseline : List sfGenList) :
    ∀ (rest done cur : List sfGenList), BaselineMerge baseline done cur →
      BaselineMerge baseline (done ++ rest) (rest.foldl supersede cur) := by
  intro rest
  induction rest with
  | nil =>
    intro done cur h
    simpa using h
  | cons pg rest ih =>
    intro done cur h
    obtain ⟨h1, h2, h3⟩ := h
    have hstep : BaselineMerge baseline (done ++ [pg]) (supersede cur pg) := by
      refine ⟨?_, ?_, ?_⟩
      · intro k g hk
        obtain ⟨g1, e1, e2, e3⟩ := h1 k g hk
        obtain ⟨g2, f1, f2, f3⟩ := supersede_getElem pg cur k g1 e1
        refine ⟨g2, f1, f2.trans e2, ?_⟩
        rcases f3 with f3 | f3
        · rcases e3 with e3 | e3
          · exact Or.inl (f3.trans e3)
          · exact Or.inr (List.mem_append_left _ (f3 ▸ e3))
        · exact Or.inr (List.mem_append_right _ (by simp [f3]))
      · intro g hg
        rcases mem_supersede cur pg g hg with hg | hg
        · exact Or.inr (List.mem_append_right _ (by simp [hg]))
        · rcases h2 g hg with hg | hg
          · exact Or.inl hg
          · exact Or.inr (List.mem_append_left _ hg)
      · intro l hl
        rcases List.mem_append.mp hl with hl | hl
        · obtain ⟨g, g1, g2, g3⟩ := h3 l hl
          obtain ⟨g', k1, k2, k3⟩ := supersede_mem_op cur pg g g1
          refine ⟨g', k1, k2.trans g2, ?_⟩
          rcases k3 with k3 | k3
          · exact List.mem_append_left _ (k3 ▸ g3)
          · exact List.mem_append_right _ (by simp [k3])
        · have hlp : l = pg := by simpa using hl
          subst hlp
          exact ⟨l, mem_supersede_self l cur, rfl, List.mem_append_right _ (by simp)⟩
    have := ih (done ++ [pg]) (supersede cur pg) hstep
    simpa [List.append_assoc] using this

/-- The generator list of a preset zone has the global generators as its baseline and the
generators of the zone as its local zone. -/
theorem mergeGenerators_baseline (baseline loc : List sfGenList) :
    BaselineMerge baseline loc (mergeGenerators baseline loc) := by
  have h0 : BaselineMerge baseline [] baseline :=
    ⟨fun k g hk => ⟨g, hk, rfl, Or.inl rfl⟩, fun g hg => Or.inl hg,
     fun l hl => absurd hl (List.not_mem_nil l)⟩
  have := foldl_supersede_baseline baseline loc [] baseline h0
  simpa [mergeGenerators] using this

/-- A zone that the zone loop discards is not a zone that gives a layer. -/
theorem presetZoneStep_discard (hydra : HYDRA) (gb ge j : Nat) (baseline : List sfGenList)
    (hg : iterRange hydra.pgen gb ge = some baseline)
    (h : presetZoneStep hydra gb ge j = some none) : layerZone hydra j = none := by
  unfold presetZoneStep at h
  unfold layerZone presetZoneGens
  cases hb : hydra.pbag[j]? with
  | none => simp [hb] at h
  | some pz =>
    cases hb1 : hydra.pbag[j + 1]? with
    | none => simp [hb, hb1] at h
    | some pz1 =>
      simp only [hb, hb1] at h ⊢
      by_cases heq : pz.wGenNdx = pz1.wGenNdx
      · unfold iterRange
        rw [heq]
        split_ifs <;> simp
      · rw [if_neg heq] at h
        by_cases h0 : pz1.wGenNdx = 0
        · rw [if_pos h0] at h
          simp at h
        · rw [if_neg h0] at h
          cases hl : hydra.pgen[pz1.wGenNdx - 1]? with
          | none => simp [hl] at h
          | some last =>
            simp only [hl] at h
            cases hloc : iterRange hydra.pgen pz.wGenNdx pz1.wGenNdx with
            | none => rfl
            | some loc =>
              have hr : pz.wGenNdx ≤ pz1.wGenNdx ∧ pz1.wGenNdx ≤ hydra.pgen.length := by
                unfold iterRange at hloc
                split at hloc
                next hr => exact hr
                next => simp at hloc
              have hloc' : loc = (hydra.pgen.drop pz.wGenNdx).take
                  (pz1.wGenNdx - pz.wGenNdx) := by
                unfold iterRange at hloc
                rw [if_pos hr] at hloc
                exact (Option.some.inj hloc).symm
              have hlt : pz.wGenNdx < pz1.wGenNdx := by omega
              have hlast : loc.getLast? = some last := by
                rw [hloc', getLast?_slice _ _ _ hlt hr.2, hl]
              simp only [hlast]
              by_cases hop : last.sfGenOper = GenType.instrument
              · exfalso
                simp only [hop, ne_eq, not_true_eq_false, if_false, hg, hloc] at h
                have hne : ∃ l, l ∈ loc := by
                  cases loc with
                  | nil => simp at hlast
                  | cons a t => exact ⟨a, List.mem_cons_self _ _⟩
                obtain ⟨l, hlm⟩ := hne
                obtain ⟨-, -, hm3⟩ := mergeGenerators_baseline baseline loc
                obtain ⟨g, hgm, _, _⟩ := hm3 l hlm
                have hnil : mergeGenerators baseline loc ≠ [] := List.ne_nil_of_mem hgm
                split at h
                next hemp => exact hnil (List.isEmpty_iff.mp hemp)
                next => simp at h
              · rw [if_neg hop]

/-- A layer that the zone loop pushes is built for a zone that gives a layer, over the
global generators as the baseline. -/
theorem presetZoneStep_push (hydra : HYDRA) (gb ge j : Nat) (baseline : List sfGenList)
    (layer : Preset.Zone)
    (hg : iterRange hydra.pgen gb ge = some baseline)
    (h : presetZoneStep hydra gb ge j = some (some layer)) :
    ∃ loc, layerZone hydra j = some loc ∧ LayerOver baseline loc layer := by
  obtain ⟨global, loc, pz, pz1, hgl, hb, hb1, hloc, hlayer⟩ :=
    presetZoneStep_layer hydra gb ge j layer h
  rw [hg] at hgl
  have hbase : baseline = global := Option.some.inj hgl
  subst hbase
  refine ⟨loc, ?_, mergeGenerators baseline loc, mergeGenerators_baseline baseline loc, ?_⟩
  · unfold presetZoneStep at h
    unfold layerZone presetZoneGens
    simp only [hb, hb1, hloc] at h ⊢
    have hr : pz.wGenNdx ≤ pz1.wGenNdx ∧ pz1.wGenNdx ≤ hydra.pgen.length := by
      unfold iterRange at hloc
      split at hloc
      next hr => exact hr
      next => simp at hloc
    have hloc' : loc = (hydra.pgen.drop pz.wGenNdx).take (pz1.wGenNdx - pz.wGenNdx) := by
      unfold iterRange at hloc
      rw [if_pos hr] at hloc
      exact (Option.some.inj hloc).symm
    by_cases heq : pz.wGenNdx = pz1.wGenNdx
    · rw [if_pos heq] at h
      simp at h
    · rw [if_neg heq] at h
      by_cases h0 : pz1.wGenNdx = 0
      · rw [if_pos h0] at h
        simp at h
      · rw [if_neg h0] at h
        cases hl : hydra.pgen[pz1.wGenNdx - 1]? with
        | none => simp [hl] at h
        | some last =>
          simp only [hl] at h
          have hlt : pz.wGenNdx < pz1.wGenNdx := by omega
          have hlast : loc.getLast? = some last := by
            rw [hloc', getLast?_slice _ _ _ hlt hr.2, hl]
          by_cases hop : last.sfGenOper = GenType.instrument
          · simp only [hlast, hop, if_true]
          · rw [if_pos hop] at h
            simp at h
  · rw [hlayer]
    rfl

/-- The layers the zone loop pushes for the bag indices `j, …, j + n - 1` are, zone by
zone, layers built for the zones that give a layer, over the global generators. -/
theorem presetZoneLoop_layers (hydra : HYDRA) (gb ge : Nat) (baseline : List sfGenList)
    (hg : iterRange hydra.pgen gb ge = some baseline) :
    ∀ (n j : Nat) (layers : List Preset.Zone),
      presetZoneLoop hydra gb ge j n = some layers →
      List.Forall₂ (LayerOver baseline) (layerZones hydra j n) layers := by
  intro n
  induction n with
  | zero =>
    intro j layers h
    simp only [presetZoneLoop, Option.some.injEq] at h
    subst h
    exact List.Forall₂.nil
  | succ n ih =>
    intro j layers h
    unfold presetZoneLoop at h
    cases hs : presetZoneStep hydra gb ge j with
    | none => simp [hs] at h
    | some r =>
      cases hrest : presetZoneLoop hydra gb ge (j + 1) n with
      | none => cases r <;> simp [hs, hrest] at h
      | some rest =>
        have hrec := ih (j + 1) rest hrest
        cases r with
        | none =>
          simp only [hs, hrest, Option.some.injEq] at h
          subst h
          have hd := presetZoneStep_discard hydra gb ge j baseline hg hs
          simp only [layerZones, hd, List.nil_append]
          exact hrec
        | some layer =>
          simp only [hs, hrest, Option.some.injEq] at h
          subst h
          obtain ⟨loc, hz, hl⟩ := presetZoneStep_push hydra gb ge j baseline layer hg hs
          simp only [layerZones, hz, List.singleton_append]
          exact List.Forall₂.cons hl hrec

/-- C5. For a non-terminal preset header `phdr[i]` the generators collected as the
baseline are those of its first zone exactly when the preset has more than one zone and
the final generator of the first zone is not `instrument`; in every other case (also for a
first zone without generators) the baseline is empty. When the preset pass returns the
preset, its layers are, zone by zone, the layers of the zones that have generators ending
in `instrument`, and each is the fold of the generator switch over a list that holds the
baseline generators, each in its slot unless a generator of the layer's own zone with the
same operator takes its place, and otherwise only generators of that zone. With the empty
baseline the list holds generators of the layer's own zone only. -/
theorem preset_global_zone_iff (hydra : HYDRA) (i : Nat) (ph ph1 : sfPresetHeader)
    (fz : List sfGenList)
    (h0 : hydra.phdr[i]? = some ph) (h1 : hydra.phdr[i + 1]? = some ph1)
    (hfz : (ph1.wPresetBagNdx : Int) - (ph.wPresetBagNdx : Int) > 1 →
      firstPresetZoneGens hydra ph = some fz) :
    presetGlobalGens hydra i = some
        (if specPresetGlobal ((ph1.wPresetBagNdx : Int) - (ph.wPresetBagNdx : Int)) fz
          then fz else []) ∧
      ∀ p, loadPreset hydra i = some p →
        List.Forall₂
          (LayerOver
            (if specPresetGlobal ((ph1.wPresetBagNdx : Int) - (ph.wPresetBagNdx : Int)) fz
              then fz else []))
          (layerZones hydra ph.wPresetBagNdx (ph1.wPresetBagNdx - ph.wPresetBagNdx))
          p.layers := by
  have key := presetGlobalGens_eq hydra i ph ph1 fz h0 h1 hfz
  refine ⟨key, ?_⟩
  intro p hp
  unfold loadPreset at hp
  rw [h0, h1] at hp
  cases hr : presetGlobalRange hydra i with
  | none => simp [hr] at hp
  | some r =>
    obtain ⟨gb, ge⟩ := r
    simp only [hr] at hp
    have hg : iterRange hydra.pgen gb ge = some
        (if specPresetGlobal ((ph1.wPresetBagNdx : Int) - (ph.wPresetBagNdx : Int)) fz
          then fz else []) := by
      rw [← key]
      simp only [presetGlobalGens, hr]
    split at hp
    · cases hl : presetZoneLoop hydra gb ge ph.wPresetBagNdx
          (ph1.wPresetBagNdx - ph.wPresetBagNdx) with
      | none => simp [hl] at hp
      | some layers =>
        simp only [hl, Option.some.injEq] at hp
        subst hp
        exact presetZoneLoop_layers hydra gb ge _ hg _ _ layers hl
    · simp at hp

/-- C5 at the preset of `hydraGlobalZone`: two zones, the first one
`[modLfoToPitch 7, initialFilterFc 100]`, which is the baseline; the second zone gives the
one layer, in which `modLfoToPitch` has the baseline value 7 and `initialFilterFc` the
local value 300. -/
theorem preset_global_zone_iff_witness :
    hydraGlobalZone.phdr[0]? = some ⟨0, 0, 0⟩ ∧
    hydraGlobalZone.phdr[0 + 1]? = some ⟨0, 0, 2⟩ ∧
    firstPresetZoneGens hydraGlobalZone ⟨0, 0, 0⟩ =
      some [⟨GenType.modLfoToPitch, 7⟩, ⟨GenType.initialFilterFc, 100⟩] ∧
    ((2 : Nat) : Int) - ((0 : Nat) : Int) > 1 ∧
    specPresetGlobal (((2 : Nat) : Int) - ((0 : Nat) : Int))
      [⟨GenType.modLfoToPitch, 7⟩, ⟨GenType.initialFilterFc, 100⟩] = true ∧
    layerZones hydraGlobalZone 0 (2 - 0) =
      [[⟨GenType.initialFilterFc, 300⟩, ⟨GenType.instrument, 0⟩]] ∧
    presetGlobalGens hydraGlobalZone 0 = some
      (if specPresetGlobal (((2 : Nat) : Int) - ((0 : Nat) : Int))
          [⟨GenType.modLfoToPitch, 7⟩, ⟨GenType.initialFilterFc, 100⟩]
        then [⟨GenType.modLfoToPitch, 7⟩, ⟨GenType.initialFilterFc, 100⟩] else []) ∧
    ∃ p, loadPreset hydraGlobalZone 0 = some p ∧
      List.Forall₂
        (LayerOver
          (if specPresetGlobal (((2 : Nat) : Int) - ((0 : Nat) : Int))
              [⟨GenType.modLfoToPitch, 7⟩, ⟨GenType.initialFilterFc, 100⟩]
            then [⟨GenType.modLfoToPitch, 7⟩, ⟨GenType.initialFilterFc, 100⟩] else []))
        (layerZones hydraGlobalZone 0 (2 - 0)) p.layers ∧
      p.layers.map (fun l => (l.instrument, l.modLFO_to_pitch, l.filter_freq)) =
        [(some 0, 7, 300)] :=
  ⟨by decide, by decide, by decide, by decide, by decide, by decide,
   (preset_global_zone_iff hydraGlobalZone 0 ⟨0, 0, 0⟩ ⟨0, 0, 2⟩
      [⟨GenType.modLfoToPitch, 7⟩, ⟨GenType.initialFilterFc, 100⟩]
      (by decide) (by decide) (fun _ => by decide)).1,
   ⟨{ num := 0,
      layers := [foldLayer [⟨GenType.modLfoToPitch, 7⟩, ⟨GenType.initialFilterFc, 300⟩,
                            ⟨GenType.instrument, 0⟩]] },
    rfl,
    (preset_global_zone_iff hydraGlobalZone 0 ⟨0, 0, 0⟩ ⟨0, 0, 2⟩
      [⟨GenType.modLfoToPitch, 7⟩, ⟨GenType.initialFilterFc, 100⟩]
      (by decide) (by decide) (fun _ => by decide)).2 _ rfl,
    by decide⟩⟩

/-! ## Theorems: voice construction in a pool that cannot grow -/

end SF2
